import Mathlib

/-!
# Reconciliation engine

A shallow embedding of `internal/reconcile/engine.go` (with the record types of
`internal/model/model.go` and `internal/loader/csv_loader.go`) and theorems about it.

Modelling conventions.

* `int64` values are integers; every `int64` operation of the source that can leave the
  range is followed by `wrap64` (two's complement wrap-around).  Inputs are arbitrary
  integers; a theorem that needs them to be `int64` values says so with `isInt64`.
* A `time.Time` is an instant (nanoseconds since the Unix epoch) together with the offset
  (seconds east of UTC) of its location at that instant and the identity of its
  `*Location`.  As a map key it is compared by all three, as Go's `==` compares the
  fields of the value; `Before` and `After` compare the instants.
* A Go map is an association list with pairwise different keys, read with `GoMap.get`
  and written with `GoMap.set`.  A `range` over a map visits the entries in list order;
  the order of the input bank map is the order of the list that is passed in, so a
  theorem about every list is a theorem about every visiting order.
* `sort.Slice` is not stable.  It is a parameter `S : SliceSort`: any function that
  returns a permutation of its input in which no element is less than an earlier one.
-/

namespace Amartha

/-! ## Machine integers -/

/-- Two's complement wrap-around of an integer to the `int64` range. -/
def wrap64 (x : Int) : Int := (x + 2 ^ 63) % 2 ^ 64 - 2 ^ 63

/-- The integer is an `int64` value. -/
def isInt64 (x : Int) : Prop := -(2 ^ 63) ≤ x ∧ x < 2 ^ 63

instance (x : Int) : Decidable (isInt64 x) := by unfold isInt64; infer_instance

/-- The constant `discrepancyTolerance`. -/
def discrepancyTolerance : Int := 5000

/-- The function `abs64`: `if v < 0 { return -v }; return v` on `int64`. -/
def abs64 (v : Int) : Int := if v < 0 then wrap64 (-v) else v

/-! ## Time -/

/-- A `time.Time` without a monotonic clock reading, as `time.Parse` and `time.Date`
return it: the instant in nanoseconds since the Unix epoch, the offset in seconds east of
UTC that the value's location has at that instant, and the identity of its `*Location`,
with 0 for `time.UTC`.  Two values are the same map key (Go's `==`) when all three
agree; `Before` and `After` compare the instants only. -/
structure Time where
  unixNano : Int
  offset : Int
  loc : Nat
deriving DecidableEq, Repr

/-- Nanoseconds in a day. -/
def nsPerDay : Int := 86400 * 1000000000

namespace Time

/-- The method `t.Before(u)`: the instant of `t` is before that of `u`. -/
def Before (t u : Time) : Bool := decide (t.unixNano < u.unixNano)

/-- The method `t.After(u)`: the instant of `t` is after that of `u`. -/
def After (t u : Time) : Bool := decide (u.unixNano < t.unixNano)

/-- The method `t.In(time.UTC)`: the same instant, in the location `time.UTC`. -/
def InUTC (t : Time) : Time := { unixNano := t.unixNano, offset := 0, loc := 0 }

/-- The number of the calendar day (days since 1970-01-01) that `t.Year()`, `t.Month()`,
`t.Day()` denote: the day of the instant on the clock of the value's location. -/
def civilDay (t : Time) : Int := (t.unixNano + t.offset * 1000000000) / nsPerDay

/-- The expression `time.Date(t.Year(), t.Month(), t.Day(), 0, 0, 0, 0, time.UTC)`:
midnight of the calendar day that `t` shows, in the location `time.UTC`. -/
def dateOnly (t : Time) : Time := { unixNano := t.civilDay * nsPerDay, offset := 0, loc := 0 }

/-- The time `time.Date(y, m, d, 0, 0, 0, 0, time.UTC)` of the day with the given number. -/
def ofDay (n : Int) : Time := { unixNano := n * nsPerDay, offset := 0, loc := 0 }

end Time

/-- Year, month and day of the proleptic Gregorian calendar for a day number (days since
1970-01-01), as `Year()`, `Month()` and `Day()` of the standard library compute them. -/
def civilFromDays (n : Int) : Int × Int × Int :=
  let z := n + 719468
  let era := z / 146097
  let doe := z % 146097
  let yoe := (doe - doe / 1460 + doe / 36524 - doe / 146096) / 365
  let doy := doe - (365 * yoe + yoe / 4 - yoe / 100)
  let mp := (5 * doy + 2) / 153
  let d := doy - (153 * mp + 2) / 5 + 1
  let m := if mp < 10 then mp + 3 else mp - 9
  let y := yoe + era * 400 + (if m ≤ 2 then 1 else 0)
  (y, m, d)

/-- The standard library's `appendInt(b, x, width)`: a minus sign for a negative number,
then the decimal digits, padded with zeros on the left to `width` digits. -/
def appendInt (x : Int) (width : Nat) : String :=
  let digits := toString x.natAbs
  (if x < 0 then "-" else "") ++ String.mk (List.replicate (width - digits.length) '0') ++ digits

/-- The call `d.Format("2006-01-02")`: four-digit year, two-digit month, two-digit day. -/
def formatDate (t : Time) : String :=
  let ymd := civilFromDays t.civilDay
  appendInt ymd.1 4 ++ "-" ++ appendInt ymd.2.1 2 ++ "-" ++ appendInt ymd.2.2 2

/-! ## Records (`model.go`, `csv_loader.go`) -/

/-- The type `model.SystemTransaction`; `Type_` is the field `Type`. -/
structure SystemTransaction where
  TrxID : String
  Amount : Int
  Type_ : String
  TransactionTime : Time
deriving DecidableEq, Repr

/-- The type `loader.BankStatement`. -/
structure BankStatement where
  UniqueIdentifier : String
  Amount : Int
  Date : Time
  BankName : String
deriving DecidableEq, Repr

/-- The type `model.NormalizedRecord`. -/
structure NormalizedRecord where
  ID : String
  Date : Time
  Amount : Int
deriving DecidableEq, Repr

/-- The type `bankRec`: a normalized record with the name of its bank. -/
structure bankRec extends NormalizedRecord where
  BankName : String
deriving DecidableEq, Repr

/-- The type `model.MatchedPair`. -/
structure MatchedPair where
  SystemID : String
  BankID : String
  BankName : String
  Date : String
  SystemAmount : Int
  BankAmount : Int
  Discrepancy : Int
deriving DecidableEq, Repr

/-! ## Go maps -/

/-- A Go map as an association list. -/
abbrev GoMap (κ ν : Type) := List (κ × ν)

namespace GoMap

variable {κ ν : Type} [DecidableEq κ]

/-- The read `m[k]` of a map of slices: the value stored under `k`, the nil slice when
the key is absent. -/
def get (m : GoMap κ (List ν)) (k : κ) : List ν :=
  match m with
  | [] => []
  | (k', v) :: rest => if k' = k then v else get rest k

/-- The write `m[k] = v`: replaces the value of an existing key, adds a new key. -/
def set (m : GoMap κ (List ν)) (k : κ) (v : List ν) : GoMap κ (List ν) :=
  match m with
  | [] => [(k, v)]
  | (k', v') :: rest => if k' = k then (k, v) :: rest else (k', v') :: set rest k v

/-- The keys of the map. -/
def keys (m : GoMap κ (List ν)) : List κ := m.map Prod.fst

/-- The statement `m[k] = append(m[k], vs...)`. -/
def appendAt (m : GoMap κ (List ν)) (k : κ) (vs : List ν) : GoMap κ (List ν) :=
  set m k (get m k ++ vs)

/-- The loop `for k, v := range src { dst[k] = append(dst[k], v...) }`. -/
def mergeInto (dst src : GoMap κ (List ν)) : GoMap κ (List ν) :=
  src.foldl (fun acc e => appendAt acc e.1 e.2) dst

end GoMap

/-! ## The result (`model.go`) -/

/-- The type `model.Summary`. -/
structure Summary where
  TotalProcessed : Nat
  TotalMatched : Nat
  TotalUnmatched : Nat
  TotalDiscrepancies : Int
deriving DecidableEq, Repr

/-- The type `model.Details`. -/
structure Details where
  Matched : List MatchedPair
  UnmatchedSystem : List NormalizedRecord
  UnmatchedBankByGroup : GoMap String (List NormalizedRecord)
deriving DecidableEq, Repr

/-- The type `model.Result`. -/
structure Result where
  Summary : Summary
  Details : Details
deriving DecidableEq, Repr

/-! ## Sorting -/

/-- What `sort.Slice(xs, func(i, j) bool { return key(xs[i]) < key(xs[j]) })` does to a
slice: it rearranges it so that no element has a smaller key than an earlier one.  The
order of elements with equal keys is up to the implementation. -/
structure SliceSort where
  sort : {α : Type} → (α → Int) → List α → List α
  perm : ∀ {α : Type} (key : α → Int) (l : List α), (sort key l).Perm l
  sorted : ∀ {α : Type} (key : α → Int) (l : List α),
    (sort key l).Pairwise (fun a b => key a ≤ key b)

/-- Insertion sort by key, a sort that `sort.Slice` may be: it makes the definitions
below executable. -/
def insertionSlice : SliceSort where
  sort key l := l.insertionSort (fun a b => key a ≤ key b)
  perm key l := List.perm_insertionSort _ l
  sorted key l := by
    haveI : IsTotal _ (fun a b => key a ≤ key b) := ⟨fun a b => le_total (key a) (key b)⟩
    haveI : IsTrans _ (fun a b => key a ≤ key b) := ⟨fun a b c h1 h2 => le_trans h1 h2⟩
    exact List.sorted_insertionSort _ l

/-! ## The engine (`engine.go`) -/

/-- The function `groupByDateSys`.  Two dates are the same key of the map when they are
equal as `Time` values: the same instant in the same `*Location`. -/
def groupByDateSys (sys : List NormalizedRecord) : GoMap Time (List NormalizedRecord) :=
  sys.foldl (fun out s => GoMap.appendAt out s.Date [s]) []

/-- The function `groupByDateBank`; its keys are compared as those of `groupByDateSys`. -/
def groupByDateBank (bank : List bankRec) : GoMap Time (List bankRec) :=
  bank.foldl (fun out b => GoMap.appendAt out b.Date [b]) []

/-- The write `set[d] = struct{}{}` on a set of dates. -/
def setInsert (set : List Time) (d : Time) : List Time :=
  if d ∈ set then set else set ++ [d]

/-- The function `collectSortedDates`: the dates that are a key of either map, each once,
sorted by `Before`. -/
def collectSortedDates (S : SliceSort) (sysByDate : GoMap Time (List NormalizedRecord))
    (bankByDate : GoMap Time (List bankRec)) : List Time :=
  let set := (GoMap.keys sysByDate).foldl setInsert []
  let set := (GoMap.keys bankByDate).foldl setInsert set
  S.sort (fun d => d.unixNano) set

/-- The three results that `pairForDate` and `matchByDateAndAmount` build up. -/
structure Pairing where
  matched : List MatchedPair
  unmatchedSys : List NormalizedRecord
  unmatchedBank : GoMap String (List NormalizedRecord)
deriving DecidableEq, Repr

/-- The pair that `pairForDate` appends for the system record `s` and the bank record `b`
on date `d`. -/
def mkPair (d : Time) (s : NormalizedRecord) (b : bankRec) : MatchedPair :=
  { SystemID := s.ID
    BankID := b.ID
    BankName := b.BankName
    Date := formatDate d
    SystemAmount := s.Amount
    BankAmount := b.Amount
    Discrepancy := abs64 (wrap64 (s.Amount - b.Amount)) }

/-- The loops of `pairForDate` after the two sorts: the cursors `i` and `j` are the lists
of records not yet visited.  Each round of the `for` loop uses one unit of `fuel`; the
two `if` statements after the loop are the cases with an empty list. -/
def pairLoop (d : Time) : Nat → List NormalizedRecord → List bankRec → Pairing → Pairing
  | _, [], bs, st =>
    { st with unmatchedBank :=
        bs.foldl (fun m b => GoMap.appendAt m b.BankName [b.toNormalizedRecord]) st.unmatchedBank }
  | _, s :: ss, [], st => { st with unmatchedSys := st.unmatchedSys ++ (s :: ss) }
  | 0, _ :: _, _ :: _, st => st
  | fuel + 1, s :: ss, b :: bs, st =>
    let diff := abs64 (wrap64 (s.Amount - b.Amount))
    if diff ≤ discrepancyTolerance then
      pairLoop d fuel ss bs { st with matched := st.matched ++ [mkPair d s b] }
    else if s.Amount < b.Amount then
      pairLoop d fuel ss (b :: bs) { st with unmatchedSys := st.unmatchedSys ++ [s] }
    else
      pairLoop d fuel (s :: ss) bs
        { st with unmatchedBank :=
            GoMap.appendAt st.unmatchedBank b.BankName [b.toNormalizedRecord] }

/-- The function `pairForDate`. -/
def pairForDate (S : SliceSort) (d : Time) (sList : List NormalizedRecord)
    (bList : List bankRec) : Pairing :=
  let sList := S.sort (fun s => s.Amount) sList
  let bList := S.sort (fun b => b.Amount) bList
  pairLoop d (sList.length + bList.length) sList bList
    { matched := [], unmatchedSys := [], unmatchedBank := [] }

/-- The function `matchByDateAndAmount`. -/
def matchByDateAndAmount (S : SliceSort) (sys : List NormalizedRecord) (bank : List bankRec) :
    Pairing :=
  let sysByDate := groupByDateSys sys
  let bankByDate := groupByDateBank bank
  let ds := collectSortedDates S sysByDate bankByDate
  ds.foldl
    (fun acc d =>
      let r := pairForDate S d (GoMap.get sysByDate d) (GoMap.get bankByDate d)
      { matched := acc.matched ++ r.matched
        unmatchedSys := acc.unmatchedSys ++ r.unmatchedSys
        unmatchedBank := GoMap.mergeInto acc.unmatchedBank r.unmatchedBank })
    { matched := [], unmatchedSys := [], unmatchedBank := [] }

/-- The call `strings.EqualFold(t, "DEBIT")`.  No letter of `DEBIT` has a case variant
outside ASCII, so the comparison is the comparison of the ASCII upper-case form. -/
def equalFoldDEBIT (t : String) : Bool :=
  decide (t.data.map Char.toUpper = ['D', 'E', 'B', 'I', 'T'])

/-- The signed amount of a system transaction: `signed := s.Amount`, negated (on `int64`)
when the type is `DEBIT`. -/
def signedAmount (s : SystemTransaction) : Int :=
  if equalFoldDEBIT s.Type_ then wrap64 (-s.Amount) else s.Amount

/-- The test `dateOnly.Before(start) || dateOnly.After(end)` that skips a record. -/
def outOfRange (d start end_ : Time) : Bool := d.Before start || d.After end_

/-- The first loop of `Reconcile`: the pair `(sysPos, sysNeg)`. -/
def normalizeSystem (sys : List SystemTransaction) (start end_ : Time) :
    List NormalizedRecord × List NormalizedRecord :=
  sys.foldl
    (fun acc s =>
      let dateOnly := s.TransactionTime.InUTC.dateOnly
      if outOfRange dateOnly start end_ then acc
      else
        let signed := signedAmount s
        let rec_ : NormalizedRecord := { ID := s.TrxID, Date := dateOnly, Amount := signed }
        if signed ≥ 0 then (acc.1 ++ [rec_], acc.2) else (acc.1, acc.2 ++ [rec_]))
    ([], [])

/-- The second loop of `Reconcile`: the pair `(bankPos, bankNeg)`. -/
def normalizeBanks (banks : GoMap String (List BankStatement)) (start end_ : Time) :
    List bankRec × List bankRec :=
  banks.foldl
    (fun acc e =>
      e.2.foldl
        (fun acc b =>
          let d := b.Date.dateOnly
          if outOfRange d start end_ then acc
          else
            let br : bankRec :=
              { ID := b.UniqueIdentifier, Date := d, Amount := b.Amount, BankName := e.1 }
            if b.Amount ≥ 0 then (acc.1 ++ [br], acc.2) else (acc.1, acc.2 ++ [br]))
        acc)
    ([], [])

/-- The loop `for _, m := range matched { totalDiscrepancies += abs64(m.SystemAmount -
m.BankAmount) }` on `int64`. -/
def sumDiscrepancies (matched : List MatchedPair) : Int :=
  matched.foldl (fun total m => wrap64 (total + abs64 (wrap64 (m.SystemAmount - m.BankAmount)))) 0

/-- The loop `for _, recs := range unmatchedBankByGroup { totalUnmatched += len(recs) }`
started at `len(unmatchedSys)`. -/
def countUnmatched (unmatchedSys : List NormalizedRecord)
    (byGroup : GoMap String (List NormalizedRecord)) : Nat :=
  byGroup.foldl (fun total e => total + e.2.length) unmatchedSys.length

/-- The function `Reconcile`; the second component is the returned error, always `nil`. -/
def Reconcile (S : SliceSort) (sys : List SystemTransaction)
    (banks : GoMap String (List BankStatement)) (start end_ : Time) : Result × Option String :=
  let sysPN := normalizeSystem sys start end_
  let bankPN := normalizeBanks banks start end_
  let pos := matchByDateAndAmount S sysPN.1 bankPN.1
  let neg := matchByDateAndAmount S sysPN.2 bankPN.2
  let matched := pos.matched ++ neg.matched
  let unmatchedSys := pos.unmatchedSys ++ neg.unmatchedSys
  let unmatchedBankByGroup := GoMap.mergeInto (GoMap.mergeInto [] pos.unmatchedBank) neg.unmatchedBank
  let totalProcessed := sysPN.1.length + sysPN.2.length + bankPN.1.length + bankPN.2.length
  ({ Summary :=
       { TotalProcessed := totalProcessed
         TotalMatched := matched.length
         TotalUnmatched := countUnmatched unmatchedSys unmatchedBankByGroup
         TotalDiscrepancies := sumDiscrepancies matched }
     Details :=
       { Matched := matched
         UnmatchedSystem := unmatchedSys
         UnmatchedBankByGroup := unmatchedBankByGroup } },
   none)

/-! ## The outcome of the sweep as records

The sweep of `pairForDate` decides the fate of every record; `sweep` returns the records
themselves, so that theorems can speak of the records behind a `MatchedPair`.  It is
related to `pairLoop` by `pairLoop_eq`. -/

/-- The records that a sweep pairs, and the records it leaves unmatched on either side. -/
structure Sweep where
  pairs : List (NormalizedRecord × bankRec)
  unS : List NormalizedRecord
  unB : List bankRec

/-- The decisions of `pairLoop`, without the accumulators. -/
def sweep : Nat → List NormalizedRecord → List bankRec → Sweep
  | _, [], bs => { pairs := [], unS := [], unB := bs }
  | _, s :: ss, [] => { pairs := [], unS := s :: ss, unB := [] }
  | 0, _ :: _, _ :: _ => { pairs := [], unS := [], unB := [] }
  | fuel + 1, s :: ss, b :: bs =>
    if abs64 (wrap64 (s.Amount - b.Amount)) ≤ discrepancyTolerance then
      let r := sweep fuel ss bs
      { r with pairs := (s, b) :: r.pairs }
    else if s.Amount < b.Amount then
      let r := sweep fuel ss (b :: bs)
      { r with unS := s :: r.unS }
    else
      let r := sweep fuel (s :: ss) bs
      { r with unB := b :: r.unB }

/-- The sweep of one date: both lists sorted, then swept. -/
def sweepDate (S : SliceSort) (sList : List NormalizedRecord) (bList : List bankRec) : Sweep :=
  sweep ((S.sort (fun s => s.Amount) sList).length + (S.sort (fun b => b.Amount) bList).length)
    (S.sort (fun s => s.Amount) sList) (S.sort (fun b => b.Amount) bList)

/-- The loop that records bank records as unmatched under their bank name. -/
def addUnmatchedBank (m : GoMap String (List NormalizedRecord)) (bs : List bankRec) :
    GoMap String (List NormalizedRecord) :=
  bs.foldl (fun m b => GoMap.appendAt m b.BankName [b.toNormalizedRecord]) m

/-- The sum of the lengths of the slices of a map. -/
def GoMap.totalLen {κ ν : Type} (m : GoMap κ (List ν)) : Nat := (m.map (fun e => e.2.length)).sum

/-- The normalized record that the first loop of `Reconcile` builds for a transaction. -/
def normalizedSys (s : SystemTransaction) : NormalizedRecord :=
  { ID := s.TrxID, Date := s.TransactionTime.InUTC.dateOnly, Amount := signedAmount s }

/-- The bank record that the second loop of `Reconcile` builds for a statement line found
under the key `name`. -/
def normalizedBank (name : String) (b : BankStatement) : bankRec :=
  { ID := b.UniqueIdentifier, Date := b.Date.dateOnly, Amount := b.Amount, BankName := name }

/-- The in-range system records, normalized, in input order. -/
def sysInRange (sys : List SystemTransaction) (start end_ : Time) : List NormalizedRecord :=
  (sys.map normalizedSys).filter (fun n => !outOfRange n.Date start end_)

/-- The in-range bank records of all banks, normalized, in visiting order. -/
def bankInRange (banks : GoMap String (List BankStatement)) (start end_ : Time) : List bankRec :=
  (banks.flatMap (fun e => e.2.map (normalizedBank e.1))).filter
    (fun n => !outOfRange n.Date start end_)

/-- The dates that `matchByDateAndAmount` visits, in visiting order. -/
def matchDates (S : SliceSort) (sys : List NormalizedRecord) (bank : List bankRec) : List Time :=
  collectSortedDates S (groupByDateSys sys) (groupByDateBank bank)

/-- The sweeps of all dates of one sign partition, one after the other. -/
def sweepAll (S : SliceSort) (sys : List NormalizedRecord) (bank : List bankRec) : Sweep :=
  { pairs := (matchDates S sys bank).flatMap (fun d =>
      (sweepDate S (sys.filter (fun s => s.Date = d)) (bank.filter (fun b => b.Date = d))).pairs)
    unS := (matchDates S sys bank).flatMap (fun d =>
      (sweepDate S (sys.filter (fun s => s.Date = d)) (bank.filter (fun b => b.Date = d))).unS)
    unB := (matchDates S sys bank).flatMap (fun d =>
      (sweepDate S (sys.filter (fun s => s.Date = d)) (bank.filter (fun b => b.Date = d))).unB) }

/-- The pair built from a system record and a bank record of the same date. -/
def pairOf (p : NormalizedRecord × bankRec) : MatchedPair := mkPair p.1.Date p.1 p.2

/-- The slice `sysPos` of `Reconcile`: the in-range system records with amount `>= 0`. -/
def sysPos (sys : List SystemTransaction) (start end_ : Time) : List NormalizedRecord :=
  (sysInRange sys start end_).filter (fun n => decide (n.Amount ≥ 0))

/-- The slice `sysNeg` of `Reconcile`: the in-range system records with amount `< 0`. -/
def sysNeg (sys : List SystemTransaction) (start end_ : Time) : List NormalizedRecord :=
  (sysInRange sys start end_).filter (fun n => !decide (n.Amount ≥ 0))

/-- The slice `bankPos` of `Reconcile`: the in-range bank records with amount `>= 0`. -/
def bankPos (banks : GoMap String (List BankStatement)) (start end_ : Time) : List bankRec :=
  (bankInRange banks start end_).filter (fun n => decide (n.Amount ≥ 0))

/-- The slice `bankNeg` of `Reconcile`: the in-range bank records with amount `< 0`. -/
def bankNeg (banks : GoMap String (List BankStatement)) (start end_ : Time) : List bankRec :=
  (bankInRange banks start end_).filter (fun n => !decide (n.Amount ≥ 0))

/-- The sweeps of `Reconcile`: those of the non-negative partition, then those of the
negative partition. -/
def sweepBoth (S : SliceSort) (sys : List SystemTransaction)
    (banks : GoMap String (List BankStatement)) (start end_ : Time) : Sweep :=
  { pairs := (sweepAll S (sysPos sys start end_) (bankPos banks start end_)).pairs
      ++ (sweepAll S (sysNeg sys start end_) (bankNeg banks start end_)).pairs
    unS := (sweepAll S (sysPos sys start end_) (bankPos banks start end_)).unS
      ++ (sweepAll S (sysNeg sys start end_) (bankNeg banks start end_)).unS
    unB := (sweepAll S (sysPos sys start end_) (bankPos banks start end_)).unB
      ++ (sweepAll S (sysNeg sys start end_) (bankNeg banks start end_)).unB }

/-! ## Vocabulary of the statements -/

/-- A normalized record as the triple of identifier, date (as `MatchedPair` shows dates)
and signed amount. -/
def recTriple (n : NormalizedRecord) : String × String × Int := (n.ID, formatDate n.Date, n.Amount)

/-- The system side of a matched pair: `SystemID`, `Date`, `SystemAmount`. -/
def sysSide (m : MatchedPair) : String × String × Int := (m.SystemID, m.Date, m.SystemAmount)

/-- The bank side of a matched pair: `BankID`, `Date`, `BankAmount`. -/
def bankSide (m : MatchedPair) : String × String × Int := (m.BankID, m.Date, m.BankAmount)

/-- The calendar day of a system transaction: the day of its time in UTC. -/
def sysDay (s : SystemTransaction) : Int := s.TransactionTime.InUTC.civilDay

/-- The calendar day of a bank statement line: the day that its `Date` shows. -/
def bankDay (b : BankStatement) : Int := b.Date.civilDay

/-! ## The data of `TestReconcileBasic` (`engine_test.go`) -/

/-- The time `mustRFC3339` returns for the given day number, hour and minute in UTC. -/
def utcTime (day hour minute : Int) : Time :=
  { unixNano := day * nsPerDay + (hour * 3600 + minute * 60) * 1000000000, offset := 0,
    loc := 0 }

/-- The slice `sys` of the test; day 20240 is 2025-06-01. -/
def testSys : List SystemTransaction :=
  [ { TrxID := "TRX-1001", Amount := 250000, Type_ := "CREDIT", TransactionTime := utcTime 20240 10 15 },
    { TrxID := "TRX-1002", Amount := 125000, Type_ := "DEBIT", TransactionTime := utcTime 20240 12 0 },
    { TrxID := "TRX-1003", Amount := 500000, Type_ := "CREDIT", TransactionTime := utcTime 20241 9 0 },
    { TrxID := "TRX-1004", Amount := 180000, Type_ := "CREDIT", TransactionTime := utcTime 20241 14 21 },
    { TrxID := "TRX-1005", Amount := 75000, Type_ := "DEBIT", TransactionTime := utcTime 20242 8 0 },
    { TrxID := "TRX-1006", Amount := 42000, Type_ := "CREDIT", TransactionTime := utcTime 20242 17 0 } ]

/-- The statement lines of `bankA` in the test. -/
def testBankA : List BankStatement :=
  [ { UniqueIdentifier := "BA-7781", Amount := 250000, Date := Time.ofDay 20240, BankName := "bankA" },
    { UniqueIdentifier := "BA-7782", Amount := -125000, Date := Time.ofDay 20240, BankName := "bankA" },
    { UniqueIdentifier := "BA-7783", Amount := 495000, Date := Time.ofDay 20241, BankName := "bankA" },
    { UniqueIdentifier := "BA-7784", Amount := 180000, Date := Time.ofDay 20241, BankName := "bankA" } ]

/-- The statement lines of `bankB` in the test. -/
def testBankB : List BankStatement :=
  [ { UniqueIdentifier := "BB-3001", Amount := -75000, Date := Time.ofDay 20242, BankName := "bankB" },
    { UniqueIdentifier := "BB-3002", Amount := 100000, Date := Time.ofDay 20242, BankName := "bankB" } ]

/-- The map `banks` of the test, `bankA` visited first. -/
def testBanks : GoMap String (List BankStatement) := [("bankA", testBankA), ("bankB", testBankB)]

/-- The two lists have no two different records with the same date and amount. -/
def tieFree (sys : List NormalizedRecord) (bank : List bankRec) : Prop :=
  (∀ x ∈ sys, ∀ y ∈ sys, x.Date = y.Date → x.Amount = y.Amount → x = y)
    ∧ (∀ x ∈ bank, ∀ y ∈ bank, x.Date = y.Date → x.Amount = y.Amount → x = y)

instance (sys : List NormalizedRecord) (bank : List bankRec) : Decidable (tieFree sys bank) := by
  unfold tieFree; infer_instance

/-- All slices of a map, one after the other. -/
def GoMap.values {κ ν : Type} (m : GoMap κ (List ν)) : List ν := m.flatMap (fun e => e.2)

/-! ## Pairings of two lists, for the statements about optimality -/

/-- A way of forming disjoint system/bank pairs from the two lists with every pair within
the tolerance: no record is used more often than it occurs in its list. -/
def isPairing (sList : List NormalizedRecord) (bList : List bankRec)
    (ps : List (NormalizedRecord × bankRec)) : Prop :=
  (ps.map Prod.fst).Subperm sList ∧ (ps.map Prod.snd).Subperm bList
    ∧ ∀ p ∈ ps, |p.1.Amount - p.2.Amount| ≤ 5000

/-- The sum of the absolute differences of the amounts of the pairs. -/
def pairingCost (ps : List (NormalizedRecord × bankRec)) : Int :=
  (ps.map (fun p => |p.1.Amount - p.2.Amount|)).sum

/-- Two system records of one date with the amounts 0 and 4000. -/
def greedySys : List NormalizedRecord :=
  [ { ID := "S-1", Date := Time.ofDay 20240, Amount := 0 },
    { ID := "S-2", Date := Time.ofDay 20240, Amount := 4000 } ]

/-- One bank record of the same date with the amount 4000. -/
def greedyBank : List bankRec :=
  [ { ID := "B-1", Date := Time.ofDay 20240, Amount := 4000, BankName := "bankA" } ]

/-- The amounts of the pairs of a sweep, in order. -/
def amountsOf (T : Sweep) : List (Int × Int) := T.pairs.map (fun p => (p.1.Amount, p.2.Amount))

/-- The bank map `banks2` is `banks1` with the entries visited in another order and the
slice of every entry rearranged. -/
def bankReordering (banks1 banks2 : GoMap String (List BankStatement)) : Prop :=
  ∃ mid, banks1.Perm mid ∧ List.Forall₂ (fun e1 e2 => e1.1 = e2.1 ∧ e1.2.Perm e2.2) mid banks2

/-- The pair of `TRX-1003` and `BA-7783` that the test data produces. -/
def testPair : MatchedPair :=
  { SystemID := "TRX-1003", BankID := "BA-7783", BankName := "bankA", Date := "2025-06-02",
    SystemAmount := 500000, BankAmount := 495000, Discrepancy := 5000 }

/-- The pair of `TRX-1002` and `BA-7782` that the test data produces. -/
def testDebitPair : MatchedPair :=
  { SystemID := "TRX-1002", BankID := "BA-7782", BankName := "bankA", Date := "2025-06-01",
    SystemAmount := -125000, BankAmount := -125000, Discrepancy := 0 }

/-- Two credit transactions of 2025-06-01 with the amounts 0 and 4000: the input of
`Reconcile` that gives `greedySys`. -/
def greedyTxs : List SystemTransaction :=
  [ { TrxID := "S-1", Amount := 0, Type_ := "CREDIT", TransactionTime := utcTime 20240 9 0 },
    { TrxID := "S-2", Amount := 4000, Type_ := "CREDIT", TransactionTime := utcTime 20240 10 0 } ]

/-- One statement line of `bankA` of 2025-06-01 with the amount 4000. -/
def greedyBanks : GoMap String (List BankStatement) :=
  [("bankA", [{ UniqueIdentifier := "B-1", Amount := 4000, Date := Time.ofDay 20240,
                BankName := "bankA" }])]

/-! ## The loops of `pairForDate` with indices

The cursors `i` and `j` as numbers and every `sList[i]`, `bList[j]` and `sList[i:]` as an
operation that can fail: `none` is the run-time panic of an index out of range (or a loop
that is not over when the fuel is used up). -/

/-- The slice expression `l[i:]`, which panics when `i > len(l)`. -/
def sliceFrom {α : Type} (l : List α) (i : Nat) : Option (List α) :=
  if i ≤ l.length then some (l.drop i) else none

/-- The loop `for ; j < len(bList); j++ { b := bList[j]; unmatchedBank[b.BankName] =
append(unmatchedBank[b.BankName], b.NormalizedRecord) }`. -/
def restBankIndexed (bList : List bankRec) :
    Nat → Nat → GoMap String (List NormalizedRecord) → Option (GoMap String (List NormalizedRecord))
  | 0, j, m => if j < bList.length then none else some m
  | fuel + 1, j, m =>
    if j < bList.length then
      match bList[j]? with
      | some b =>
        restBankIndexed bList fuel (j + 1) (GoMap.appendAt m b.BankName [b.toNormalizedRecord])
      | none => none
    else some m

/-- The two `if` statements after the `for` loop of `pairForDate`. -/
def afterLoopIndexed (sList : List NormalizedRecord) (bList : List bankRec) (i j : Nat)
    (st : Pairing) : Option Pairing :=
  match (if i < sList.length then (sliceFrom sList i).map (fun tl => st.unmatchedSys ++ tl)
      else some st.unmatchedSys) with
  | none => none
  | some us =>
    match restBankIndexed bList (bList.length - j) j st.unmatchedBank with
    | none => none
    | some ub => some { matched := st.matched, unmatchedSys := us, unmatchedBank := ub }

/-- The `for i < len(sList) && j < len(bList)` loop of `pairForDate` and what follows it. -/
def pairLoopIndexed (d : Time) (sList : List NormalizedRecord) (bList : List bankRec) :
    Nat → Nat → Nat → Pairing → Option Pairing
  | 0, i, j, st =>
    if i < sList.length ∧ j < bList.length then none else afterLoopIndexed sList bList i j st
  | fuel + 1, i, j, st =>
    if i < sList.length ∧ j < bList.length then
      match sList[i]?, bList[j]? with
      | some s, some b =>
        let diff := abs64 (wrap64 (s.Amount - b.Amount))
        if diff ≤ discrepancyTolerance then
          pairLoopIndexed d sList bList fuel (i + 1) (j + 1)
            { st with matched := st.matched ++ [mkPair d s b] }
        else if s.Amount < b.Amount then
          pairLoopIndexed d sList bList fuel (i + 1) j
            { st with unmatchedSys := st.unmatchedSys ++ [s] }
        else
          pairLoopIndexed d sList bList fuel i (j + 1)
            { st with unmatchedBank :=
                GoMap.appendAt st.unmatchedBank b.BankName [b.toNormalizedRecord] }
      | _, _ => none
    else afterLoopIndexed sList bList i j st

/-- The function `pairForDate` with indices. -/
def pairForDateIndexed (S : SliceSort) (d : Time) (sList : List NormalizedRecord)
    (bList : List bankRec) : Option Pairing :=
  let sList := S.sort (fun s => s.Amount) sList
  let bList := S.sort (fun b => b.Amount) bList
  pairLoopIndexed d sList bList (sList.length + bList.length) 0 0
    { matched := [], unmatchedSys := [], unmatchedBank := [] }

/-- The result without any record: all counters 0 and all collections empty. -/
def emptyResult : Result :=
  { Summary := { TotalProcessed := 0, TotalMatched := 0, TotalUnmatched := 0,
                 TotalDiscrepancies := 0 }
    Details := { Matched := [], UnmatchedSystem := [], UnmatchedBankByGroup := [] } }

/-- The sign partition of an amount: with `neg` the partition `< 0` (`sysNeg`, `bankNeg`),
without it the partition `>= 0` (`sysPos`, `bankPos`). -/
def inClass (neg : Bool) (x : Int) : Bool := if neg then decide (x < 0) else decide (0 ≤ x)

/-- A bank map with two statement lines of 2025-06-02, one with a negative amount and one
that is within the tolerance of `TRX-1003`; the test data have no debit on that day. -/
def lonelyBanks : GoMap String (List BankStatement) :=
  [("bankC", [{ UniqueIdentifier := "BC-1", Amount := -5000, Date := Time.ofDay 20241,
                BankName := "bankC" },
              { UniqueIdentifier := "BC-2", Amount := 495000, Date := Time.ofDay 20241,
                BankName := "bankC" }])]

/-! ## Output order -/

/-- The errors of `strconv`: `ErrSyntax` (`invalid`) and `ErrRange` (`outOfRange`). -/
inductive NumError where
  | invalid
  | outOfRange
deriving DecidableEq, Repr

/-- The largest `uint64`. -/
def maxUint64 : Nat := 2 ^ 64 - 1

/-- The loop of `strconv.ParseUint(s, 10, 64)` over the bytes of `s`, with `n` the value
read so far: a byte that is not a decimal digit is a syntax error; a value that leaves
`uint64` is a range error with the value `maxUint64`. -/
def parseUintLoop : List Char → Nat → Nat × Option NumError
  | [], n => (n, none)
  | c :: cs, n =>
    if c.isDigit then
      let d := c.toNat - 48
      if n ≥ maxUint64 / 10 + 1 then (maxUint64, some NumError.outOfRange)
      else
        let n10 := n * 10
        let n1 := (n10 + d) % 2 ^ 64
        if n1 < n10 ∨ n1 > maxUint64 then (maxUint64, some NumError.outOfRange)
        else parseUintLoop cs n1
    else (0, some NumError.invalid)

/-- The function `strconv.ParseUint(s, 10, 64)`. -/
def ParseUint (s : List Char) : Nat × Option NumError :=
  if s = [] then (0, some NumError.invalid) else parseUintLoop s 0

/-- The function `strconv.ParseInt(s, 10, 64)`. -/
def ParseInt (s : List Char) : Int × Option NumError :=
  match s with
  | [] => (0, some NumError.invalid)
  | c :: cs =>
    let neg : Bool := decide (c = '-')
    let rest := if c = '+' ∨ c = '-' then cs else c :: cs
    let r := ParseUint rest
    if r.2 = some NumError.invalid then (0, r.2)
    else if neg = false ∧ r.1 ≥ 2 ^ 63 then (2 ^ 63 - 1, some NumError.outOfRange)
    else if neg = true ∧ r.1 > 2 ^ 63 then (-(2 ^ 63), some NumError.outOfRange)
    else (if neg then wrap64 (-(wrap64 (r.1 : Int))) else wrap64 (r.1 : Int), none)

/-- The loop of `parseAmount` that builds `clean`: the runes of `s` without the commas. -/
def removeCommas (s : String) : List Char :=
  s.data.foldl (fun clean ch => if ch = ',' then clean else clean ++ [ch]) []

/-- The function `parseAmount`. -/
def parseAmount (s : String) : Int × Option NumError :=
  let r := ParseInt (removeCommas s)
  if r.2 ≠ none then (0, r.2) else (r.1, none)

/-! ## Decimal texts, for the statements about `parseAmount` -/

/-- The value of a text of decimal digits, most significant digit first, counted on from
`n`. -/
def decimalFrom (n : Nat) (ds : List Char) : Nat :=
  ds.foldl (fun n c => 10 * n + (c.toNat - 48)) n

/-- The decimal digits of a natural number, most significant first; `0` is `"0"`. -/
def decimalDigits (m : Nat) : List Char :=
  if m = 0 then ['0'] else (Nat.digits 10 m).reverse.map Nat.digitChar

/-- The decimal rendering of an integer: a `-` for a negative number, then the digits. -/
def decimalText (n : Int) : List Char :=
  (if n < 0 then ['-'] else []) ++ decimalDigits n.natAbs

/-- The text is an optional `+` or `-` followed by one or more decimal digits, and `v` is
the `int64` value it denotes. -/
def denotes (cs : List Char) (v : Int) : Prop :=
  ∃ ds : List Char, ds ≠ [] ∧ (∀ c ∈ ds, c.isDigit = true) ∧ isInt64 v
    ∧ ((cs = ds ∧ v = (decimalFrom 0 ds : Int)) ∨ (cs = '+' :: ds ∧ v = (decimalFrom 0 ds : Int))
        ∨ (cs = '-' :: ds ∧ v = -(decimalFrom 0 ds : Int)))

/-! ## A debit with a negative raw amount -/

/-- The second row of `TestLoadSystemCSV_OK` as the loader returns it: a `DEBIT` with the
raw amount -125000, on 2025-06-01. -/
def flippedTxs : List SystemTransaction :=
  [ { TrxID := "TRX-2", Amount := -125000, Type_ := "DEBIT", TransactionTime := utcTime 20240 15 0 } ]

/-- A bank map with one statement line of +125000 on 2025-06-01. -/
def inflowBanks : GoMap String (List BankStatement) :=
  [("bankA", [{ UniqueIdentifier := "BA-1", Amount := 125000, Date := Time.ofDay 20240,
                BankName := "bankA" }])]

/-- A bank map with one statement line of -125000 on 2025-06-01. -/
def outflowBanks : GoMap String (List BankStatement) :=
  [("bankA", [{ UniqueIdentifier := "BA-1", Amount := -125000, Date := Time.ofDay 20240,
                BankName := "bankA" }])]

/-! ## Order of matched pairs, read off their fields -/

/-- The three transactions that the loader returns in `TestLoadSystemCSV_OK`: raw amounts
250000, -125000 and 495000. -/
def loaderTxs : List SystemTransaction :=
  [ { TrxID := "TRX-1", Amount := 250000, Type_ := "CREDIT",
      TransactionTime := { unixNano := 20240 * nsPerDay + (12 * 3600 + 34 * 60 + 56) * 1000000000,
                           offset := 0, loc := 0 } },
    { TrxID := "TRX-2", Amount := -125000, Type_ := "DEBIT", TransactionTime := utcTime 20240 15 0 },
    { TrxID := "TRX-3", Amount := 495000, Type_ := "CREDIT", TransactionTime := utcTime 20241 8 0 } ]

/-! ## Lemmas on Go maps -/

namespace GoMap

variable {κ ν : Type} [DecidableEq κ]

theorem get_set (m : GoMap κ (List ν)) (k k' : κ) (v : List ν) :
    get (set m k v) k' = if k = k' then v else get m k' := by
  induction m with
  | nil => simp [set, get]
  | cons e rest ih =>
    obtain ⟨k0, v0⟩ := e
    by_cases h : k0 = k
    · subst h
      by_cases h' : k0 = k' <;> simp [set, get, h']
    · by_cases h' : k0 = k'
      · subst h'
        have : ¬ k = k0 := fun e => h e.symm
        simp [set, get, h, this]
      · simp [set, get, h, h', ih]

theorem get_appendAt (m : GoMap κ (List ν)) (k k' : κ) (vs : List ν) :
    get (appendAt m k vs) k' = if k = k' then get m k ++ vs else get m k' := by
  simp [appendAt, get_set]

theorem get_of_not_mem_keys (m : GoMap κ (List ν)) (k : κ) (h : k ∉ keys m) : get m k = [] := by
  induction m with
  | nil => simp [get]
  | cons e rest ih =>
    obtain ⟨k0, v0⟩ := e
    simp only [keys, List.map_cons, List.mem_cons, not_or] at h
    have h0 : ¬ k0 = k := fun e => h.1 e.symm
    simp only [get, h0, if_false]
    exact ih h.2

theorem mem_keys_set (m : GoMap κ (List ν)) (k k' : κ) (v : List ν) :
    k' ∈ keys (set m k v) ↔ k' = k ∨ k' ∈ keys m := by
  induction m with
  | nil => simp [set, keys]
  | cons e rest ih =>
    obtain ⟨k0, v0⟩ := e
    by_cases h : k0 = k
    · subst h; simp [set, keys]
    · simp only [set, h, if_false, keys, List.map_cons, List.mem_cons]
      simp only [keys] at ih
      rw [ih]; tauto

theorem nodup_keys_set (m : GoMap κ (List ν)) (k : κ) (v : List ν) (h : (keys m).Nodup) :
    (keys (set m k v)).Nodup := by
  induction m with
  | nil => simp [set, keys]
  | cons e rest ih =>
    obtain ⟨k0, v0⟩ := e
    simp only [keys, List.map_cons, List.nodup_cons] at h
    by_cases hk : k0 = k
    · subst hk; simpa [set, keys] using h
    · simp only [set, hk, if_false, keys, List.map_cons, List.nodup_cons]
      refine ⟨?_, ih h.2⟩
      intro hm
      have := (mem_keys_set rest k k0 v).1 hm
      rcases this with h1 | h1
      · exact hk h1
      · exact h.1 h1

theorem nodup_keys_appendAt (m : GoMap κ (List ν)) (k : κ) (vs : List ν) (h : (keys m).Nodup) :
    (keys (appendAt m k vs)).Nodup := nodup_keys_set m k _ h

theorem nodup_keys_mergeInto (dst src : GoMap κ (List ν)) (h : (keys dst).Nodup) :
    (keys (mergeInto dst src)).Nodup := by
  induction src generalizing dst with
  | nil => simpa [mergeInto] using h
  | cons e rest ih =>
    simp only [mergeInto, List.foldl_cons]
    exact ih _ (nodup_keys_appendAt dst e.1 e.2 h)

theorem get_mergeInto (dst src : GoMap κ (List ν)) (h : (keys src).Nodup) (k : κ) :
    get (mergeInto dst src) k = get dst k ++ get src k := by
  induction src generalizing dst with
  | nil => simp [mergeInto, get]
  | cons e rest ih =>
    obtain ⟨k0, v0⟩ := e
    simp only [keys, List.map_cons, List.nodup_cons] at h
    have ih' := ih (appendAt dst k0 v0) h.2
    simp only [mergeInto, List.foldl_cons] at ih' ⊢
    rw [ih', get_appendAt]
    by_cases hk : k0 = k
    · subst hk
      have : get rest k0 = [] := get_of_not_mem_keys rest k0 h.1
      simp [get, this]
    · simp [get, hk]

theorem totalLen_set_append (m : GoMap κ (List ν)) (k : κ) (vs : List ν) :
    totalLen (appendAt m k vs) = totalLen m + vs.length := by
  induction m with
  | nil => simp [appendAt, set, get, totalLen]
  | cons e rest ih =>
    obtain ⟨k0, v0⟩ := e
    by_cases hk : k0 = k
    · subst hk
      simp [appendAt, set, get, totalLen]; omega
    · simp only [appendAt, set, get, hk, if_false, totalLen, List.map_cons, List.sum_cons] at ih ⊢
      rw [ih]; omega

theorem totalLen_mergeInto (dst src : GoMap κ (List ν)) :
    totalLen (mergeInto dst src) = totalLen dst + totalLen src := by
  induction src generalizing dst with
  | nil => simp [mergeInto, totalLen]
  | cons e rest ih =>
    have ih' := ih (appendAt dst e.1 e.2)
    simp only [mergeInto, List.foldl_cons] at ih' ⊢
    rw [ih', totalLen_set_append]
    simp [totalLen]; omega

end GoMap

theorem countUnmatched_eq (us : List NormalizedRecord) (m : GoMap String (List NormalizedRecord)) :
    countUnmatched us m = us.length + GoMap.totalLen m := by
  unfold countUnmatched GoMap.totalLen
  generalize us.length = n
  induction m generalizing n with
  | nil => simp
  | cons e rest ih => simp only [List.foldl_cons, List.map_cons, List.sum_cons]; rw [ih]; omega

/-! ## The sweep of one date -/

theorem get_addUnmatchedBank (m : GoMap String (List NormalizedRecord)) (bs : List bankRec)
    (L : String) :
    GoMap.get (addUnmatchedBank m bs) L
      = GoMap.get m L ++ (bs.filter (fun b => b.BankName = L)).map (fun b => b.toNormalizedRecord) := by
  induction bs generalizing m with
  | nil => simp [addUnmatchedBank]
  | cons b rest ih =>
    have ih' := ih (GoMap.appendAt m b.BankName [b.toNormalizedRecord])
    simp only [addUnmatchedBank, List.foldl_cons] at ih' ⊢
    rw [ih', GoMap.get_appendAt]
    by_cases h : b.BankName = L
    · simp [h, List.filter_cons]
    · simp [h, List.filter_cons]

theorem nodup_keys_addUnmatchedBank (m : GoMap String (List NormalizedRecord))
    (bs : List bankRec) (h : (GoMap.keys m).Nodup) :
    (GoMap.keys (addUnmatchedBank m bs)).Nodup := by
  induction bs generalizing m with
  | nil => simpa [addUnmatchedBank] using h
  | cons b rest ih =>
    simp only [addUnmatchedBank, List.foldl_cons]
    exact ih _ (GoMap.nodup_keys_appendAt m _ _ h)

theorem totalLen_addUnmatchedBank (m : GoMap String (List NormalizedRecord))
    (bs : List bankRec) :
    GoMap.totalLen (addUnmatchedBank m bs) = GoMap.totalLen m + bs.length := by
  induction bs generalizing m with
  | nil => simp [addUnmatchedBank]
  | cons b rest ih =>
    have ih' := ih (GoMap.appendAt m b.BankName [b.toNormalizedRecord])
    simp only [addUnmatchedBank, List.foldl_cons] at ih' ⊢
    rw [ih', GoMap.totalLen_set_append]
    simp; omega

/-- The loop of `pairForDate` adds to its accumulators what `sweep` returns. -/
theorem pairLoop_eq (d : Time) (fuel : Nat) (ss : List NormalizedRecord) (bs : List bankRec)
    (st : Pairing) :
    pairLoop d fuel ss bs st =
      { matched := st.matched ++ (sweep fuel ss bs).pairs.map (fun p => mkPair d p.1 p.2)
        unmatchedSys := st.unmatchedSys ++ (sweep fuel ss bs).unS
        unmatchedBank := addUnmatchedBank st.unmatchedBank (sweep fuel ss bs).unB } := by
  induction fuel generalizing ss bs st with
  | zero =>
    cases ss with
    | nil => simp [pairLoop, sweep, addUnmatchedBank]
    | cons s ss =>
      cases bs with
      | nil => simp [pairLoop, sweep, addUnmatchedBank]
      | cons b bs => simp [pairLoop, sweep, addUnmatchedBank]
  | succ n ih =>
    cases ss with
    | nil => simp [pairLoop, sweep, addUnmatchedBank]
    | cons s ss =>
      cases bs with
      | nil => simp [pairLoop, sweep, addUnmatchedBank]
      | cons b bs =>
        simp only [pairLoop, sweep]
        split_ifs with h1 h2
        · rw [ih]; simp
        · rw [ih]; simp
        · rw [ih]; simp [addUnmatchedBank]

theorem sweep_perm_sys (fuel : Nat) (ss : List NormalizedRecord) (bs : List bankRec)
    (h : ss.length + bs.length ≤ fuel) :
    ((sweep fuel ss bs).pairs.map Prod.fst ++ (sweep fuel ss bs).unS).Perm ss := by
  induction fuel generalizing ss bs with
  | zero =>
    cases ss with
    | nil => simp [sweep]
    | cons s ss =>
      cases bs with
      | nil => simp [sweep]
      | cons b bs => simp at h
  | succ n ih =>
    cases ss with
    | nil => simp [sweep]
    | cons s ss =>
      cases bs with
      | nil => simp [sweep]
      | cons b bs =>
        simp only [List.length_cons] at h
        simp only [sweep]
        split_ifs with h1 h2
        · simpa using ih ss bs (by omega)
        · have := ih ss (b :: bs) (by simp only [List.length_cons]; omega)
          simp only
          exact List.perm_middle.trans (List.Perm.cons s this)
        · simpa using ih (s :: ss) bs (by simp only [List.length_cons]; omega)

theorem sweep_perm_bank (fuel : Nat) (ss : List NormalizedRecord) (bs : List bankRec)
    (h : ss.length + bs.length ≤ fuel) :
    ((sweep fuel ss bs).pairs.map Prod.snd ++ (sweep fuel ss bs).unB).Perm bs := by
  induction fuel generalizing ss bs with
  | zero =>
    cases ss with
    | nil => simp [sweep]
    | cons s ss =>
      cases bs with
      | nil => simp [sweep]
      | cons b bs => simp at h
  | succ n ih =>
    cases ss with
    | nil => simp [sweep]
    | cons s ss =>
      cases bs with
      | nil => simp [sweep]
      | cons b bs =>
        simp only [List.length_cons] at h
        simp only [sweep]
        split_ifs with h1 h2
        · simpa using ih ss bs (by omega)
        · simpa using ih ss (b :: bs) (by simp only [List.length_cons]; omega)
        · have := ih (s :: ss) bs (by simp only [List.length_cons]; omega)
          simp only
          exact List.perm_middle.trans (List.Perm.cons b this)

theorem sweep_pairs_tolerance (fuel : Nat) (ss : List NormalizedRecord) (bs : List bankRec) :
    ∀ p ∈ (sweep fuel ss bs).pairs,
      abs64 (wrap64 (p.1.Amount - p.2.Amount)) ≤ discrepancyTolerance := by
  induction fuel generalizing ss bs with
  | zero =>
    cases ss with
    | nil => simp [sweep]
    | cons s ss =>
      cases bs with
      | nil => simp [sweep]
      | cons b bs => simp [sweep]
  | succ n ih =>
    cases ss with
    | nil => simp [sweep]
    | cons s ss =>
      cases bs with
      | nil => simp [sweep]
      | cons b bs =>
        simp only [sweep]
        split_ifs with h1 h2
        · intro p hp
          simp only [List.mem_cons] at hp
          rcases hp with rfl | hp
          · exact h1
          · exact ih ss bs p hp
        · exact ih ss (b :: bs)
        · exact ih (s :: ss) bs

/-! ## Grouping by date and the visited dates -/

theorem get_foldl_appendAt {α : Type} (f : α → Time) (l : List α) (m : GoMap Time (List α))
    (d : Time) :
    GoMap.get (l.foldl (fun out s => GoMap.appendAt out (f s) [s]) m) d
      = GoMap.get m d ++ l.filter (fun s => f s = d) := by
  induction l generalizing m with
  | nil => simp
  | cons a rest ih =>
    simp only [List.foldl_cons]
    rw [ih, GoMap.get_appendAt]
    by_cases h : f a = d
    · simp [h, List.filter_cons]
    · simp [h, List.filter_cons]

theorem mem_keys_foldl_appendAt {α : Type} (f : α → Time) (l : List α)
    (m : GoMap Time (List α)) (d : Time) :
    d ∈ GoMap.keys (l.foldl (fun out s => GoMap.appendAt out (f s) [s]) m)
      ↔ d ∈ GoMap.keys m ∨ ∃ s ∈ l, f s = d := by
  induction l generalizing m with
  | nil => simp
  | cons a rest ih =>
    simp only [List.foldl_cons]
    rw [ih]
    simp only [GoMap.appendAt, GoMap.mem_keys_set, List.mem_cons, exists_eq_or_imp]
    constructor
    · rintro ((h | h) | h)
      · exact Or.inr (Or.inl h.symm)
      · exact Or.inl h
      · exact Or.inr (Or.inr h)
    · rintro (h | h | h)
      · exact Or.inl (Or.inr h)
      · exact Or.inl (Or.inl h.symm)
      · exact Or.inr h

theorem get_groupByDateSys (sys : List NormalizedRecord) (d : Time) :
    GoMap.get (groupByDateSys sys) d = sys.filter (fun s => s.Date = d) := by
  simpa [groupByDateSys, GoMap.get] using get_foldl_appendAt (fun s : NormalizedRecord => s.Date) sys [] d

theorem get_groupByDateBank (bank : List bankRec) (d : Time) :
    GoMap.get (groupByDateBank bank) d = bank.filter (fun b => b.Date = d) := by
  simpa [groupByDateBank, GoMap.get] using get_foldl_appendAt (fun b : bankRec => b.Date) bank [] d

theorem mem_foldl_setInsert (l set : List Time) (d : Time) :
    d ∈ l.foldl setInsert set ↔ d ∈ set ∨ d ∈ l := by
  induction l generalizing set with
  | nil => simp
  | cons a rest ih =>
    simp only [List.foldl_cons, List.mem_cons]
    rw [ih]
    unfold setInsert
    split_ifs with h
    · constructor
      · rintro (h1 | h1)
        · exact Or.inl h1
        · exact Or.inr (Or.inr h1)
      · rintro (h1 | h1 | h1)
        · exact Or.inl h1
        · exact Or.inl (h1 ▸ h)
        · exact Or.inr h1
    · simp only [List.mem_append, List.mem_singleton]
      tauto

theorem nodup_foldl_setInsert (l set : List Time) (h : set.Nodup) :
    (l.foldl setInsert set).Nodup := by
  induction l generalizing set with
  | nil => simpa using h
  | cons a rest ih =>
    simp only [List.foldl_cons]
    apply ih
    unfold setInsert
    split_ifs with h1
    · exact h
    · rw [List.nodup_append]
      refine ⟨h, List.nodup_singleton a, ?_⟩
      intro x hx hx'
      simp only [List.mem_singleton] at hx'
      exact h1 (hx' ▸ hx)

theorem mem_matchDates (S : SliceSort) (sys : List NormalizedRecord) (bank : List bankRec)
    (d : Time) :
    d ∈ matchDates S sys bank ↔ (∃ s ∈ sys, s.Date = d) ∨ (∃ b ∈ bank, b.Date = d) := by
  unfold matchDates collectSortedDates
  rw [(S.perm _ _).mem_iff, mem_foldl_setInsert, mem_foldl_setInsert]
  unfold groupByDateSys groupByDateBank
  rw [mem_keys_foldl_appendAt, mem_keys_foldl_appendAt]
  simp [GoMap.keys]

theorem nodup_matchDates (S : SliceSort) (sys : List NormalizedRecord) (bank : List bankRec) :
    (matchDates S sys bank).Nodup := by
  unfold matchDates collectSortedDates
  rw [(S.perm _ _).nodup_iff]
  exact nodup_foldl_setInsert _ _ (nodup_foldl_setInsert _ _ List.nodup_nil)

/-- Splitting a list by a key and joining the parts, over a duplicate-free list of keys
that has every key of the list, rearranges the list. -/
theorem flatMap_filter_perm {α : Type} (f : α → Time) (ds : List Time) (l : List α)
    (hnd : ds.Nodup) (hall : ∀ x ∈ l, f x ∈ ds) :
    (ds.flatMap (fun d => l.filter (fun x => f x = d))).Perm l := by
  induction ds generalizing l with
  | nil =>
    cases l with
    | nil => simp
    | cons a rest => exact absurd (hall a (List.mem_cons_self _ _)) (List.not_mem_nil _)
  | cons d ds ih =>
    rw [List.nodup_cons] at hnd
    simp only [List.flatMap_cons]
    have hrest : ds.flatMap (fun d' => l.filter (fun x => f x = d'))
        = ds.flatMap (fun d' => (l.filter (fun x => !decide (f x = d))).filter (fun x => f x = d')) := by
      apply List.flatMap_congr
      intro d' hd'
      rw [List.filter_filter]
      apply List.filter_congr
      intro x _
      by_cases hx : f x = d'
      · subst hx
        have : ¬ f x = d := fun e => hnd.1 (e ▸ hd')
        simp [this]
      · simp [hx]
    rw [hrest]
    have ih' := ih (l.filter (fun x => !decide (f x = d))) hnd.2 (by
      intro x hx
      simp only [List.mem_filter, Bool.not_eq_eq_eq_not, Bool.not_true, decide_eq_false_iff_not] at hx
      have := hall x hx.1
      simp only [List.mem_cons] at this
      rcases this with h | h
      · exact absurd h hx.2
      · exact h)
    exact (List.Perm.append_left _ ih').trans (List.filter_append_perm (fun x => decide (f x = d)) l)

/-! ## One date, and all dates of a sign partition -/

theorem pairForDate_eq (S : SliceSort) (d : Time) (sl : List NormalizedRecord)
    (bl : List bankRec) :
    pairForDate S d sl bl =
      { matched := (sweepDate S sl bl).pairs.map (fun p => mkPair d p.1 p.2)
        unmatchedSys := (sweepDate S sl bl).unS
        unmatchedBank := addUnmatchedBank [] (sweepDate S sl bl).unB } := by
  simp [pairForDate, sweepDate, pairLoop_eq]

theorem sweepDate_perm_sys (S : SliceSort) (sl : List NormalizedRecord) (bl : List bankRec) :
    ((sweepDate S sl bl).pairs.map Prod.fst ++ (sweepDate S sl bl).unS).Perm sl :=
  (sweep_perm_sys _ _ _ (le_refl _)).trans (S.perm _ sl)

theorem sweepDate_perm_bank (S : SliceSort) (sl : List NormalizedRecord) (bl : List bankRec) :
    ((sweepDate S sl bl).pairs.map Prod.snd ++ (sweepDate S sl bl).unB).Perm bl :=
  (sweep_perm_bank _ _ _ (le_refl _)).trans (S.perm _ bl)

theorem foldl_dates_eq (f : Time → Pairing) (ds : List Time) (acc : Pairing) :
    ds.foldl
        (fun acc d =>
          { matched := acc.matched ++ (f d).matched
            unmatchedSys := acc.unmatchedSys ++ (f d).unmatchedSys
            unmatchedBank := GoMap.mergeInto acc.unmatchedBank (f d).unmatchedBank })
        acc
      = { matched := acc.matched ++ ds.flatMap (fun d => (f d).matched)
          unmatchedSys := acc.unmatchedSys ++ ds.flatMap (fun d => (f d).unmatchedSys)
          unmatchedBank :=
            ds.foldl (fun m d => GoMap.mergeInto m (f d).unmatchedBank) acc.unmatchedBank } := by
  induction ds generalizing acc with
  | nil => simp
  | cons d ds ih => simp only [List.foldl_cons, List.flatMap_cons]; rw [ih]; simp

theorem get_foldl_mergeInto (g : Time → GoMap String (List NormalizedRecord))
    (hnd : ∀ d, (GoMap.keys (g d)).Nodup) (ds : List Time)
    (m : GoMap String (List NormalizedRecord)) (L : String) :
    GoMap.get (ds.foldl (fun m d => GoMap.mergeInto m (g d)) m) L
      = GoMap.get m L ++ ds.flatMap (fun d => GoMap.get (g d) L) := by
  induction ds generalizing m with
  | nil => simp
  | cons d ds ih =>
    simp only [List.foldl_cons, List.flatMap_cons]
    rw [ih, GoMap.get_mergeInto _ _ (hnd d), List.append_assoc]

theorem nodup_keys_foldl_mergeInto (g : Time → GoMap String (List NormalizedRecord))
    (ds : List Time) (m : GoMap String (List NormalizedRecord)) (h : (GoMap.keys m).Nodup) :
    (GoMap.keys (ds.foldl (fun m d => GoMap.mergeInto m (g d)) m)).Nodup := by
  induction ds generalizing m with
  | nil => simpa using h
  | cons d ds ih =>
    simp only [List.foldl_cons]
    exact ih _ (GoMap.nodup_keys_mergeInto _ _ h)

theorem totalLen_foldl_mergeInto (g : Time → GoMap String (List NormalizedRecord))
    (ds : List Time) (m : GoMap String (List NormalizedRecord)) :
    GoMap.totalLen (ds.foldl (fun m d => GoMap.mergeInto m (g d)) m)
      = GoMap.totalLen m + (ds.map (fun d => GoMap.totalLen (g d))).sum := by
  induction ds generalizing m with
  | nil => simp
  | cons d ds ih =>
    simp only [List.foldl_cons, List.map_cons, List.sum_cons]
    rw [ih, GoMap.totalLen_mergeInto]; omega

theorem matchByDateAndAmount_eq (S : SliceSort) (sys : List NormalizedRecord)
    (bank : List bankRec) :
    matchByDateAndAmount S sys bank =
      { matched := (matchDates S sys bank).flatMap (fun d =>
          (sweepDate S (sys.filter (fun s => s.Date = d))
            (bank.filter (fun b => b.Date = d))).pairs.map (fun p => mkPair d p.1 p.2))
        unmatchedSys := (sweepAll S sys bank).unS
        unmatchedBank := (matchDates S sys bank).foldl (fun m d => GoMap.mergeInto m
          (addUnmatchedBank [] (sweepDate S (sys.filter (fun s => s.Date = d))
            (bank.filter (fun b => b.Date = d))).unB)) [] } := by
  unfold matchByDateAndAmount
  simp only []
  rw [foldl_dates_eq (fun d => pairForDate S d (GoMap.get (groupByDateSys sys) d)
    (GoMap.get (groupByDateBank bank) d))]
  simp only [pairForDate_eq, get_groupByDateSys, get_groupByDateBank, List.nil_append, sweepAll,
    matchDates]

theorem mem_sweepDate_pairs (S : SliceSort) (sl : List NormalizedRecord) (bl : List bankRec)
    (p : NormalizedRecord × bankRec) (hp : p ∈ (sweepDate S sl bl).pairs) :
    p.1 ∈ sl ∧ p.2 ∈ bl := by
  constructor
  · apply (sweepDate_perm_sys S sl bl).subset
    exact List.mem_append_left _ (List.mem_map_of_mem _ hp)
  · apply (sweepDate_perm_bank S sl bl).subset
    exact List.mem_append_left _ (List.mem_map_of_mem _ hp)

/-- A pair of the sweeps joins records of the two lists that have the same date and
whose amounts differ, on `int64`, by at most the tolerance. -/
theorem mem_sweepAll_pairs (S : SliceSort) (sys : List NormalizedRecord) (bank : List bankRec)
    (p : NormalizedRecord × bankRec) (hp : p ∈ (sweepAll S sys bank).pairs) :
    p.1 ∈ sys ∧ p.2 ∈ bank ∧ p.1.Date = p.2.Date
      ∧ abs64 (wrap64 (p.1.Amount - p.2.Amount)) ≤ discrepancyTolerance := by
  simp only [sweepAll, List.mem_flatMap] at hp
  obtain ⟨d, _, hp⟩ := hp
  have h := mem_sweepDate_pairs S _ _ p hp
  simp only [List.mem_filter, decide_eq_true_eq] at h
  refine ⟨h.1.1, h.2.1, h.1.2.trans h.2.2.symm, ?_⟩
  exact sweep_pairs_tolerance _ _ _ p hp

theorem matchByDateAndAmount_matched (S : SliceSort) (sys : List NormalizedRecord)
    (bank : List bankRec) :
    (matchByDateAndAmount S sys bank).matched = (sweepAll S sys bank).pairs.map pairOf := by
  rw [matchByDateAndAmount_eq]
  simp only [sweepAll, List.map_flatMap]
  apply List.flatMap_congr
  intro d _
  apply List.map_congr_left
  intro p hp
  have h := (mem_sweepDate_pairs S _ _ p hp).1
  simp only [List.mem_filter, decide_eq_true_eq] at h
  simp [pairOf, h.2]

theorem matchByDateAndAmount_unmatchedSys (S : SliceSort) (sys : List NormalizedRecord)
    (bank : List bankRec) :
    (matchByDateAndAmount S sys bank).unmatchedSys = (sweepAll S sys bank).unS := by
  rw [matchByDateAndAmount_eq]

theorem matchByDateAndAmount_get (S : SliceSort) (sys : List NormalizedRecord)
    (bank : List bankRec) (L : String) :
    GoMap.get (matchByDateAndAmount S sys bank).unmatchedBank L
      = ((sweepAll S sys bank).unB.filter (fun b => b.BankName = L)).map
          (fun b => b.toNormalizedRecord) := by
  rw [matchByDateAndAmount_eq]
  simp only []
  rw [get_foldl_mergeInto (fun d => addUnmatchedBank [] (sweepDate S
    (sys.filter (fun s => s.Date = d)) (bank.filter (fun b => b.Date = d))).unB)
    (fun d => nodup_keys_addUnmatchedBank _ _ List.nodup_nil)]
  simp only [sweepAll, List.filter_flatMap, List.map_flatMap, get_addUnmatchedBank, GoMap.get,
    List.nil_append]

theorem matchByDateAndAmount_nodup_keys (S : SliceSort) (sys : List NormalizedRecord)
    (bank : List bankRec) :
    (GoMap.keys (matchByDateAndAmount S sys bank).unmatchedBank).Nodup := by
  rw [matchByDateAndAmount_eq]
  exact nodup_keys_foldl_mergeInto _ _ _ List.nodup_nil

theorem matchByDateAndAmount_totalLen (S : SliceSort) (sys : List NormalizedRecord)
    (bank : List bankRec) :
    GoMap.totalLen (matchByDateAndAmount S sys bank).unmatchedBank
      = (sweepAll S sys bank).unB.length := by
  rw [matchByDateAndAmount_eq]
  simp only []
  rw [totalLen_foldl_mergeInto (fun d => addUnmatchedBank [] (sweepDate S
    (sys.filter (fun s => s.Date = d)) (bank.filter (fun b => b.Date = d))).unB)]
  simp only [totalLen_addUnmatchedBank, sweepAll, List.length_flatMap]
  simp [GoMap.totalLen, Function.comp_def]

theorem sweepAll_perm_sys (S : SliceSort) (sys : List NormalizedRecord) (bank : List bankRec) :
    ((sweepAll S sys bank).pairs.map Prod.fst ++ (sweepAll S sys bank).unS).Perm sys := by
  simp only [sweepAll, List.map_flatMap]
  refine (List.flatMap_append_perm _ _ _).trans ?_
  refine (List.Perm.flatMap_left _ (fun d _ => sweepDate_perm_sys S _ _)).trans ?_
  apply flatMap_filter_perm (fun s : NormalizedRecord => s.Date) _ _ (nodup_matchDates S sys bank)
  intro x hx
  exact (mem_matchDates S sys bank _).2 (Or.inl ⟨x, hx, rfl⟩)

theorem sweepAll_perm_bank (S : SliceSort) (sys : List NormalizedRecord) (bank : List bankRec) :
    ((sweepAll S sys bank).pairs.map Prod.snd ++ (sweepAll S sys bank).unB).Perm bank := by
  simp only [sweepAll, List.map_flatMap]
  refine (List.flatMap_append_perm _ _ _).trans ?_
  refine (List.Perm.flatMap_left _ (fun d _ => sweepDate_perm_bank S _ _)).trans ?_
  apply flatMap_filter_perm (fun b : bankRec => b.Date) _ _ (nodup_matchDates S sys bank)
  intro x hx
  exact (mem_matchDates S sys bank _).2 (Or.inr ⟨x, hx, rfl⟩)

/-! ## The two loops that normalize and filter -/

theorem normalizeSystem_eq (sys : List SystemTransaction) (start end_ : Time) :
    normalizeSystem sys start end_ = (sysPos sys start end_, sysNeg sys start end_) := by
  have key : ∀ (l : List SystemTransaction) (acc : List NormalizedRecord × List NormalizedRecord),
      l.foldl
        (fun acc s =>
          let dateOnly := s.TransactionTime.InUTC.dateOnly
          if outOfRange dateOnly start end_ then acc
          else
            let signed := signedAmount s
            let rec_ : NormalizedRecord := { ID := s.TrxID, Date := dateOnly, Amount := signed }
            if signed ≥ 0 then (acc.1 ++ [rec_], acc.2) else (acc.1, acc.2 ++ [rec_]))
        acc
      = (acc.1 ++ sysPos l start end_, acc.2 ++ sysNeg l start end_) := by
    intro l
    induction l with
    | nil => intro acc; simp [sysPos, sysNeg, sysInRange]
    | cons s rest ih =>
      intro acc
      simp only [List.foldl_cons]
      rw [ih]
      by_cases h1 : outOfRange s.TransactionTime.InUTC.dateOnly start end_ = true
      · simp [sysPos, sysNeg, sysInRange, List.filter_cons, normalizedSys, h1]
      · by_cases h2 : signedAmount s ≥ 0
        · simp [sysPos, sysNeg, sysInRange, List.filter_cons, normalizedSys, h1, h2]
        · simp [sysPos, sysNeg, sysInRange, List.filter_cons, normalizedSys, h1, h2]
  have := key sys ([], [])
  simpa [normalizeSystem] using this

theorem normalizeBanks_eq (banks : GoMap String (List BankStatement)) (start end_ : Time) :
    normalizeBanks banks start end_ = (bankPos banks start end_, bankNeg banks start end_) := by
  have inner : ∀ (name : String) (l : List BankStatement) (acc : List bankRec × List bankRec),
      l.foldl
        (fun acc b =>
          let d := b.Date.dateOnly
          if outOfRange d start end_ then acc
          else
            let br : bankRec :=
              { ID := b.UniqueIdentifier, Date := d, Amount := b.Amount, BankName := name }
            if b.Amount ≥ 0 then (acc.1 ++ [br], acc.2) else (acc.1, acc.2 ++ [br]))
        acc
      = (acc.1 ++ bankPos [(name, l)] start end_, acc.2 ++ bankNeg [(name, l)] start end_) := by
    intro name l
    induction l with
    | nil => intro acc; simp [bankPos, bankNeg, bankInRange]
    | cons b rest ih =>
      intro acc
      simp only [List.foldl_cons]
      rw [ih]
      by_cases h1 : outOfRange b.Date.dateOnly start end_ = true
      · simp [bankPos, bankNeg, bankInRange, List.filter_cons, normalizedBank, h1]
      · by_cases h2 : b.Amount ≥ 0
        · simp [bankPos, bankNeg, bankInRange, List.filter_cons, normalizedBank, h1, h2]
        · simp [bankPos, bankNeg, bankInRange, List.filter_cons, normalizedBank, h1, h2]
  have outer : ∀ (m : GoMap String (List BankStatement)) (acc : List bankRec × List bankRec),
      m.foldl
        (fun acc e =>
          e.2.foldl
            (fun acc b =>
              let d := b.Date.dateOnly
              if outOfRange d start end_ then acc
              else
                let br : bankRec :=
                  { ID := b.UniqueIdentifier, Date := d, Amount := b.Amount, BankName := e.1 }
                if b.Amount ≥ 0 then (acc.1 ++ [br], acc.2) else (acc.1, acc.2 ++ [br]))
            acc)
        acc
      = (acc.1 ++ bankPos m start end_, acc.2 ++ bankNeg m start end_) := by
    intro m
    induction m with
    | nil => intro acc; simp [bankPos, bankNeg, bankInRange]
    | cons e rest ih =>
      intro acc
      simp only [List.foldl_cons]
      rw [inner, ih]
      simp [bankPos, bankNeg, bankInRange]
  have := outer banks ([], [])
  simpa [normalizeBanks] using this

/-! ## The result of `Reconcile` in terms of the sweeps -/

theorem Reconcile_matched (S : SliceSort) (sys : List SystemTransaction)
    (banks : GoMap String (List BankStatement)) (start end_ : Time) :
    (Reconcile S sys banks start end_).1.Details.Matched
      = (sweepBoth S sys banks start end_).pairs.map pairOf := by
  simp [Reconcile, normalizeSystem_eq, normalizeBanks_eq, matchByDateAndAmount_matched, sweepBoth]

theorem Reconcile_unmatchedSystem (S : SliceSort) (sys : List SystemTransaction)
    (banks : GoMap String (List BankStatement)) (start end_ : Time) :
    (Reconcile S sys banks start end_).1.Details.UnmatchedSystem
      = (sweepBoth S sys banks start end_).unS := by
  simp [Reconcile, normalizeSystem_eq, normalizeBanks_eq, matchByDateAndAmount_unmatchedSys,
    sweepBoth]

theorem Reconcile_get_unmatchedBank (S : SliceSort) (sys : List SystemTransaction)
    (banks : GoMap String (List BankStatement)) (start end_ : Time) (L : String) :
    GoMap.get (Reconcile S sys banks start end_).1.Details.UnmatchedBankByGroup L
      = ((sweepBoth S sys banks start end_).unB.filter (fun b => b.BankName = L)).map
          (fun b => b.toNormalizedRecord) := by
  simp only [Reconcile, normalizeSystem_eq, normalizeBanks_eq, sweepBoth]
  rw [GoMap.get_mergeInto _ _ (matchByDateAndAmount_nodup_keys _ _ _),
    GoMap.get_mergeInto _ _ (matchByDateAndAmount_nodup_keys _ _ _)]
  simp [matchByDateAndAmount_get, GoMap.get]

theorem sweepBoth_perm_sys (S : SliceSort) (sys : List SystemTransaction)
    (banks : GoMap String (List BankStatement)) (start end_ : Time) :
    ((sweepBoth S sys banks start end_).pairs.map Prod.fst
      ++ (sweepBoth S sys banks start end_).unS).Perm (sysInRange sys start end_) := by
  have h1 := sweepAll_perm_sys S (sysPos sys start end_) (bankPos banks start end_)
  have h2 := sweepAll_perm_sys S (sysNeg sys start end_) (bankNeg banks start end_)
  have h3 : (sysPos sys start end_ ++ sysNeg sys start end_).Perm (sysInRange sys start end_) :=
    List.filter_append_perm _ _
  refine List.Perm.trans ?_ ((h1.append h2).trans h3)
  simp only [sweepBoth, List.map_append, List.append_assoc]
  exact List.Perm.append_left _ (List.perm_append_comm_assoc _ _ _)

theorem sweepBoth_perm_bank (S : SliceSort) (sys : List SystemTransaction)
    (banks : GoMap String (List BankStatement)) (start end_ : Time) :
    ((sweepBoth S sys banks start end_).pairs.map Prod.snd
      ++ (sweepBoth S sys banks start end_).unB).Perm (bankInRange banks start end_) := by
  have h1 := sweepAll_perm_bank S (sysPos sys start end_) (bankPos banks start end_)
  have h2 := sweepAll_perm_bank S (sysNeg sys start end_) (bankNeg banks start end_)
  have h3 : (bankPos banks start end_ ++ bankNeg banks start end_).Perm
      (bankInRange banks start end_) := List.filter_append_perm _ _
  refine List.Perm.trans ?_ ((h1.append h2).trans h3)
  simp only [sweepBoth, List.map_append, List.append_assoc]
  exact List.Perm.append_left _ (List.perm_append_comm_assoc _ _ _)

/-! ## Range filtering with midnight-UTC bounds -/

theorem outOfRange_dateOnly (t : Time) (a b : Int) :
    outOfRange t.dateOnly (Time.ofDay a) (Time.ofDay b) = false
      ↔ a ≤ t.civilDay ∧ t.civilDay ≤ b := by
  simp only [outOfRange, Time.Before, Time.After, Time.dateOnly, Time.ofDay, nsPerDay,
    Bool.or_eq_false_iff, decide_eq_false_iff_not, not_lt]
  constructor
  · rintro ⟨h1, h2⟩; constructor <;> omega
  · rintro ⟨h1, h2⟩; constructor <;> omega

theorem sysInRange_ofDay (sys : List SystemTransaction) (a b : Int) :
    sysInRange sys (Time.ofDay a) (Time.ofDay b)
      = (sys.filter (fun s => decide (a ≤ sysDay s ∧ sysDay s ≤ b))).map normalizedSys := by
  unfold sysInRange
  rw [List.filter_map]
  congr 1
  apply List.filter_congr
  intro s _
  have := outOfRange_dateOnly s.TransactionTime.InUTC a b
  by_cases h : a ≤ sysDay s ∧ sysDay s ≤ b
  · simp [normalizedSys, this.2 h, h]
  · have h' : outOfRange s.TransactionTime.InUTC.dateOnly (Time.ofDay a) (Time.ofDay b) = true := by
      by_contra hc
      exact h (this.1 (by simpa using hc))
    simp [normalizedSys, h', h]

theorem mem_sweepBoth_pairs (S : SliceSort) (sys : List SystemTransaction)
    (banks : GoMap String (List BankStatement)) (start end_ : Time)
    (p : NormalizedRecord × bankRec) (hp : p ∈ (sweepBoth S sys banks start end_).pairs) :
    p.1 ∈ sysInRange sys start end_ ∧ p.2 ∈ bankInRange banks start end_
      ∧ p.1.Date = p.2.Date
      ∧ abs64 (wrap64 (p.1.Amount - p.2.Amount)) ≤ discrepancyTolerance
      ∧ ((0 ≤ p.1.Amount ∧ 0 ≤ p.2.Amount) ∨ (p.1.Amount < 0 ∧ p.2.Amount < 0)) := by
  simp only [sweepBoth, List.mem_append] at hp
  rcases hp with hp | hp
  · obtain ⟨h1, h2, h3, h4⟩ := mem_sweepAll_pairs S _ _ p hp
    simp only [sysPos, bankPos, List.mem_filter, decide_eq_true_eq] at h1 h2
    exact ⟨h1.1, h2.1, h3, h4, Or.inl ⟨h1.2, h2.2⟩⟩
  · obtain ⟨h1, h2, h3, h4⟩ := mem_sweepAll_pairs S _ _ p hp
    simp only [sysNeg, bankNeg, List.mem_filter, Bool.not_eq_eq_eq_not, Bool.not_true,
      decide_eq_false_iff_not, not_le] at h1 h2
    exact ⟨h1.1, h2.1, h3, h4, Or.inr ⟨h1.2, h2.2⟩⟩

/-! ## Claims -/

/-- C1 (system-side partition integrity).  With `start` and `end` the midnights of the
days `a` and `b`: the multiset of the normalized system records whose UTC calendar day
lies in `[a, b]`, as triples of identifier, date and signed amount, is the multiset sum of
the system sides of `Details.Matched` and of the records of `Details.UnmatchedSystem`. -/
theorem C1_system_partition_integrity (S : SliceSort) (sys : List SystemTransaction)
    (banks : GoMap String (List BankStatement)) (a b : Int) :
    (((sys.filter (fun s => decide (a ≤ sysDay s ∧ sysDay s ≤ b))).map
        (fun s => recTriple (normalizedSys s)) : List (String × String × Int))
      : Multiset (String × String × Int))
      = (((Reconcile S sys banks (Time.ofDay a) (Time.ofDay b)).1.Details.Matched.map sysSide
            : List (String × String × Int)) : Multiset (String × String × Int))
        + (((Reconcile S sys banks (Time.ofDay a) (Time.ofDay b)).1.Details.UnmatchedSystem.map
            recTriple : List (String × String × Int)) : Multiset (String × String × Int)) := by
  rw [Reconcile_matched, Reconcile_unmatchedSystem, Multiset.coe_add, Multiset.coe_eq_coe]
  have h := (sweepBoth_perm_sys S sys banks (Time.ofDay a) (Time.ofDay b)).map recTriple
  rw [sysInRange_ofDay] at h
  simp only [List.map_append, List.map_map] at h ⊢
  exact h.symm

theorem flatMap_filter_label (banks : GoMap String (List BankStatement))
    (hk : (GoMap.keys banks).Nodup) (L : String) :
    (banks.flatMap (fun e => e.2.map (normalizedBank e.1))).filter (fun n => n.BankName = L)
      = (GoMap.get banks L).map (normalizedBank L) := by
  induction banks with
  | nil => simp [GoMap.get]
  | cons e rest ih =>
    obtain ⟨k0, v0⟩ := e
    simp only [GoMap.keys, List.map_cons, List.nodup_cons] at hk
    simp only [List.flatMap_cons, List.filter_append]
    rw [ih hk.2]
    by_cases h : k0 = L
    · subst h
      have h0 : GoMap.get rest k0 = [] := GoMap.get_of_not_mem_keys rest k0 hk.1
      have h1 : (v0.map (normalizedBank k0)).filter (fun n => decide (n.BankName = k0))
          = v0.map (normalizedBank k0) := by
        apply List.filter_eq_self.2
        intro x hx
        simp only [List.mem_map] at hx
        obtain ⟨y, _, rfl⟩ := hx
        simp [normalizedBank]
      simp [GoMap.get, h0, h1]
    · have h1 : (v0.map (normalizedBank k0)).filter (fun n => decide (n.BankName = L)) = [] := by
        apply List.filter_eq_nil_iff.2
        intro x hx
        simp only [List.mem_map] at hx
        obtain ⟨y, _, rfl⟩ := hx
        simp [normalizedBank, h]
      simp [GoMap.get, h, h1]

theorem bankInRange_filter_label (banks : GoMap String (List BankStatement))
    (hk : (GoMap.keys banks).Nodup) (a b : Int) (L : String) :
    (bankInRange banks (Time.ofDay a) (Time.ofDay b)).filter (fun n => n.BankName = L)
      = ((GoMap.get banks L).filter (fun x => decide (a ≤ bankDay x ∧ bankDay x ≤ b))).map
          (normalizedBank L) := by
  unfold bankInRange
  rw [List.filter_filter]
  have : (banks.flatMap (fun e => e.2.map (normalizedBank e.1))).filter
        (fun n => decide (n.BankName = L) && !outOfRange n.Date (Time.ofDay a) (Time.ofDay b))
      = ((banks.flatMap (fun e => e.2.map (normalizedBank e.1))).filter
          (fun n => decide (n.BankName = L))).filter
            (fun n => !outOfRange n.Date (Time.ofDay a) (Time.ofDay b)) := by
    rw [List.filter_filter]
    apply List.filter_congr
    intro x _
    exact Bool.and_comm _ _
  rw [this, flatMap_filter_label banks hk L, List.filter_map]
  congr 1
  apply List.filter_congr
  intro x _
  have := outOfRange_dateOnly x.Date a b
  by_cases h : a ≤ bankDay x ∧ bankDay x ≤ b
  · simp [normalizedBank, this.2 h, h]
  · have h' : outOfRange x.Date.dateOnly (Time.ofDay a) (Time.ofDay b) = true := by
      by_contra hc
      exact h (this.1 (by simpa using hc))
    simp [normalizedBank, h', h]

/-- C2 (bank-side partition integrity, per label).  With `start` and `end` the midnights
of the days `a` and `b`, and a bank map with pairwise different keys: for every label `L`
the multiset of the records of `banks[L]` whose day lies in `[a, b]`, as triples of
identifier, date and amount, is the multiset sum of the bank sides of the matched pairs
whose `BankName` is `L` and of the records of `Details.UnmatchedBankByGroup[L]`. -/
theorem C2_bank_partition_integrity (S : SliceSort) (sys : List SystemTransaction)
    (banks : GoMap String (List BankStatement)) (a b : Int)
    (hk : (GoMap.keys banks).Nodup) (L : String) :
    ((((GoMap.get banks L).filter (fun x => decide (a ≤ bankDay x ∧ bankDay x ≤ b))).map
        (fun x => (x.UniqueIdentifier, formatDate x.Date.dateOnly, x.Amount))
        : List (String × String × Int)) : Multiset (String × String × Int))
      = ((((Reconcile S sys banks (Time.ofDay a) (Time.ofDay b)).1.Details.Matched.filter
            (fun m => decide (m.BankName = L))).map bankSide
            : List (String × String × Int)) : Multiset (String × String × Int))
        + (((GoMap.get (Reconcile S sys banks (Time.ofDay a)
              (Time.ofDay b)).1.Details.UnmatchedBankByGroup L).map recTriple
            : List (String × String × Int)) : Multiset (String × String × Int)) := by
  rw [Reconcile_matched, Reconcile_get_unmatchedBank, Multiset.coe_add, Multiset.coe_eq_coe]
  have h := ((sweepBoth_perm_bank S sys banks (Time.ofDay a) (Time.ofDay b)).filter
    (fun n => decide (n.BankName = L))).map (fun n => recTriple n.toNormalizedRecord)
  rw [bankInRange_filter_label banks hk a b L] at h
  simp only [List.filter_append, List.map_append, List.map_map, List.filter_map] at h ⊢
  refine List.Perm.trans ?_ (List.Perm.trans h.symm ?_)
  · exact List.Perm.refl _
  · apply List.Perm.append_right
    apply List.Perm.of_eq
    apply List.map_congr_left
    intro p hp
    have hp' := (mem_sweepBoth_pairs S sys banks _ _ p (List.mem_of_mem_filter hp)).2.2.1
    simp [recTriple, bankSide, pairOf, mkPair, hp']

/-- Witness of C2 on the data of `TestReconcileBasic`, label `bankB`. -/
theorem C2_bank_partition_integrity_witness :
    (GoMap.keys testBanks).Nodup ∧
    ((((GoMap.get testBanks "bankB").filter
        (fun x => decide ((20240 : Int) ≤ bankDay x ∧ bankDay x ≤ 20242))).map
        (fun x => (x.UniqueIdentifier, formatDate x.Date.dateOnly, x.Amount))
        : List (String × String × Int)) : Multiset (String × String × Int))
      = ((((Reconcile insertionSlice testSys testBanks (Time.ofDay 20240)
            (Time.ofDay 20242)).1.Details.Matched.filter
            (fun m => decide (m.BankName = "bankB"))).map bankSide
            : List (String × String × Int)) : Multiset (String × String × Int))
        + (((GoMap.get (Reconcile insertionSlice testSys testBanks (Time.ofDay 20240)
              (Time.ofDay 20242)).1.Details.UnmatchedBankByGroup "bankB").map recTriple
            : List (String × String × Int)) : Multiset (String × String × Int)) :=
  ⟨by decide, C2_bank_partition_integrity insertionSlice testSys testBanks 20240 20242
    (by decide) "bankB"⟩

theorem isInt64_wrap64 (x : Int) : isInt64 (wrap64 x) := by
  unfold isInt64 wrap64
  constructor <;> omega

theorem wrap64_of_isInt64 (x : Int) (h : isInt64 x) : wrap64 x = x := by
  unfold isInt64 at h
  unfold wrap64
  omega

theorem isInt64_signedAmount (s : SystemTransaction) (h : isInt64 s.Amount) :
    isInt64 (signedAmount s) := by
  unfold signedAmount
  split_ifs
  · exact isInt64_wrap64 _
  · exact h

/-- On `int64` values of the same sign class the subtraction and `abs64` do not wrap. -/
theorem abs64_sub_same_sign (x y : Int) (hx : isInt64 x) (hy : isInt64 y)
    (hs : (0 ≤ x ∧ 0 ≤ y) ∨ (x < 0 ∧ y < 0)) :
    abs64 (wrap64 (x - y)) = |x - y| := by
  unfold isInt64 at hx hy
  have h1 : wrap64 (x - y) = x - y := by
    apply wrap64_of_isInt64
    unfold isInt64
    rcases hs with hs | hs <;> constructor <;> omega
  rw [h1]
  unfold abs64
  split_ifs with h
  · rw [abs_of_neg h]
    apply wrap64_of_isInt64
    unfold isInt64
    rcases hs with hs | hs <;> constructor <;> omega
  · rw [abs_of_nonneg (by omega)]

theorem mem_sysInRange (sys : List SystemTransaction) (start end_ : Time)
    (n : NormalizedRecord) (h : n ∈ sysInRange sys start end_) :
    ∃ s ∈ sys, n = normalizedSys s ∧ outOfRange n.Date start end_ = false := by
  simp only [sysInRange, List.mem_filter, List.mem_map, Bool.not_eq_eq_eq_not, Bool.not_true] at h
  obtain ⟨⟨s, hs, rfl⟩, h2⟩ := h
  exact ⟨s, hs, rfl, h2⟩

theorem mem_bankInRange (banks : GoMap String (List BankStatement)) (start end_ : Time)
    (n : bankRec) (h : n ∈ bankInRange banks start end_) :
    ∃ e ∈ banks, ∃ x ∈ e.2, n = normalizedBank e.1 x ∧ outOfRange n.Date start end_ = false := by
  simp only [bankInRange, List.mem_filter, List.mem_flatMap, List.mem_map, Bool.not_eq_eq_eq_not,
    Bool.not_true] at h
  obtain ⟨⟨e, he, x, hx, rfl⟩, h2⟩ := h
  exact ⟨e, he, x, hx, rfl, h2⟩

/-- C3 (tolerance bound).  For `int64` input amounts, every pair of `Details.Matched`
has a `Discrepancy` of at least 0 and at most 5000. -/
theorem C3_tolerance_bound (S : SliceSort) (sys : List SystemTransaction)
    (banks : GoMap String (List BankStatement)) (start end_ : Time)
    (hs : ∀ s ∈ sys, isInt64 s.Amount)
    (hb : ∀ e ∈ banks, ∀ x ∈ e.2, isInt64 x.Amount) :
    ∀ m ∈ (Reconcile S sys banks start end_).1.Details.Matched,
      0 ≤ m.Discrepancy ∧ m.Discrepancy ≤ 5000 := by
  intro m hm
  rw [Reconcile_matched, List.mem_map] at hm
  obtain ⟨p, hp, rfl⟩ := hm
  obtain ⟨h1, h2, _, h4, h5⟩ := mem_sweepBoth_pairs S sys banks start end_ p hp
  obtain ⟨s, hsm, hs1, _⟩ := mem_sysInRange sys start end_ p.1 h1
  obtain ⟨e, he, x, hx, hx1, _⟩ := mem_bankInRange banks start end_ p.2 h2
  have i1 : isInt64 p.1.Amount := by
    rw [hs1]; exact isInt64_signedAmount s (hs s hsm)
  have i2 : isInt64 p.2.Amount := by
    rw [hx1]; exact hb e he x hx
  refine ⟨?_, h4⟩
  show 0 ≤ abs64 (wrap64 (p.1.Amount - p.2.Amount))
  rw [abs64_sub_same_sign _ _ i1 i2 h5]
  exact abs_nonneg _

/-- Witness of C3 on the data of `TestReconcileBasic`: the pair with discrepancy 5000. -/
theorem C3_tolerance_bound_witness :
    (∀ s ∈ testSys, isInt64 s.Amount) ∧ (∀ e ∈ testBanks, ∀ x ∈ e.2, isInt64 x.Amount) ∧
    testPair ∈ (Reconcile insertionSlice testSys testBanks (Time.ofDay 20240)
        (Time.ofDay 20242)).1.Details.Matched ∧
    (0 ≤ testPair.Discrepancy ∧ testPair.Discrepancy ≤ 5000) :=
  ⟨by decide, by decide, by decide,
    C3_tolerance_bound insertionSlice testSys testBanks (Time.ofDay 20240) (Time.ofDay 20242)
      (by decide) (by decide) testPair (by decide)⟩

/-- C4 (sign isolation).  In every pair of `Details.Matched` the system amount and the bank
amount are both `>= 0` or both `< 0`. -/
theorem C4_sign_isolation (S : SliceSort) (sys : List SystemTransaction)
    (banks : GoMap String (List BankStatement)) (start end_ : Time) :
    ∀ m ∈ (Reconcile S sys banks start end_).1.Details.Matched,
      (0 ≤ m.SystemAmount ∧ 0 ≤ m.BankAmount) ∨ (m.SystemAmount < 0 ∧ m.BankAmount < 0) := by
  intro m hm
  rw [Reconcile_matched, List.mem_map] at hm
  obtain ⟨p, hp, rfl⟩ := hm
  exact (mem_sweepBoth_pairs S sys banks start end_ p hp).2.2.2.2

/-- Witness of C4 on the data of `TestReconcileBasic`: a pair of two negative amounts. -/
theorem C4_sign_isolation_witness :
    testDebitPair ∈ (Reconcile insertionSlice testSys testBanks (Time.ofDay 20240)
        (Time.ofDay 20242)).1.Details.Matched ∧
    ((0 ≤ testDebitPair.SystemAmount ∧ 0 ≤ testDebitPair.BankAmount)
      ∨ (testDebitPair.SystemAmount < 0 ∧ testDebitPair.BankAmount < 0)) :=
  ⟨by decide,
    C4_sign_isolation insertionSlice testSys testBanks (Time.ofDay 20240) (Time.ofDay 20242)
      testDebitPair (by decide)⟩

/-- C5 (same-date matching).  Every pair of `Details.Matched` is built from a system
transaction and a statement line of some bank whose calendar days are equal: its fields
are the identifiers, the signed amounts and the bank's key, and its `Date` is that day
formatted as `YYYY-MM-DD`. -/
theorem C5_same_date_matching (S : SliceSort) (sys : List SystemTransaction)
    (banks : GoMap String (List BankStatement)) (start end_ : Time) :
    ∀ m ∈ (Reconcile S sys banks start end_).1.Details.Matched,
      ∃ s ∈ sys, ∃ e ∈ banks, ∃ x ∈ e.2,
        sysDay s = bankDay x
        ∧ m.Date = formatDate (Time.ofDay (sysDay s))
        ∧ m.SystemID = s.TrxID ∧ m.SystemAmount = signedAmount s
        ∧ m.BankID = x.UniqueIdentifier ∧ m.BankAmount = x.Amount ∧ m.BankName = e.1 := by
  intro m hm
  rw [Reconcile_matched, List.mem_map] at hm
  obtain ⟨p, hp, rfl⟩ := hm
  obtain ⟨h1, h2, h3, _, _⟩ := mem_sweepBoth_pairs S sys banks start end_ p hp
  obtain ⟨s, hsm, hs1, _⟩ := mem_sysInRange sys start end_ p.1 h1
  obtain ⟨e, he, x, hx, hx1, _⟩ := mem_bankInRange banks start end_ p.2 h2
  refine ⟨s, hsm, e, he, x, hx, ?_, ?_, ?_, ?_, ?_, ?_, ?_⟩
  · rw [hs1, hx1] at h3
    simp only [normalizedSys, normalizedBank, Time.dateOnly, Time.mk.injEq, and_true] at h3
    have hpos : nsPerDay ≠ 0 := by unfold nsPerDay; norm_num
    exact mul_right_cancel₀ hpos h3
  · simp [pairOf, mkPair, hs1, normalizedSys, Time.dateOnly, Time.ofDay, sysDay]
  · simp [pairOf, mkPair, hs1, normalizedSys]
  · simp [pairOf, mkPair, hs1, normalizedSys]
  · simp [pairOf, mkPair, hx1, normalizedBank]
  · simp [pairOf, mkPair, hx1, normalizedBank]
  · simp [pairOf, mkPair, hx1, normalizedBank]

/-- Witness of C5 on the data of `TestReconcileBasic`: the pair of `TRX-1003`. -/
theorem C5_same_date_matching_witness :
    testPair ∈ (Reconcile insertionSlice testSys testBanks (Time.ofDay 20240)
        (Time.ofDay 20242)).1.Details.Matched ∧
    ∃ s ∈ testSys, ∃ e ∈ testBanks, ∃ x ∈ e.2,
      sysDay s = bankDay x
      ∧ testPair.Date = formatDate (Time.ofDay (sysDay s))
      ∧ testPair.SystemID = s.TrxID ∧ testPair.SystemAmount = signedAmount s
      ∧ testPair.BankID = x.UniqueIdentifier ∧ testPair.BankAmount = x.Amount
      ∧ testPair.BankName = e.1 :=
  ⟨by decide,
    C5_same_date_matching insertionSlice testSys testBanks (Time.ofDay 20240) (Time.ofDay 20242)
      testPair (by decide)⟩

theorem bankInRange_ofDay (banks : GoMap String (List BankStatement)) (a b : Int) :
    bankInRange banks (Time.ofDay a) (Time.ofDay b)
      = banks.flatMap (fun e =>
          (e.2.filter (fun x => decide (a ≤ bankDay x ∧ bankDay x ≤ b))).map (normalizedBank e.1)) := by
  unfold bankInRange
  rw [List.filter_flatMap]
  apply List.flatMap_congr
  intro e _
  rw [List.filter_map]
  congr 1
  apply List.filter_congr
  intro x _
  have := outOfRange_dateOnly x.Date a b
  by_cases h : a ≤ bankDay x ∧ bankDay x ≤ b
  · simp [normalizedBank, this.2 h, h]
  · have h' : outOfRange x.Date.dateOnly (Time.ofDay a) (Time.ofDay b) = true := by
      by_contra hc
      exact h (this.1 (by simpa using hc))
    simp [normalizedBank, h', h]

theorem length_filter_add_not {α : Type} (p : α → Bool) (l : List α) :
    (l.filter p).length + (l.filter (fun x => !p x)).length = l.length := by
  have := (List.filter_append_perm p l).length_eq
  simpa using this

theorem Reconcile_totalProcessed (S : SliceSort) (sys : List SystemTransaction)
    (banks : GoMap String (List BankStatement)) (start end_ : Time) :
    (Reconcile S sys banks start end_).1.Summary.TotalProcessed
      = (sysInRange sys start end_).length + (bankInRange banks start end_).length := by
  simp only [Reconcile, normalizeSystem_eq, normalizeBanks_eq, sysPos, sysNeg, bankPos, bankNeg]
  have h1 := length_filter_add_not (fun n : NormalizedRecord => decide (n.Amount ≥ 0))
    (sysInRange sys start end_)
  have h2 := length_filter_add_not (fun n : bankRec => decide (n.Amount ≥ 0))
    (bankInRange banks start end_)
  omega

theorem date_of_mem_sysInRange (sys : List SystemTransaction) (a b : Int)
    (n : NormalizedRecord) (h : n ∈ sysInRange sys (Time.ofDay a) (Time.ofDay b)) :
    ∃ d, a ≤ d ∧ d ≤ b ∧ n.Date = Time.ofDay d := by
  rw [sysInRange_ofDay, List.mem_map] at h
  obtain ⟨s, hs, rfl⟩ := h
  simp only [List.mem_filter, decide_eq_true_eq] at hs
  exact ⟨sysDay s, hs.2.1, hs.2.2, rfl⟩

theorem date_of_mem_bankInRange (banks : GoMap String (List BankStatement)) (a b : Int)
    (n : bankRec) (h : n ∈ bankInRange banks (Time.ofDay a) (Time.ofDay b)) :
    ∃ d, a ≤ d ∧ d ≤ b ∧ n.Date = Time.ofDay d := by
  rw [bankInRange_ofDay, List.mem_flatMap] at h
  obtain ⟨e, _, h⟩ := h
  rw [List.mem_map] at h
  obtain ⟨x, hx, rfl⟩ := h
  simp only [List.mem_filter, decide_eq_true_eq] at hx
  exact ⟨bankDay x, hx.2.1, hx.2.2, rfl⟩

/-- C6 (range filtering and `TotalProcessed`).  With `start` and `end` the midnights of
the days `a` and `b`: `TotalProcessed` is the number of system transactions whose UTC day
`d` has `a <= d <= b` plus the number of statement lines, over all banks, whose day has
`a <= d <= b`; the whole result is the result on the input without the records outside
the range; and every unmatched system record, every unmatched bank record and every
matched pair carries a date of a day in `[a, b]`. -/
theorem C6_range_filtering (S : SliceSort) (sys : List SystemTransaction)
    (banks : GoMap String (List BankStatement)) (a b : Int) :
    (Reconcile S sys banks (Time.ofDay a) (Time.ofDay b)).1.Summary.TotalProcessed
        = (sys.filter (fun s => decide (a ≤ sysDay s ∧ sysDay s ≤ b))).length
          + (banks.map (fun e =>
              (e.2.filter (fun x => decide (a ≤ bankDay x ∧ bankDay x ≤ b))).length)).sum
    ∧ Reconcile S sys banks (Time.ofDay a) (Time.ofDay b)
        = Reconcile S (sys.filter (fun s => decide (a ≤ sysDay s ∧ sysDay s ≤ b)))
            (banks.map (fun e =>
              (e.1, e.2.filter (fun x => decide (a ≤ bankDay x ∧ bankDay x ≤ b)))))
            (Time.ofDay a) (Time.ofDay b)
    ∧ (∀ u ∈ (Reconcile S sys banks (Time.ofDay a) (Time.ofDay b)).1.Details.UnmatchedSystem,
        ∃ d, a ≤ d ∧ d ≤ b ∧ u.Date = Time.ofDay d)
    ∧ (∀ L, ∀ u ∈ GoMap.get
          (Reconcile S sys banks (Time.ofDay a) (Time.ofDay b)).1.Details.UnmatchedBankByGroup L,
        ∃ d, a ≤ d ∧ d ≤ b ∧ u.Date = Time.ofDay d)
    ∧ (∀ m ∈ (Reconcile S sys banks (Time.ofDay a) (Time.ofDay b)).1.Details.Matched,
        ∃ d, a ≤ d ∧ d ≤ b ∧ m.Date = formatDate (Time.ofDay d)) := by
  refine ⟨?_, ?_, ?_, ?_, ?_⟩
  · rw [Reconcile_totalProcessed, sysInRange_ofDay, bankInRange_ofDay]
    simp [List.length_flatMap, Function.comp_def]
  · have h1 : sysInRange (sys.filter (fun s => decide (a ≤ sysDay s ∧ sysDay s ≤ b)))
        (Time.ofDay a) (Time.ofDay b) = sysInRange sys (Time.ofDay a) (Time.ofDay b) := by
      rw [sysInRange_ofDay, sysInRange_ofDay, List.filter_filter]
      simp
    have h2 : bankInRange (banks.map (fun e =>
          (e.1, e.2.filter (fun x => decide (a ≤ bankDay x ∧ bankDay x ≤ b)))))
        (Time.ofDay a) (Time.ofDay b) = bankInRange banks (Time.ofDay a) (Time.ofDay b) := by
      rw [bankInRange_ofDay, bankInRange_ofDay, List.flatMap_map]
      apply List.flatMap_congr
      intro e _
      simp only [List.filter_filter]
      simp
    simp only [Reconcile, normalizeSystem_eq, normalizeBanks_eq, sysPos, sysNeg, bankPos, bankNeg,
      h1, h2]
  · intro u hu
    rw [Reconcile_unmatchedSystem] at hu
    have := (sweepBoth_perm_sys S sys banks (Time.ofDay a) (Time.ofDay b)).subset
      (List.mem_append_right _ hu)
    exact date_of_mem_sysInRange sys a b u this
  · intro L u hu
    rw [Reconcile_get_unmatchedBank, List.mem_map] at hu
    obtain ⟨x, hx, rfl⟩ := hu
    have := (sweepBoth_perm_bank S sys banks (Time.ofDay a) (Time.ofDay b)).subset
      (List.mem_append_right _ (List.mem_of_mem_filter hx))
    exact date_of_mem_bankInRange banks a b x this
  · intro m hm
    rw [Reconcile_matched, List.mem_map] at hm
    obtain ⟨p, hp, rfl⟩ := hm
    have := (mem_sweepBoth_pairs S sys banks _ _ p hp).1
    obtain ⟨d, h1, h2, h3⟩ := date_of_mem_sysInRange sys a b p.1 this
    exact ⟨d, h1, h2, by simp [pairOf, mkPair, h3]⟩

/-! ## When the choice of the sort does not matter -/

/-- Two sorts agree on a list in which elements with equal keys are equal. -/
theorem sort_unique (S T : SliceSort) {α : Type} (key : α → Int) (l : List α)
    (h : ∀ x ∈ l, ∀ y ∈ l, key x = key y → x = y) : S.sort key l = T.sort key l := by
  refine @List.Perm.eq_of_sorted _ (fun a b => key a ≤ key b) _ _ ?_ (S.sorted key l)
    (T.sorted key l) ((S.perm key l).trans (T.perm key l).symm)
  intro x y hx hy h1 h2
  exact h x ((S.perm key l).subset hx) y ((T.perm key l).subset hy) (le_antisymm h1 h2)

theorem matchDates_sort_irrel (S T : SliceSort) (sys : List NormalizedRecord)
    (bank : List bankRec) (hs : ∀ x ∈ sys, x.Date.offset = 0 ∧ x.Date.loc = 0) (hb : ∀ x ∈ bank, x.Date.offset = 0 ∧ x.Date.loc = 0) :
    matchDates S sys bank = matchDates T sys bank := by
  unfold matchDates collectSortedDates
  apply sort_unique
  intro x hx y hy hxy
  have off : ∀ d ∈ List.foldl setInsert (List.foldl setInsert [] (GoMap.keys (groupByDateSys sys)))
      (GoMap.keys (groupByDateBank bank)), d.offset = 0 ∧ d.loc = 0 := by
    intro d hd
    rw [mem_foldl_setInsert, mem_foldl_setInsert] at hd
    unfold groupByDateSys groupByDateBank at hd
    rw [mem_keys_foldl_appendAt, mem_keys_foldl_appendAt] at hd
    simp only [GoMap.keys, List.map_nil, List.not_mem_nil, false_or] at hd
    rcases hd with ⟨s, hs1, rfl⟩ | ⟨b, hb1, rfl⟩
    · exact hs s hs1
    · exact hb b hb1
  have hx0 := off x hx
  have hy0 := off y hy
  cases x; cases y
  simp only [Time.mk.injEq] at hx0 hy0 hxy ⊢
  exact ⟨hxy, hx0.1.trans hy0.1.symm, hx0.2.trans hy0.2.symm⟩

theorem sweepDate_sort_irrel (S T : SliceSort) (sys : List NormalizedRecord)
    (bank : List bankRec) (h : tieFree sys bank) (d : Time) :
    sweepDate S (sys.filter (fun s => s.Date = d)) (bank.filter (fun b => b.Date = d))
      = sweepDate T (sys.filter (fun s => s.Date = d)) (bank.filter (fun b => b.Date = d)) := by
  have h1 : S.sort (fun s : NormalizedRecord => s.Amount) (sys.filter (fun s => s.Date = d))
      = T.sort (fun s : NormalizedRecord => s.Amount) (sys.filter (fun s => s.Date = d)) := by
    apply sort_unique
    intro x hx y hy hxy
    simp only [List.mem_filter, decide_eq_true_eq] at hx hy
    exact h.1 x hx.1 y hy.1 (hx.2.trans hy.2.symm) hxy
  have h2 : S.sort (fun b : bankRec => b.Amount) (bank.filter (fun b => b.Date = d))
      = T.sort (fun b : bankRec => b.Amount) (bank.filter (fun b => b.Date = d)) := by
    apply sort_unique
    intro x hx y hy hxy
    simp only [List.mem_filter, decide_eq_true_eq] at hx hy
    exact h.2 x hx.1 y hy.1 (hx.2.trans hy.2.symm) hxy
  unfold sweepDate
  rw [h1, h2]

theorem matchByDateAndAmount_sort_irrel (S T : SliceSort) (sys : List NormalizedRecord)
    (bank : List bankRec) (h : tieFree sys bank)
    (hs : ∀ x ∈ sys, x.Date.offset = 0 ∧ x.Date.loc = 0) (hb : ∀ x ∈ bank, x.Date.offset = 0 ∧ x.Date.loc = 0) :
    matchByDateAndAmount S sys bank = matchByDateAndAmount T sys bank := by
  rw [matchByDateAndAmount_eq, matchByDateAndAmount_eq]
  simp only [sweepAll, matchDates_sort_irrel S T sys bank hs hb,
    sweepDate_sort_irrel S T sys bank h]

theorem offset_of_mem_sysInRange (sys : List SystemTransaction) (start end_ : Time)
    (n : NormalizedRecord) (h : n ∈ sysInRange sys start end_) :
    n.Date.offset = 0 ∧ n.Date.loc = 0 := by
  obtain ⟨s, _, rfl, _⟩ := mem_sysInRange sys start end_ n h
  exact ⟨rfl, rfl⟩

theorem offset_of_mem_bankInRange (banks : GoMap String (List BankStatement)) (start end_ : Time)
    (n : bankRec) (h : n ∈ bankInRange banks start end_) :
    n.Date.offset = 0 ∧ n.Date.loc = 0 := by
  obtain ⟨e, _, x, _, rfl, _⟩ := mem_bankInRange banks start end_ n h
  exact ⟨rfl, rfl⟩

/-- When no two different in-range records of a side share date and amount, the result of
`Reconcile` is the same for every sort. -/
theorem Reconcile_sort_irrel (S T : SliceSort) (sys : List SystemTransaction)
    (banks : GoMap String (List BankStatement)) (start end_ : Time)
    (h : tieFree (sysInRange sys start end_) (bankInRange banks start end_)) :
    Reconcile S sys banks start end_ = Reconcile T sys banks start end_ := by
  have hp : matchByDateAndAmount S (sysPos sys start end_) (bankPos banks start end_)
      = matchByDateAndAmount T (sysPos sys start end_) (bankPos banks start end_) := by
    apply matchByDateAndAmount_sort_irrel
    · constructor
      · intro x hx y hy
        exact h.1 x (List.mem_of_mem_filter hx) y (List.mem_of_mem_filter hy)
      · intro x hx y hy
        exact h.2 x (List.mem_of_mem_filter hx) y (List.mem_of_mem_filter hy)
    · intro x hx
      exact offset_of_mem_sysInRange sys start end_ x (List.mem_of_mem_filter hx)
    · intro x hx
      exact offset_of_mem_bankInRange banks start end_ x (List.mem_of_mem_filter hx)
  have hn : matchByDateAndAmount S (sysNeg sys start end_) (bankNeg banks start end_)
      = matchByDateAndAmount T (sysNeg sys start end_) (bankNeg banks start end_) := by
    apply matchByDateAndAmount_sort_irrel
    · constructor
      · intro x hx y hy
        exact h.1 x (List.mem_of_mem_filter hx) y (List.mem_of_mem_filter hy)
      · intro x hx y hy
        exact h.2 x (List.mem_of_mem_filter hx) y (List.mem_of_mem_filter hy)
    · intro x hx
      exact offset_of_mem_sysInRange sys start end_ x (List.mem_of_mem_filter hx)
    · intro x hx
      exact offset_of_mem_bankInRange banks start end_ x (List.mem_of_mem_filter hx)
  simp only [Reconcile, normalizeSystem_eq, normalizeBanks_eq, hp, hn]

/-- C7 (scenario A).  On the data of `TestReconcileBasic` with the range 2025-06-01 to
2025-06-03, for every sort and for either visiting order of the bank map, `Reconcile`
returns a nil error and the summary 12 processed, 5 matched, 2 unmatched, total
discrepancy 5000; the unmatched records are the system record `TRX-1006` (+42000) and
the record `BB-3002` (+100000) of `bankB`. -/
theorem C7_scenario_A (S : SliceSort) :
    (Reconcile S testSys testBanks (Time.ofDay 20240) (Time.ofDay 20242)).2 = none
    ∧ (Reconcile S testSys testBanks (Time.ofDay 20240) (Time.ofDay 20242)).1.Summary
        = { TotalProcessed := 12, TotalMatched := 5, TotalUnmatched := 2,
            TotalDiscrepancies := 5000 }
    ∧ (Reconcile S testSys testBanks (Time.ofDay 20240)
          (Time.ofDay 20242)).1.Details.UnmatchedSystem
        = [{ ID := "TRX-1006", Date := Time.ofDay 20242, Amount := 42000 }]
    ∧ (Reconcile S testSys testBanks (Time.ofDay 20240)
          (Time.ofDay 20242)).1.Details.UnmatchedBankByGroup
        = [("bankB", [{ ID := "BB-3002", Date := Time.ofDay 20242, Amount := 100000 }])]
    ∧ (Reconcile S testSys testBanks.reverse (Time.ofDay 20240) (Time.ofDay 20242)).2 = none
    ∧ (Reconcile S testSys testBanks.reverse (Time.ofDay 20240) (Time.ofDay 20242)).1.Summary
        = { TotalProcessed := 12, TotalMatched := 5, TotalUnmatched := 2,
            TotalDiscrepancies := 5000 }
    ∧ (Reconcile S testSys testBanks.reverse (Time.ofDay 20240)
          (Time.ofDay 20242)).1.Details.UnmatchedSystem
        = [{ ID := "TRX-1006", Date := Time.ofDay 20242, Amount := 42000 }]
    ∧ (Reconcile S testSys testBanks.reverse (Time.ofDay 20240)
          (Time.ofDay 20242)).1.Details.UnmatchedBankByGroup
        = [("bankB", [{ ID := "BB-3002", Date := Time.ofDay 20242, Amount := 100000 }])] := by
  rw [Reconcile_sort_irrel S insertionSlice testSys testBanks _ _ (by decide),
    Reconcile_sort_irrel S insertionSlice testSys testBanks.reverse _ _ (by decide)]
  decide

/-! ## All values of the map of unmatched bank records -/

theorem values_appendAt {κ ν : Type} [DecidableEq κ] (m : GoMap κ (List ν)) (k : κ)
    (vs : List ν) : (GoMap.values (GoMap.appendAt m k vs)).Perm (GoMap.values m ++ vs) := by
  induction m with
  | nil => simp [GoMap.appendAt, GoMap.set, GoMap.get, GoMap.values]
  | cons e rest ih =>
    obtain ⟨k0, v0⟩ := e
    by_cases hk : k0 = k
    · subst hk
      simp only [GoMap.appendAt, GoMap.set, GoMap.get, GoMap.values, if_true, List.flatMap_cons,
        List.append_assoc]
      exact List.Perm.append_left _ List.perm_append_comm
    · simp only [GoMap.appendAt, GoMap.set, GoMap.get, hk, if_false, GoMap.values,
        List.flatMap_cons, List.append_assoc] at ih ⊢
      exact List.Perm.append_left _ ih

theorem values_mergeInto {κ ν : Type} [DecidableEq κ] (dst src : GoMap κ (List ν)) :
    (GoMap.values (GoMap.mergeInto dst src)).Perm (GoMap.values dst ++ GoMap.values src) := by
  induction src generalizing dst with
  | nil => simp [GoMap.mergeInto, GoMap.values]
  | cons e rest ih =>
    have ih' := ih (GoMap.appendAt dst e.1 e.2)
    simp only [GoMap.mergeInto, List.foldl_cons] at ih' ⊢
    refine ih'.trans ?_
    have h := values_appendAt dst e.1 e.2
    refine (List.Perm.append_right _ h).trans ?_
    simp [GoMap.values]

theorem values_addUnmatchedBank (m : GoMap String (List NormalizedRecord)) (bs : List bankRec) :
    (GoMap.values (addUnmatchedBank m bs)).Perm
      (GoMap.values m ++ bs.map (fun b => b.toNormalizedRecord)) := by
  induction bs generalizing m with
  | nil => simp [addUnmatchedBank]
  | cons b rest ih =>
    have ih' := ih (GoMap.appendAt m b.BankName [b.toNormalizedRecord])
    simp only [addUnmatchedBank, List.foldl_cons] at ih' ⊢
    refine ih'.trans ?_
    refine (List.Perm.append_right _ (values_appendAt m _ _)).trans ?_
    simp

theorem values_foldl_mergeInto (g : Time → GoMap String (List NormalizedRecord))
    (ds : List Time) (m : GoMap String (List NormalizedRecord)) :
    (GoMap.values (ds.foldl (fun m d => GoMap.mergeInto m (g d)) m)).Perm
      (GoMap.values m ++ ds.flatMap (fun d => GoMap.values (g d))) := by
  induction ds generalizing m with
  | nil => simp
  | cons d ds ih =>
    simp only [List.foldl_cons, List.flatMap_cons]
    refine (ih _).trans ?_
    refine (List.Perm.append_right _ (values_mergeInto m (g d))).trans ?_
    simp

theorem matchByDateAndAmount_values (S : SliceSort) (sys : List NormalizedRecord)
    (bank : List bankRec) :
    (GoMap.values (matchByDateAndAmount S sys bank).unmatchedBank).Perm
      ((sweepAll S sys bank).unB.map (fun b => b.toNormalizedRecord)) := by
  rw [matchByDateAndAmount_eq]
  simp only []
  refine (values_foldl_mergeInto (fun d => addUnmatchedBank [] (sweepDate S
    (sys.filter (fun s => s.Date = d)) (bank.filter (fun b => b.Date = d))).unB) _ _).trans ?_
  simp only [sweepAll, List.map_flatMap]
  have : GoMap.values ([] : GoMap String (List NormalizedRecord)) = [] := rfl
  rw [this, List.nil_append]
  apply List.Perm.flatMap_left
  intro d _
  simpa [GoMap.values] using values_addUnmatchedBank [] (sweepDate S
    (sys.filter (fun s => s.Date = d)) (bank.filter (fun b => b.Date = d))).unB

theorem Reconcile_values_unmatchedBank (S : SliceSort) (sys : List SystemTransaction)
    (banks : GoMap String (List BankStatement)) (start end_ : Time) :
    (GoMap.values (Reconcile S sys banks start end_).1.Details.UnmatchedBankByGroup).Perm
      ((sweepBoth S sys banks start end_).unB.map (fun b => b.toNormalizedRecord)) := by
  simp only [Reconcile, normalizeSystem_eq, normalizeBanks_eq, sweepBoth, List.map_append]
  refine (values_mergeInto _ _).trans ?_
  refine (List.Perm.append_right _ (values_mergeInto _ _)).trans ?_
  have : GoMap.values ([] : GoMap String (List NormalizedRecord)) = [] := rfl
  rw [this, List.nil_append]
  exact (matchByDateAndAmount_values S _ _).append (matchByDateAndAmount_values S _ _)

/-- On lists without two different records of the same amount, `pairForDate` returns the
same for every sort. -/
theorem pairForDate_sort_irrel (S T : SliceSort) (d : Time) (sl : List NormalizedRecord)
    (bl : List bankRec) (hs : ∀ x ∈ sl, ∀ y ∈ sl, x.Amount = y.Amount → x = y)
    (hb : ∀ x ∈ bl, ∀ y ∈ bl, x.Amount = y.Amount → x = y) :
    pairForDate S d sl bl = pairForDate T d sl bl := by
  unfold pairForDate
  rw [sort_unique S T (fun s : NormalizedRecord => s.Amount) sl hs,
    sort_unique S T (fun b : bankRec => b.Amount) bl hb]

/-- C9 (the pairing does not minimize the total discrepancy).  For the system amounts 0
and 4000 and the bank amount 4000 of one date, `pairForDate` with any sort returns the
single pair (0, 4000) with discrepancy 4000 and leaves the system record 4000 unmatched,
while pairing the system record 4000 with the bank record is a pairing of the same size,
within the tolerance, with total discrepancy 0.  `Reconcile` on two credit transactions
and one statement line with these amounts reports that pair and the total 4000. -/
theorem C9_greedy_not_minimal (S : SliceSort) :
    (pairForDate S (Time.ofDay 20240) greedySys greedyBank).matched
        = [{ SystemID := "S-1", BankID := "B-1", BankName := "bankA", Date := "2025-06-01",
             SystemAmount := 0, BankAmount := 4000, Discrepancy := 4000 }]
    ∧ (pairForDate S (Time.ofDay 20240) greedySys greedyBank).unmatchedSys
        = [{ ID := "S-2", Date := Time.ofDay 20240, Amount := 4000 }]
    ∧ (∃ ps, isPairing greedySys greedyBank ps
        ∧ ps.length = (pairForDate S (Time.ofDay 20240) greedySys greedyBank).matched.length
        ∧ pairingCost ps
            < ((pairForDate S (Time.ofDay 20240) greedySys greedyBank).matched.map
                (fun m => m.Discrepancy)).sum)
    ∧ (Reconcile S greedyTxs greedyBanks (Time.ofDay 20240) (Time.ofDay 20240)).1.Details.Matched
        = [{ SystemID := "S-1", BankID := "B-1", BankName := "bankA", Date := "2025-06-01",
             SystemAmount := 0, BankAmount := 4000, Discrepancy := 4000 }]
    ∧ (Reconcile S greedyTxs greedyBanks (Time.ofDay 20240)
          (Time.ofDay 20240)).1.Summary.TotalDiscrepancies = 4000 := by
  rw [pairForDate_sort_irrel S insertionSlice _ greedySys greedyBank (by decide) (by decide),
    Reconcile_sort_irrel S insertionSlice greedyTxs greedyBanks _ _ (by decide)]
  refine ⟨by decide, by decide,
    ⟨[(({ ID := "S-2", Date := Time.ofDay 20240, Amount := 4000 } : NormalizedRecord),
      ({ ID := "B-1", Date := Time.ofDay 20240, Amount := 4000, BankName := "bankA" } : bankRec))],
    ⟨?_, ?_, ?_⟩, by decide, by decide⟩, by decide, by decide⟩
  · exact (List.Sublist.cons _ (List.Sublist.refl _)).subperm
  · exact (List.Sublist.refl _).subperm
  · intro p hp
    simp only [List.mem_singleton] at hp
    subst hp
    decide

/-! ## The summary depends on the records up to order only -/

theorem Reconcile_summary (S : SliceSort) (sys : List SystemTransaction)
    (banks : GoMap String (List BankStatement)) (start end_ : Time) :
    (Reconcile S sys banks start end_).1.Summary
      = { TotalProcessed := (sysInRange sys start end_).length + (bankInRange banks start end_).length
          TotalMatched := (sweepBoth S sys banks start end_).pairs.length
          TotalUnmatched := (sweepBoth S sys banks start end_).unS.length
            + (sweepBoth S sys banks start end_).unB.length
          TotalDiscrepancies :=
            sumDiscrepancies ((sweepBoth S sys banks start end_).pairs.map pairOf) } := by
  have h1 := Reconcile_totalProcessed S sys banks start end_
  have h2 := Reconcile_matched S sys banks start end_
  simp only [Reconcile, normalizeSystem_eq, normalizeBanks_eq] at h1 h2 ⊢
  simp only [h1, h2, countUnmatched_eq, GoMap.totalLen_mergeInto, matchByDateAndAmount_totalLen,
    matchByDateAndAmount_unmatchedSys, sweepBoth, List.length_append, List.length_map,
    Summary.mk.injEq, true_and, and_true]
  simp [GoMap.totalLen]

theorem sumDiscrepancies_pairOf (ps : List (NormalizedRecord × bankRec)) :
    sumDiscrepancies (ps.map pairOf)
      = ((ps.map (fun p => (p.1.Amount, p.2.Amount))).foldl
          (fun total q => wrap64 (total + abs64 (wrap64 (q.1 - q.2)))) 0) := by
  unfold sumDiscrepancies
  rw [List.foldl_map, List.foldl_map]
  rfl

/-- The sorted keys of two rearrangements of a list are the same list. -/
theorem sort_map_key (S T : SliceSort) {α : Type} (key : α → Int) (l1 l2 : List α)
    (h : l1.Perm l2) : (S.sort key l1).map key = (T.sort key l2).map key := by
  refine @List.Perm.eq_of_sorted _ (fun x y : Int => x ≤ y) _ _ ?_ ?_ ?_ ?_
  · intro x y _ _ h1 h2
    exact le_antisymm h1 h2
  · exact List.pairwise_map.2 (S.sorted key l1)
  · exact List.pairwise_map.2 (T.sorted key l2)
  · exact (((S.perm key l1).trans h).trans (T.perm key l2).symm).map key

theorem sweep_amounts_congr (fuel : Nat) (ss1 ss2 : List NormalizedRecord)
    (bs1 bs2 : List bankRec)
    (hs : ss1.map (fun s => s.Amount) = ss2.map (fun s => s.Amount))
    (hb : bs1.map (fun b => b.Amount) = bs2.map (fun b => b.Amount)) :
    amountsOf (sweep fuel ss1 bs1) = amountsOf (sweep fuel ss2 bs2) := by
  induction fuel generalizing ss1 ss2 bs1 bs2 with
  | zero =>
    cases ss1 <;> cases ss2 <;> cases bs1 <;> cases bs2 <;> simp_all [sweep, amountsOf]
  | succ n ih =>
    cases ss1 with
    | nil =>
      cases ss2 with
      | nil => simp [sweep, amountsOf]
      | cons s2 r2 => simp at hs
    | cons s1 r1 =>
      cases ss2 with
      | nil => simp at hs
      | cons s2 r2 =>
        cases bs1 with
        | nil =>
          cases bs2 with
          | nil => simp [sweep, amountsOf]
          | cons b2 q2 => simp at hb
        | cons b1 q1 =>
          cases bs2 with
          | nil => simp at hb
          | cons b2 q2 =>
            simp only [List.map_cons, List.cons.injEq] at hs hb
            obtain ⟨hs1, hs2⟩ := hs
            obtain ⟨hb1, hb2⟩ := hb
            simp only [sweep, hs1, hb1]
            split_ifs with c1 c2
            · have := ih r1 r2 q1 q2 hs2 hb2
              simp only [amountsOf] at this ⊢
              simp [this, hs1, hb1]
            · have := ih r1 r2 (b1 :: q1) (b2 :: q2) hs2 (by simp [hb1, hb2])
              simpa [amountsOf] using this
            · have := ih (s1 :: r1) (s2 :: r2) q1 q2 (by simp [hs1, hs2]) hb2
              simpa [amountsOf] using this

theorem sweepDate_amounts_perm (S T : SliceSort) (sl1 sl2 : List NormalizedRecord)
    (bl1 bl2 : List bankRec) (hs : sl1.Perm sl2) (hb : bl1.Perm bl2) :
    amountsOf (sweepDate S sl1 bl1) = amountsOf (sweepDate T sl2 bl2) := by
  unfold sweepDate
  have e1 := sort_map_key S T (fun s : NormalizedRecord => s.Amount) sl1 sl2 hs
  have e2 := sort_map_key S T (fun b : bankRec => b.Amount) bl1 bl2 hb
  have l1 : (S.sort (fun s : NormalizedRecord => s.Amount) sl1).length
      = (T.sort (fun s : NormalizedRecord => s.Amount) sl2).length := by
    simpa using congrArg List.length e1
  have l2 : (S.sort (fun b : bankRec => b.Amount) bl1).length
      = (T.sort (fun b : bankRec => b.Amount) bl2).length := by
    simpa using congrArg List.length e2
  rw [l1, l2]
  exact sweep_amounts_congr _ _ _ _ _ e1 e2

theorem matchDates_perm (S T : SliceSort) (sys1 sys2 : List NormalizedRecord)
    (bank1 bank2 : List bankRec) (hs : sys1.Perm sys2) (hb : bank1.Perm bank2)
    (os : ∀ x ∈ sys1, x.Date.offset = 0 ∧ x.Date.loc = 0) (ob : ∀ x ∈ bank1, x.Date.offset = 0 ∧ x.Date.loc = 0) :
    matchDates S sys1 bank1 = matchDates T sys2 bank2 := by
  have hmem : ∀ d, d ∈ matchDates S sys1 bank1 ↔ d ∈ matchDates T sys2 bank2 := by
    intro d
    rw [mem_matchDates, mem_matchDates]
    constructor
    · rintro (⟨s, h1, h2⟩ | ⟨x, h1, h2⟩)
      · exact Or.inl ⟨s, hs.subset h1, h2⟩
      · exact Or.inr ⟨x, hb.subset h1, h2⟩
    · rintro (⟨s, h1, h2⟩ | ⟨x, h1, h2⟩)
      · exact Or.inl ⟨s, hs.symm.subset h1, h2⟩
      · exact Or.inr ⟨x, hb.symm.subset h1, h2⟩
  have hperm : (matchDates S sys1 bank1).Perm (matchDates T sys2 bank2) :=
    (List.perm_ext_iff_of_nodup (nodup_matchDates S sys1 bank1)
      (nodup_matchDates T sys2 bank2)).2 hmem
  have off : ∀ d ∈ matchDates S sys1 bank1, d.offset = 0 ∧ d.loc = 0 := by
    intro d hd
    rw [mem_matchDates] at hd
    rcases hd with ⟨s, h1, rfl⟩ | ⟨x, h1, rfl⟩
    · exact os s h1
    · exact ob x h1
  refine @List.Perm.eq_of_sorted _ (fun x y : Time => x.unixNano ≤ y.unixNano) _ _ ?_ ?_ ?_ hperm
  · intro x y hx hy h1 h2
    have hx0 := off x hx
    have hy0 := off y ((hmem y).2 hy)
    cases x; cases y
    simp only [Time.mk.injEq] at hx0 hy0 h1 h2 ⊢
    exact ⟨le_antisymm h1 h2, hx0.1.trans hy0.1.symm, hx0.2.trans hy0.2.symm⟩
  · exact S.sorted _ _
  · exact T.sorted _ _

theorem sweepAll_amounts_perm (S T : SliceSort) (sys1 sys2 : List NormalizedRecord)
    (bank1 bank2 : List bankRec) (hs : sys1.Perm sys2) (hb : bank1.Perm bank2)
    (os : ∀ x ∈ sys1, x.Date.offset = 0 ∧ x.Date.loc = 0) (ob : ∀ x ∈ bank1, x.Date.offset = 0 ∧ x.Date.loc = 0) :
    amountsOf (sweepAll S sys1 bank1) = amountsOf (sweepAll T sys2 bank2) := by
  have key : ∀ (U : SliceSort) (sys : List NormalizedRecord) (bank : List bankRec),
      amountsOf (sweepAll U sys bank) = (matchDates U sys bank).flatMap (fun d =>
        amountsOf (sweepDate U (sys.filter (fun s => s.Date = d))
          (bank.filter (fun b => b.Date = d)))) := by
    intro U sys bank
    simp only [amountsOf, sweepAll, List.map_flatMap]
  rw [key, key, matchDates_perm S T sys1 sys2 bank1 bank2 hs hb os ob]
  apply List.flatMap_congr
  intro d _
  exact sweepDate_amounts_perm S T _ _ _ _ (hs.filter _) (hb.filter _)

theorem bankInRange_perm (banks1 banks2 : GoMap String (List BankStatement))
    (start end_ : Time) (h : bankReordering banks1 banks2) :
    (bankInRange banks1 start end_).Perm (bankInRange banks2 start end_) := by
  obtain ⟨mid, h1, h2⟩ := h
  unfold bankInRange
  apply List.Perm.filter
  refine (List.Perm.flatMap_right _ h1).trans ?_
  clear h1
  induction h2 with
  | nil => exact List.Perm.refl _
  | cons hab _ ih =>
    simp only [List.flatMap_cons]
    rw [hab.1]
    exact (hab.2.map _).append ih

theorem sweepBoth_amounts_perm (S T : SliceSort) (sys1 sys2 : List SystemTransaction)
    (banks1 banks2 : GoMap String (List BankStatement)) (start end_ : Time)
    (hsys : sys1.Perm sys2) (hbanks : bankReordering banks1 banks2) :
    amountsOf (sweepBoth S sys1 banks1 start end_) = amountsOf (sweepBoth T sys2 banks2 start end_) := by
  have ps : (sysInRange sys1 start end_).Perm (sysInRange sys2 start end_) :=
    (hsys.map _).filter _
  have pb := bankInRange_perm banks1 banks2 start end_ hbanks
  have e1 := sweepAll_amounts_perm S T (sysPos sys1 start end_) (sysPos sys2 start end_)
    (bankPos banks1 start end_) (bankPos banks2 start end_) (ps.filter _) (pb.filter _)
    (fun x hx => offset_of_mem_sysInRange sys1 start end_ x (List.mem_of_mem_filter hx))
    (fun x hx => offset_of_mem_bankInRange banks1 start end_ x (List.mem_of_mem_filter hx))
  have e2 := sweepAll_amounts_perm S T (sysNeg sys1 start end_) (sysNeg sys2 start end_)
    (bankNeg banks1 start end_) (bankNeg banks2 start end_) (ps.filter _) (pb.filter _)
    (fun x hx => offset_of_mem_sysInRange sys1 start end_ x (List.mem_of_mem_filter hx))
    (fun x hx => offset_of_mem_bankInRange banks1 start end_ x (List.mem_of_mem_filter hx))
  simp only [amountsOf, sweepBoth, List.map_append] at e1 e2 ⊢
  rw [e1, e2]

/-- C10 (order independence of the summary).  The four summary fields are the same for
any two sorts (any tie-break among equal amounts), any rearrangement of the system list,
any visiting order of the bank map and any rearrangement of each bank's list; in
particular two runs on identical inputs agree. -/
theorem C10_summary_order_independent (S T : SliceSort) (sys1 sys2 : List SystemTransaction)
    (banks1 banks2 : GoMap String (List BankStatement)) (start end_ : Time)
    (hsys : sys1.Perm sys2) (hbanks : bankReordering banks1 banks2) :
    (Reconcile S sys1 banks1 start end_).1.Summary
      = (Reconcile T sys2 banks2 start end_).1.Summary := by
  rw [Reconcile_summary, Reconcile_summary]
  have ps : (sysInRange sys1 start end_).Perm (sysInRange sys2 start end_) :=
    (hsys.map _).filter _
  have pb := bankInRange_perm banks1 banks2 start end_ hbanks
  have ha := sweepBoth_amounts_perm S T sys1 sys2 banks1 banks2 start end_ hsys hbanks
  have hlen : (sweepBoth S sys1 banks1 start end_).pairs.length
      = (sweepBoth T sys2 banks2 start end_).pairs.length := by
    simpa [amountsOf] using congrArg List.length ha
  have s1 := (sweepBoth_perm_sys S sys1 banks1 start end_).length_eq
  have s2 := (sweepBoth_perm_sys T sys2 banks2 start end_).length_eq
  have b1 := (sweepBoth_perm_bank S sys1 banks1 start end_).length_eq
  have b2 := (sweepBoth_perm_bank T sys2 banks2 start end_).length_eq
  have ls := ps.length_eq
  have lb := pb.length_eq
  simp only [List.length_append, List.length_map] at s1 s2 b1 b2
  rw [sumDiscrepancies_pairOf, sumDiscrepancies_pairOf]
  simp only [amountsOf] at ha
  rw [ha]
  simp only [Summary.mk.injEq, and_true]
  refine ⟨?_, ?_, ?_⟩ <;> omega

/-- Witness of C10: the data of `TestReconcileBasic` with the system list reversed, the
bank map visited in the other order and the list of `bankA` reversed. -/
theorem C10_summary_order_independent_witness :
    testSys.Perm testSys.reverse
    ∧ bankReordering testBanks [("bankB", testBankB), ("bankA", testBankA.reverse)]
    ∧ (Reconcile insertionSlice testSys testBanks (Time.ofDay 20240) (Time.ofDay 20242)).1.Summary
      = (Reconcile insertionSlice testSys.reverse
          [("bankB", testBankB), ("bankA", testBankA.reverse)]
          (Time.ofDay 20240) (Time.ofDay 20242)).1.Summary :=
  ⟨(List.reverse_perm testSys).symm,
    ⟨[("bankB", testBankB), ("bankA", testBankA)], List.Perm.swap _ _ _,
      List.Forall₂.cons ⟨rfl, List.Perm.refl _⟩
        (List.Forall₂.cons ⟨rfl, (List.reverse_perm testBankA).symm⟩ List.Forall₂.nil)⟩,
    C10_summary_order_independent insertionSlice insertionSlice testSys testSys.reverse testBanks
      [("bankB", testBankB), ("bankA", testBankA.reverse)] (Time.ofDay 20240) (Time.ofDay 20242)
      (List.reverse_perm testSys).symm
      ⟨[("bankB", testBankB), ("bankA", testBankA)], List.Perm.swap _ _ _,
        List.Forall₂.cons ⟨rfl, List.Perm.refl _⟩
          (List.Forall₂.cons ⟨rfl, (List.reverse_perm testBankA).symm⟩ List.Forall₂.nil)⟩⟩

/-! ## Summary and details -/

/-- C11 (summary counts agree with the details).  `TotalMatched` is the length of
`Details.Matched`, and `TotalUnmatched` is the length of `Details.UnmatchedSystem` plus
the sum of the lengths of all slices of `Details.UnmatchedBankByGroup`. -/
theorem C11_summary_counts (S : SliceSort) (sys : List SystemTransaction)
    (banks : GoMap String (List BankStatement)) (start end_ : Time) :
    (Reconcile S sys banks start end_).1.Summary.TotalMatched
        = (Reconcile S sys banks start end_).1.Details.Matched.length
    ∧ (Reconcile S sys banks start end_).1.Summary.TotalUnmatched
        = (Reconcile S sys banks start end_).1.Details.UnmatchedSystem.length
          + ((Reconcile S sys banks start end_).1.Details.UnmatchedBankByGroup.map
              (fun e => e.2.length)).sum := by
  constructor
  · rfl
  · simp only [Reconcile, countUnmatched_eq, GoMap.totalLen]

theorem wrap64_add_wrap64 (a b : Int) : wrap64 (wrap64 a + b) = wrap64 (a + b) := by
  unfold wrap64
  omega

/-- The `int64` accumulation of a list of summands is the wrapped mathematical sum. -/
theorem foldl_wrap64_add {α : Type} (f : α → Int) (l : List α) (t : Int) :
    wrap64 (l.foldl (fun total m => wrap64 (total + f m)) t) = wrap64 (t + (l.map f).sum) := by
  induction l generalizing t with
  | nil => simp
  | cons a rest ih =>
    simp only [List.foldl_cons, List.map_cons, List.sum_cons]
    rw [ih, wrap64_add_wrap64, add_assoc]

theorem isInt64_foldl_wrap64 {α : Type} (f : α → Int) (l : List α) (t : Int) (h : isInt64 t) :
    isInt64 (l.foldl (fun total m => wrap64 (total + f m)) t) := by
  induction l generalizing t with
  | nil => simpa using h
  | cons a rest ih =>
    simp only [List.foldl_cons]
    exact ih _ (isInt64_wrap64 _)

theorem sumDiscrepancies_eq (matched : List MatchedPair) :
    sumDiscrepancies matched
      = wrap64 ((matched.map
          (fun m => abs64 (wrap64 (m.SystemAmount - m.BankAmount)))).sum) := by
  have h1 := foldl_wrap64_add (fun m : MatchedPair => abs64 (wrap64 (m.SystemAmount - m.BankAmount)))
    matched 0
  have h2 := isInt64_foldl_wrap64
    (fun m : MatchedPair => abs64 (wrap64 (m.SystemAmount - m.BankAmount))) matched 0 (by decide)
  rw [wrap64_of_isInt64 _ h2, zero_add] at h1
  exact h1

theorem discrepancy_of_mem_matched (S : SliceSort) (sys : List SystemTransaction)
    (banks : GoMap String (List BankStatement)) (start end_ : Time) (m : MatchedPair)
    (hm : m ∈ (Reconcile S sys banks start end_).1.Details.Matched) :
    m.Discrepancy = abs64 (wrap64 (m.SystemAmount - m.BankAmount)) := by
  rw [Reconcile_matched, List.mem_map] at hm
  obtain ⟨p, _, rfl⟩ := hm
  rfl

/-- C12 (total discrepancy).  `TotalDiscrepancies` is the `int64` sum of the `Discrepancy`
fields of the pairs of `Details.Matched`: the sum wrapped to `int64`, hence the sum itself
whenever the sum is an `int64` value; it is 0 when every matched pair has equal amounts. -/
theorem C12_total_discrepancy (S : SliceSort) (sys : List SystemTransaction)
    (banks : GoMap String (List BankStatement)) (start end_ : Time) :
    (Reconcile S sys banks start end_).1.Summary.TotalDiscrepancies
        = wrap64 (((Reconcile S sys banks start end_).1.Details.Matched.map
            (fun m => m.Discrepancy)).sum)
    ∧ (isInt64 (((Reconcile S sys banks start end_).1.Details.Matched.map
            (fun m => m.Discrepancy)).sum) →
        (Reconcile S sys banks start end_).1.Summary.TotalDiscrepancies
          = ((Reconcile S sys banks start end_).1.Details.Matched.map
              (fun m => m.Discrepancy)).sum)
    ∧ ((∀ m ∈ (Reconcile S sys banks start end_).1.Details.Matched,
          m.SystemAmount = m.BankAmount) →
        (Reconcile S sys banks start end_).1.Summary.TotalDiscrepancies = 0) := by
  have hsum : (Reconcile S sys banks start end_).1.Summary.TotalDiscrepancies
      = wrap64 (((Reconcile S sys banks start end_).1.Details.Matched.map
          (fun m => m.Discrepancy)).sum) := by
    have h0 : (Reconcile S sys banks start end_).1.Summary.TotalDiscrepancies
        = sumDiscrepancies (Reconcile S sys banks start end_).1.Details.Matched := rfl
    rw [h0, sumDiscrepancies_eq]
    congr 2
    apply List.map_congr_left
    intro m hm
    exact (discrepancy_of_mem_matched S sys banks start end_ m hm).symm
  refine ⟨hsum, ?_, ?_⟩
  · intro h
    rw [hsum, wrap64_of_isInt64 _ h]
  · intro h
    rw [hsum]
    have hz : ((Reconcile S sys banks start end_).1.Details.Matched.map
        (fun m => m.Discrepancy)).sum = 0 := by
      apply List.sum_eq_zero
      intro x hx
      rw [List.mem_map] at hx
      obtain ⟨m, hm, rfl⟩ := hx
      rw [discrepancy_of_mem_matched S sys banks start end_ m hm, h m hm]
      simp [abs64, wrap64]
    rw [hz]
    decide

/-- C13 (discrepancy definition).  For `int64` input amounts, the `Discrepancy` of every
pair of `Details.Matched` is the absolute value of the integer difference of its system
amount and its bank amount: the `int64` subtraction and `abs64` do not wrap. -/
theorem C13_discrepancy_exact (S : SliceSort) (sys : List SystemTransaction)
    (banks : GoMap String (List BankStatement)) (start end_ : Time)
    (hs : ∀ s ∈ sys, isInt64 s.Amount)
    (hb : ∀ e ∈ banks, ∀ x ∈ e.2, isInt64 x.Amount) :
    ∀ m ∈ (Reconcile S sys banks start end_).1.Details.Matched,
      m.Discrepancy = |m.SystemAmount - m.BankAmount|
      ∧ wrap64 (m.SystemAmount - m.BankAmount) = m.SystemAmount - m.BankAmount := by
  intro m hm
  rw [Reconcile_matched, List.mem_map] at hm
  obtain ⟨p, hp, rfl⟩ := hm
  obtain ⟨h1, h2, _, _, h5⟩ := mem_sweepBoth_pairs S sys banks start end_ p hp
  obtain ⟨s, hsm, hs1, _⟩ := mem_sysInRange sys start end_ p.1 h1
  obtain ⟨e, he, x, hx, hx1, _⟩ := mem_bankInRange banks start end_ p.2 h2
  have i1 : isInt64 p.1.Amount := by
    rw [hs1]; exact isInt64_signedAmount s (hs s hsm)
  have i2 : isInt64 p.2.Amount := by
    rw [hx1]; exact hb e he x hx
  constructor
  · exact abs64_sub_same_sign _ _ i1 i2 h5
  · show wrap64 (p.1.Amount - p.2.Amount) = p.1.Amount - p.2.Amount
    apply wrap64_of_isInt64
    unfold isInt64 at i1 i2 ⊢
    rcases h5 with h5 | h5 <;> constructor <;> omega

/-- Witness of C13 on the data of `TestReconcileBasic`: the pair with discrepancy 5000. -/
theorem C13_discrepancy_exact_witness :
    (∀ s ∈ testSys, isInt64 s.Amount) ∧ (∀ e ∈ testBanks, ∀ x ∈ e.2, isInt64 x.Amount) ∧
    testPair ∈ (Reconcile insertionSlice testSys testBanks (Time.ofDay 20240)
        (Time.ofDay 20242)).1.Details.Matched ∧
    (testPair.Discrepancy = |testPair.SystemAmount - testPair.BankAmount|
      ∧ wrap64 (testPair.SystemAmount - testPair.BankAmount)
          = testPair.SystemAmount - testPair.BankAmount) :=
  ⟨by decide, by decide, by decide,
    C13_discrepancy_exact insertionSlice testSys testBanks (Time.ofDay 20240) (Time.ofDay 20242)
      (by decide) (by decide) testPair (by decide)⟩

/-! ## Totality -/

theorem restBankIndexed_eq (bList : List bankRec) (fuel j : Nat)
    (m : GoMap String (List NormalizedRecord)) (hj : j ≤ bList.length)
    (hf : bList.length - j ≤ fuel) :
    restBankIndexed bList fuel j m = some (addUnmatchedBank m (bList.drop j)) := by
  induction fuel generalizing j m with
  | zero =>
    have : j = bList.length := by omega
    subst this
    simp [restBankIndexed, addUnmatchedBank]
  | succ n ih =>
    by_cases h : j < bList.length
    · simp only [restBankIndexed, h, if_true, List.getElem?_eq_getElem h]
      rw [ih (j + 1) _ (by omega) (by omega), List.drop_eq_getElem_cons h]
      simp only [addUnmatchedBank, List.foldl_cons]
    · have : j = bList.length := by omega
      subst this
      simp [restBankIndexed, addUnmatchedBank]

theorem afterLoopIndexed_eq (d : Time) (sList : List NormalizedRecord) (bList : List bankRec)
    (fuel i j : Nat) (st : Pairing) (hi : i ≤ sList.length) (hj : j ≤ bList.length)
    (h : ¬ (i < sList.length ∧ j < bList.length)) :
    afterLoopIndexed sList bList i j st
      = some (pairLoop d fuel (sList.drop i) (bList.drop j) st) := by
  unfold afterLoopIndexed
  rw [restBankIndexed_eq bList _ j _ hj (le_refl _)]
  by_cases h1 : i < sList.length
  · have h2 : j = bList.length := by omega
    subst h2
    rw [List.drop_eq_getElem_cons h1]
    simp only [h1, if_true, sliceFrom, hi, Option.map_some', List.drop_length, addUnmatchedBank,
      List.foldl_nil]
    rw [List.drop_eq_getElem_cons h1]
    cases fuel <;> simp [pairLoop]
  · have h2 : i = sList.length := by omega
    subst h2
    simp only [lt_irrefl, if_false, List.drop_length]
    cases fuel <;> simp [pairLoop, addUnmatchedBank]

/-- With indices inside the lists and enough fuel, the loops with indices do not panic and
return what `pairLoop` returns on the records not yet visited. -/
theorem pairLoopIndexed_eq (d : Time) (sList : List NormalizedRecord) (bList : List bankRec)
    (fuel i j : Nat) (st : Pairing) (hi : i ≤ sList.length) (hj : j ≤ bList.length)
    (hf : (sList.length - i) + (bList.length - j) ≤ fuel) :
    pairLoopIndexed d sList bList fuel i j st
      = some (pairLoop d fuel (sList.drop i) (bList.drop j) st) := by
  induction fuel generalizing i j st with
  | zero =>
    have h : ¬ (i < sList.length ∧ j < bList.length) := by omega
    simp only [pairLoopIndexed, h, if_false]
    exact afterLoopIndexed_eq d sList bList 0 i j st hi hj h
  | succ n ih =>
    by_cases h : i < sList.length ∧ j < bList.length
    · simp only [pairLoopIndexed, h, and_self, if_true, List.getElem?_eq_getElem h.1,
        List.getElem?_eq_getElem h.2]
      rw [List.drop_eq_getElem_cons h.1, List.drop_eq_getElem_cons h.2]
      simp only [pairLoop]
      split_ifs with c1 c2
      · exact ih (i + 1) (j + 1) _ (by omega) (by omega) (by omega)
      · rw [ih (i + 1) j _ (by omega) hj (by omega), List.drop_eq_getElem_cons h.2]
      · rw [ih i (j + 1) _ hi (by omega) (by omega), List.drop_eq_getElem_cons h.1]
    · simp only [pairLoopIndexed, h, if_false]
      exact afterLoopIndexed_eq d sList bList (n + 1) i j st hi hj h

theorem pairForDateIndexed_eq (S : SliceSort) (d : Time) (sList : List NormalizedRecord)
    (bList : List bankRec) :
    pairForDateIndexed S d sList bList = some (pairForDate S d sList bList) := by
  unfold pairForDateIndexed pairForDate
  simp only []
  rw [pairLoopIndexed_eq d _ _ _ 0 0 _ (Nat.zero_le _) (Nat.zero_le _) (by omega)]
  simp

theorem sort_nil (S : SliceSort) {α : Type} (key : α → Int) : S.sort key [] = [] :=
  List.Perm.eq_nil (S.perm key [])

theorem matchByDateAndAmount_nil (S : SliceSort) :
    matchByDateAndAmount S [] [] = { matched := [], unmatchedSys := [], unmatchedBank := [] } := by
  simp [matchByDateAndAmount, groupByDateSys, groupByDateBank, collectSortedDates, GoMap.keys,
    sort_nil]

theorem Reconcile_of_empty_range (S : SliceSort) (sys : List SystemTransaction)
    (banks : GoMap String (List BankStatement)) (start end_ : Time)
    (hs : sysInRange sys start end_ = []) (hb : bankInRange banks start end_ = []) :
    (Reconcile S sys banks start end_).1 = emptyResult := by
  simp [Reconcile, normalizeSystem_eq, normalizeBanks_eq, sysPos, sysNeg, bankPos, bankNeg, hs, hb,
    matchByDateAndAmount_nil, GoMap.mergeInto, countUnmatched, sumDiscrepancies, emptyResult]

theorem outOfRange_of_end_before_start (d start end_ : Time)
    (h : end_.unixNano < start.unixNano) : outOfRange d start end_ = true := by
  simp only [outOfRange, Time.Before, Time.After, Bool.or_eq_true, decide_eq_true_eq]
  omega

/-- C14 (totality).  For every system list, bank map and range, `Reconcile` returns a
result with a nil error, and the loops of `pairForDate`, run with indices, never index out
of range and end with the result of `pairForDate`.  With no records at all, and with
`start` after `end` (every record is then outside the range), the result is the empty
result. -/
theorem C14_totality (S : SliceSort) (sys : List SystemTransaction)
    (banks : GoMap String (List BankStatement)) (start end_ : Time) :
    (Reconcile S sys banks start end_).2 = none
    ∧ (∀ (d : Time) (sList : List NormalizedRecord) (bList : List bankRec),
        pairForDateIndexed S d sList bList = some (pairForDate S d sList bList))
    ∧ (Reconcile S [] [] start end_).1 = emptyResult
    ∧ (end_.unixNano < start.unixNano → (Reconcile S sys banks start end_).1 = emptyResult) := by
  refine ⟨rfl, pairForDateIndexed_eq S, ?_, ?_⟩
  · exact Reconcile_of_empty_range S [] [] start end_ rfl rfl
  · intro h
    apply Reconcile_of_empty_range
    · simp [sysInRange, outOfRange_of_end_before_start _ start end_ h]
    · simp [bankInRange, outOfRange_of_end_before_start _ start end_ h]

/-- Witness of C14 on the test data with `start` one day after `end`. -/
theorem C14_totality_witness :
    (Time.ofDay 20240).unixNano < (Time.ofDay 20241).unixNano
    ∧ (Reconcile insertionSlice testSys testBanks (Time.ofDay 20241) (Time.ofDay 20240)).1
        = emptyResult :=
  ⟨by decide,
    (C14_totality insertionSlice testSys testBanks (Time.ofDay 20241) (Time.ofDay 20240)).2.2.2
      (by decide)⟩

/-! ## A date with bank records only -/

theorem ofDay_injective (d1 d2 : Int) (h : Time.ofDay d1 = Time.ofDay d2) : d1 = d2 := by
  simp only [Time.ofDay, Time.mk.injEq, and_true] at h
  have hpos : nsPerDay ≠ 0 := by unfold nsPerDay; norm_num
  exact mul_right_cancel₀ hpos h

theorem inClass_of_same_sign (neg : Bool) (x y : Int)
    (h : (0 ≤ x ∧ 0 ≤ y) ∨ (x < 0 ∧ y < 0)) (hy : inClass neg y = true) :
    inClass neg x = true := by
  cases neg <;> simp only [inClass, if_true, if_false, Bool.false_eq_true, decide_eq_true_eq]
    at hy ⊢ <;> omega

/-- Without an in-range system transaction of day `d` in a sign partition, no pair of the
sweeps has a bank record of day `d` in that partition. -/
theorem no_pair_on_single_sided_date (S : SliceSort) (sys : List SystemTransaction)
    (banks : GoMap String (List BankStatement)) (a b d : Int) (neg : Bool)
    (hnone : ∀ s ∈ sys, a ≤ sysDay s ∧ sysDay s ≤ b → sysDay s = d →
      inClass neg (signedAmount s) = false)
    (p : NormalizedRecord × bankRec)
    (hp : p ∈ (sweepBoth S sys banks (Time.ofDay a) (Time.ofDay b)).pairs) :
    ¬ (p.2.Date = Time.ofDay d ∧ inClass neg p.2.Amount = true) := by
  rintro ⟨hd, hc⟩
  obtain ⟨h1, _, h3, _, h5⟩ := mem_sweepBoth_pairs S sys banks _ _ p hp
  rw [sysInRange_ofDay, List.mem_map] at h1
  obtain ⟨s, hs, hs1⟩ := h1
  simp only [List.mem_filter, decide_eq_true_eq] at hs
  have hday : sysDay s = d := by
    apply ofDay_injective
    rw [← hd, ← h3, ← hs1]
    rfl
  have hcls : inClass neg (signedAmount s) = true := by
    have := inClass_of_same_sign neg p.1.Amount p.2.Amount h5 hc
    rw [← hs1] at this
    exact this
  rw [hnone s hs.1 hs.2 hday] at hcls
  exact Bool.false_ne_true hcls

theorem filter_day_class_map (L : String) (d : Int) (c : Int → Bool) (l : List BankStatement) :
    (((l.map (normalizedBank L)).filter
        (fun n => decide (n.Date = Time.ofDay d) && c n.Amount)).map
        (fun n => n.toNormalizedRecord))
      = (l.filter (fun x => decide (bankDay x = d) && c x.Amount)).map
          (fun x => ({ ID := x.UniqueIdentifier, Date := Time.ofDay d, Amount := x.Amount }
            : NormalizedRecord)) := by
  induction l with
  | nil => simp
  | cons x rest ih =>
    have hd : (normalizedBank L x).Date = Time.ofDay d ↔ bankDay x = d := by
      constructor
      · intro h
        exact ofDay_injective _ _ h
      · intro h
        rw [← h]
        rfl
    simp only [List.map_cons, List.filter_cons]
    by_cases h1 : bankDay x = d
    · have h2 : (normalizedBank L x).Date = Time.ofDay d := hd.2 h1
      have h3 : (normalizedBank L x).Amount = x.Amount := rfl
      by_cases h4 : c x.Amount = true
      · simp only [h1, h2, h3, h4, decide_True, Bool.and_self, if_true, List.map_cons, ih]
        congr 1
        rw [← h1]
        rfl
      · simp only [h1, h2, h3, h4, decide_True, Bool.true_and, if_false, ih]
        exact ih
    · have h2 : ¬ (normalizedBank L x).Date = Time.ofDay d := fun e => h1 (hd.1 e)
      simp only [h1, h2, decide_False, Bool.false_and, Bool.false_eq_true, if_false, ih]

/-! ## Unmatched records are out of each other's reach -/

theorem sweep_unS_subset (fuel : Nat) (ss : List NormalizedRecord) (bs : List bankRec)
    (h : ss.length + bs.length ≤ fuel) : ∀ u ∈ (sweep fuel ss bs).unS, u ∈ ss := by
  intro u hu
  exact (sweep_perm_sys fuel ss bs h).subset (List.mem_append_right _ hu)

theorem sweep_unB_subset (fuel : Nat) (ss : List NormalizedRecord) (bs : List bankRec)
    (h : ss.length + bs.length ≤ fuel) : ∀ v ∈ (sweep fuel ss bs).unB, v ∈ bs := by
  intro v hv
  exact (sweep_perm_bank fuel ss bs h).subset (List.mem_append_right _ hv)

/-- On sorted lists on which the `int64` difference is exact, an unmatched system record
and an unmatched bank record of the sweep differ by more than the tolerance. -/
theorem sweep_unmatched_far (fuel : Nat) (ss : List NormalizedRecord) (bs : List bankRec)
    (h : ss.length + bs.length ≤ fuel)
    (hss : ss.Pairwise (fun x y => x.Amount ≤ y.Amount))
    (hbs : bs.Pairwise (fun x y => x.Amount ≤ y.Amount))
    (hex : ∀ s ∈ ss, ∀ b ∈ bs, abs64 (wrap64 (s.Amount - b.Amount)) = |s.Amount - b.Amount|) :
    ∀ u ∈ (sweep fuel ss bs).unS, ∀ v ∈ (sweep fuel ss bs).unB,
      5000 < |u.Amount - v.Amount| := by
  induction fuel generalizing ss bs with
  | zero =>
    cases ss with
    | nil => simp [sweep]
    | cons s ss =>
      cases bs with
      | nil => simp [sweep]
      | cons b bs => simp at h
  | succ n ih =>
    cases ss with
    | nil => simp [sweep]
    | cons s ss =>
      cases bs with
      | nil => simp [sweep]
      | cons b bs =>
        simp only [List.length_cons] at h
        have hss' := (List.pairwise_cons.1 hss)
        have hbs' := (List.pairwise_cons.1 hbs)
        have hsb := hex s (List.mem_cons_self _ _) b (List.mem_cons_self _ _)
        simp only [sweep]
        split_ifs with h1 h2
        · apply ih ss bs (by omega) hss'.2 hbs'.2
          intro x hx y hy
          exact hex x (List.mem_cons_of_mem _ hx) y (List.mem_cons_of_mem _ hy)
        · have hsub := sweep_unB_subset n ss (b :: bs) (by simp only [List.length_cons]; omega)
          have hrec := ih ss (b :: bs) (by simp only [List.length_cons]; omega) hss'.2 hbs
            (fun x hx y hy => hex x (List.mem_cons_of_mem _ hx) y hy)
          intro u hu v hv
          simp only [List.mem_cons] at hu
          rcases hu with rfl | hu
          · have hv' := hsub v hv
            have hge : b.Amount ≤ v.Amount := by
              simp only [List.mem_cons] at hv'
              rcases hv' with rfl | hv'
              · exact le_refl _
              · exact hbs'.1 v hv'
            rw [hsb] at h1
            simp only [discrepancyTolerance, not_le] at h1
            rw [lt_abs] at h1 ⊢
            right
            rcases h1 with h1 | h1 <;> omega
          · exact hrec u hu v hv
        · have hsub := sweep_unS_subset n (s :: ss) bs (by simp only [List.length_cons]; omega)
          have hrec := ih (s :: ss) bs (by simp only [List.length_cons]; omega) hss hbs'.2
            (fun x hx y hy => hex x hx y (List.mem_cons_of_mem _ hy))
          intro u hu v hv
          simp only [List.mem_cons] at hv
          rcases hv with rfl | hv
          · have hu' := hsub u hu
            have hge : s.Amount ≤ u.Amount := by
              simp only [List.mem_cons] at hu'
              rcases hu' with rfl | hu'
              · exact le_refl _
              · exact hss'.1 u hu'
            rw [hsb] at h1
            simp only [discrepancyTolerance, not_le] at h1
            rw [lt_abs] at h1 ⊢
            left
            rcases h1 with h1 | h1 <;> omega
          · exact hrec u hu v hv

theorem sweepDate_unmatched_far (S : SliceSort) (sl : List NormalizedRecord) (bl : List bankRec)
    (hex : ∀ s ∈ sl, ∀ b ∈ bl, abs64 (wrap64 (s.Amount - b.Amount)) = |s.Amount - b.Amount|) :
    ∀ u ∈ (sweepDate S sl bl).unS, ∀ v ∈ (sweepDate S sl bl).unB,
      5000 < |u.Amount - v.Amount| := by
  unfold sweepDate
  apply sweep_unmatched_far _ _ _ (le_refl _) (S.sorted _ sl) (S.sorted _ bl)
  intro s hs b hb
  exact hex s ((S.perm _ sl).subset hs) b ((S.perm _ bl).subset hb)

theorem sweepAll_unmatched_far (S : SliceSort) (sys : List NormalizedRecord)
    (bank : List bankRec)
    (hex : ∀ s ∈ sys, ∀ b ∈ bank, abs64 (wrap64 (s.Amount - b.Amount)) = |s.Amount - b.Amount|) :
    ∀ u ∈ (sweepAll S sys bank).unS, ∀ v ∈ (sweepAll S sys bank).unB,
      u.Date = v.Date → 5000 < |u.Amount - v.Amount| := by
  intro u hu v hv hd
  simp only [sweepAll, List.mem_flatMap] at hu hv
  obtain ⟨d1, _, hu⟩ := hu
  obtain ⟨d2, _, hv⟩ := hv
  have hu1 := (sweepDate_perm_sys S _ _).subset (List.mem_append_right _ hu)
  have hv1 := (sweepDate_perm_bank S _ _).subset (List.mem_append_right _ hv)
  simp only [List.mem_filter, decide_eq_true_eq] at hu1 hv1
  have e : d1 = d2 := by rw [← hu1.2, ← hv1.2]; exact hd
  subst e
  refine sweepDate_unmatched_far S _ _ ?_ u hu v hv
  intro s hs b hb
  exact hex s (List.mem_of_mem_filter hs) b (List.mem_of_mem_filter hb)

theorem isInt64_of_mem_sysInRange (sys : List SystemTransaction) (start end_ : Time)
    (hs : ∀ s ∈ sys, isInt64 s.Amount) (n : NormalizedRecord)
    (h : n ∈ sysInRange sys start end_) : isInt64 n.Amount := by
  obtain ⟨s, hsm, rfl, _⟩ := mem_sysInRange sys start end_ n h
  exact isInt64_signedAmount s (hs s hsm)

theorem isInt64_of_mem_bankInRange (banks : GoMap String (List BankStatement))
    (start end_ : Time) (hb : ∀ e ∈ banks, ∀ x ∈ e.2, isInt64 x.Amount) (n : bankRec)
    (h : n ∈ bankInRange banks start end_) : isInt64 n.Amount := by
  obtain ⟨e, he, x, hx, rfl, _⟩ := mem_bankInRange banks start end_ n h
  exact hb e he x hx

/-- In the sweeps of `Reconcile` on `int64` amounts, an unmatched system record and an
unmatched bank record of the same date and sign class differ by more than the tolerance. -/
theorem sweepBoth_unmatched_far (S : SliceSort) (sys : List SystemTransaction)
    (banks : GoMap String (List BankStatement)) (start end_ : Time)
    (hs : ∀ s ∈ sys, isInt64 s.Amount)
    (hb : ∀ e ∈ banks, ∀ x ∈ e.2, isInt64 x.Amount) :
    ∀ u ∈ (sweepBoth S sys banks start end_).unS, ∀ v ∈ (sweepBoth S sys banks start end_).unB,
      u.Date = v.Date → ((0 ≤ u.Amount ∧ 0 ≤ v.Amount) ∨ (u.Amount < 0 ∧ v.Amount < 0)) →
      5000 < |u.Amount - v.Amount| := by
  intro u hu v hv hd hsign
  simp only [sweepBoth, List.mem_append] at hu hv
  have upos : u ∈ (sweepAll S (sysPos sys start end_) (bankPos banks start end_)).unS →
      0 ≤ u.Amount := by
    intro h
    have := (sweepAll_perm_sys S _ _).subset (List.mem_append_right _ h)
    simp only [sysPos, List.mem_filter, decide_eq_true_eq] at this
    exact this.2
  have uneg : u ∈ (sweepAll S (sysNeg sys start end_) (bankNeg banks start end_)).unS →
      u.Amount < 0 := by
    intro h
    have := (sweepAll_perm_sys S _ _).subset (List.mem_append_right _ h)
    simp only [sysNeg, List.mem_filter, Bool.not_eq_eq_eq_not, Bool.not_true,
      decide_eq_false_iff_not, not_le] at this
    exact this.2
  have vpos : v ∈ (sweepAll S (sysPos sys start end_) (bankPos banks start end_)).unB →
      0 ≤ v.Amount := by
    intro h
    have := (sweepAll_perm_bank S _ _).subset (List.mem_append_right _ h)
    simp only [bankPos, List.mem_filter, decide_eq_true_eq] at this
    exact this.2
  have vneg : v ∈ (sweepAll S (sysNeg sys start end_) (bankNeg banks start end_)).unB →
      v.Amount < 0 := by
    intro h
    have := (sweepAll_perm_bank S _ _).subset (List.mem_append_right _ h)
    simp only [bankNeg, List.mem_filter, Bool.not_eq_eq_eq_not, Bool.not_true,
      decide_eq_false_iff_not, not_le] at this
    exact this.2
  rcases hu with hu | hu <;> rcases hv with hv | hv
  · refine sweepAll_unmatched_far S _ _ ?_ u hu v hv hd
    intro s hs1 b hb1
    simp only [sysPos, bankPos, List.mem_filter, decide_eq_true_eq] at hs1 hb1
    exact abs64_sub_same_sign _ _ (isInt64_of_mem_sysInRange sys start end_ hs s hs1.1)
      (isInt64_of_mem_bankInRange banks start end_ hb b hb1.1) (Or.inl ⟨hs1.2, hb1.2⟩)
  · have h1 := upos hu
    have h2 := vneg hv
    omega
  · have h1 := uneg hu
    have h2 := vpos hv
    omega
  · refine sweepAll_unmatched_far S _ _ ?_ u hu v hv hd
    intro s hs1 b hb1
    simp only [sysNeg, bankNeg, List.mem_filter, Bool.not_eq_eq_eq_not, Bool.not_true,
      decide_eq_false_iff_not, not_le] at hs1 hb1
    exact abs64_sub_same_sign _ _ (isInt64_of_mem_sysInRange sys start end_ hs s hs1.1)
      (isInt64_of_mem_bankInRange banks start end_ hb b hb1.1) (Or.inr ⟨hs1.2, hb1.2⟩)

/-- C18 (unmatched records have no eligible unmatched counterpart).  For `int64` input
amounts there is no record `u` of `Details.UnmatchedSystem` and record `v` in a bucket of
`Details.UnmatchedBankByGroup` with the same date, the same sign class and amounts that
differ by at most 5000: such records always differ by more than 5000. -/
theorem C18_no_matchable_pair_left (S : SliceSort) (sys : List SystemTransaction)
    (banks : GoMap String (List BankStatement)) (start end_ : Time)
    (hs : ∀ s ∈ sys, isInt64 s.Amount)
    (hb : ∀ e ∈ banks, ∀ x ∈ e.2, isInt64 x.Amount) :
    ∀ u ∈ (Reconcile S sys banks start end_).1.Details.UnmatchedSystem,
      ∀ e ∈ (Reconcile S sys banks start end_).1.Details.UnmatchedBankByGroup, ∀ v ∈ e.2,
        u.Date = v.Date → ((0 ≤ u.Amount ∧ 0 ≤ v.Amount) ∨ (u.Amount < 0 ∧ v.Amount < 0)) →
        ¬ |u.Amount - v.Amount| ≤ 5000 := by
  intro u hu e he v hv hd hsign
  rw [Reconcile_unmatchedSystem] at hu
  have hv1 : v ∈ GoMap.values (Reconcile S sys banks start end_).1.Details.UnmatchedBankByGroup := by
    simp only [GoMap.values, List.mem_flatMap]
    exact ⟨e, he, hv⟩
  have hv2 := (Reconcile_values_unmatchedBank S sys banks start end_).subset hv1
  rw [List.mem_map] at hv2
  obtain ⟨w, hw, rfl⟩ := hv2
  have := sweepBoth_unmatched_far S sys banks start end_ hs hb u hu w hw hd hsign
  exact not_le.2 this

/-- Witness of C18 on the data of `TestReconcileBasic`: the unmatched `TRX-1006` (+42000)
and the unmatched `BB-3002` (+100000) of 2025-06-03. -/
theorem C18_no_matchable_pair_left_witness :
    (∀ s ∈ testSys, isInt64 s.Amount) ∧ (∀ e ∈ testBanks, ∀ x ∈ e.2, isInt64 x.Amount)
    ∧ ({ ID := "TRX-1006", Date := Time.ofDay 20242, Amount := 42000 } : NormalizedRecord)
        ∈ (Reconcile insertionSlice testSys testBanks (Time.ofDay 20240)
            (Time.ofDay 20242)).1.Details.UnmatchedSystem
    ∧ ("bankB", [({ ID := "BB-3002", Date := Time.ofDay 20242, Amount := 100000 }
          : NormalizedRecord)])
        ∈ (Reconcile insertionSlice testSys testBanks (Time.ofDay 20240)
            (Time.ofDay 20242)).1.Details.UnmatchedBankByGroup
    ∧ ¬ |(42000 : Int) - 100000| ≤ 5000 :=
  ⟨by decide, by decide, by decide, by decide,
    C18_no_matchable_pair_left insertionSlice testSys testBanks (Time.ofDay 20240)
      (Time.ofDay 20242) (by decide) (by decide)
      { ID := "TRX-1006", Date := Time.ofDay 20242, Amount := 42000 } (by decide)
      ("bankB", [{ ID := "BB-3002", Date := Time.ofDay 20242, Amount := 100000 }]) (by decide)
      { ID := "BB-3002", Date := Time.ofDay 20242, Amount := 100000 } (by decide) rfl
      (Or.inl ⟨by decide, by decide⟩)⟩

/-! ## The sweep matches as many records as any pairing -/

theorem subperm_of_not_mem {α : Type} (a : α) (l l2 : List α) (h : a ∉ l)
    (hs : l.Subperm (a :: l2)) : l.Subperm l2 := by
  rw [← Multiset.coe_le] at hs ⊢
  rw [← Multiset.cons_coe] at hs
  exact (Multiset.le_cons_of_not_mem (by simpa using h)).1 hs

/-- A system record more than the tolerance below the smallest bank record is in no pair. -/
theorem isPairing_skip_sys (s : NormalizedRecord) (ss : List NormalizedRecord) (b : bankRec)
    (bs : List bankRec) (ps : List (NormalizedRecord × bankRec))
    (hbmin : ∀ y ∈ bs, b.Amount ≤ y.Amount) (hfar : s.Amount + 5000 < b.Amount)
    (h : isPairing (s :: ss) (b :: bs) ps) : isPairing ss (b :: bs) ps := by
  obtain ⟨hA, hB, hC⟩ := h
  refine ⟨subperm_of_not_mem s _ ss ?_ hA, hB, hC⟩
  intro hmem
  rw [List.mem_map] at hmem
  obtain ⟨p, hp, hp1⟩ := hmem
  have h2 : p.2 ∈ b :: bs := hB.subset (List.mem_map_of_mem _ hp)
  have hge : b.Amount ≤ p.2.Amount := by
    simp only [List.mem_cons] at h2
    rcases h2 with h2 | h2
    · rw [h2]
    · exact hbmin _ h2
  have hc := hC p hp
  rw [hp1, abs_le] at hc
  omega

/-- A bank record more than the tolerance below the smallest system record is in no pair. -/
theorem isPairing_skip_bank (s : NormalizedRecord) (ss : List NormalizedRecord) (b : bankRec)
    (bs : List bankRec) (ps : List (NormalizedRecord × bankRec))
    (hsmin : ∀ x ∈ ss, s.Amount ≤ x.Amount) (hfar : b.Amount + 5000 < s.Amount)
    (h : isPairing (s :: ss) (b :: bs) ps) : isPairing (s :: ss) bs ps := by
  obtain ⟨hA, hB, hC⟩ := h
  refine ⟨hA, subperm_of_not_mem b _ bs ?_ hB, hC⟩
  intro hmem
  rw [List.mem_map] at hmem
  obtain ⟨p, hp, hp2⟩ := hmem
  have h1 : p.1 ∈ s :: ss := hA.subset (List.mem_map_of_mem _ hp)
  have hge : s.Amount ≤ p.1.Amount := by
    simp only [List.mem_cons] at h1
    rcases h1 with h1 | h1
    · rw [h1]
    · exact hsmin _ h1
  have hc := hC p hp
  rw [hp2, abs_le] at hc
  omega

/-- From a pairing of two lists that start with their smallest records, a pairing of the
two tails with at most one pair less. -/
theorem isPairing_peel (s : NormalizedRecord) (ss : List NormalizedRecord) (b : bankRec)
    (bs : List bankRec) (ps : List (NormalizedRecord × bankRec))
    (hsmin : ∀ x ∈ ss, s.Amount ≤ x.Amount) (hbmin : ∀ y ∈ bs, b.Amount ≤ y.Amount)
    (h : isPairing (s :: ss) (b :: bs) ps) :
    ∃ ps2, isPairing ss bs ps2 ∧ ps.length ≤ ps2.length + 1 := by
  obtain ⟨hA, hB, hC⟩ := h
  by_cases hsu : s ∈ ps.map Prod.fst
  · rw [List.mem_map] at hsu
    obtain ⟨p, hp, hp1⟩ := hsu
    obtain ⟨ps1, hperm⟩ : ∃ ps1, ps.Perm (p :: ps1) := ⟨_, List.perm_cons_erase hp⟩
    have hA1 : (ps1.map Prod.fst).Subperm ss := by
      have := ((hperm.map Prod.fst).subperm_right).1 hA
      rw [List.map_cons, hp1] at this
      exact (List.subperm_cons s).1 this
    have hB1 : (p.2 :: ps1.map Prod.snd).Subperm (b :: bs) := by
      have := ((hperm.map Prod.snd).subperm_right).1 hB
      rwa [List.map_cons] at this
    have hC1 : ∀ q ∈ ps1, |q.1.Amount - q.2.Amount| ≤ 5000 :=
      fun q hq => hC q (hperm.symm.subset (List.mem_cons_of_mem _ hq))
    have hlen : ps.length = ps1.length + 1 := by
      simpa using hperm.length_eq
    by_cases hpb : p.2 = b
    · rw [hpb] at hB1
      exact ⟨ps1, ⟨hA1, (List.subperm_cons b).1 hB1, hC1⟩, by omega⟩
    · by_cases hbu : b ∈ ps1.map Prod.snd
      · rw [List.mem_map] at hbu
        obtain ⟨q, hq, hq2⟩ := hbu
        obtain ⟨ps3, hperm2⟩ : ∃ ps3, ps1.Perm (q :: ps3) := ⟨_, List.perm_cons_erase hq⟩
        have hlen2 : ps1.length = ps3.length + 1 := by
          simpa using hperm2.length_eq
        have hfst : (q.1 :: ps3.map Prod.fst).Subperm ss := by
          have := ((hperm2.map Prod.fst).subperm_right).1 hA1
          rwa [List.map_cons] at this
        have hsnd : (p.2 :: ps3.map Prod.snd).Subperm bs := by
          have hp2 : (p.2 :: ps1.map Prod.snd).Perm (b :: p.2 :: ps3.map Prod.snd) := by
            have := hperm2.map Prod.snd
            rw [List.map_cons, hq2] at this
            exact (List.Perm.cons p.2 this).trans (List.Perm.swap _ _ _)
          exact (List.subperm_cons b).1 ((hp2.subperm_right).1 hB1)
        refine ⟨(q.1, p.2) :: ps3, ⟨?_, ?_, ?_⟩, ?_⟩
        · simpa using hfst
        · simpa using hsnd
        · intro r hr
          simp only [List.mem_cons] at hr
          rcases hr with rfl | hr
          · have g1 : s.Amount ≤ q.1.Amount := hsmin _ (hfst.subset (List.mem_cons_self _ _))
            have g2 : b.Amount ≤ p.2.Amount := hbmin _ (hsnd.subset (List.mem_cons_self _ _))
            have c1 := hC p hp
            have c2 := hC1 q hq
            rw [hp1, abs_le] at c1
            rw [hq2, abs_le] at c2
            simp only
            rw [abs_le]
            constructor <;> omega
          · exact hC1 r (hperm2.symm.subset (List.mem_cons_of_mem _ hr))
        · simp only [List.length_cons]
          omega
      · have hnot : b ∉ p.2 :: ps1.map Prod.snd := by
          simp only [List.mem_cons, not_or]
          exact ⟨fun e => hpb e.symm, hbu⟩
        have h1 := subperm_of_not_mem b _ bs hnot hB1
        have h2 : (ps1.map Prod.snd).Subperm bs :=
          (List.sublist_cons_self _ _).subperm.trans h1
        exact ⟨ps1, ⟨hA1, h2, hC1⟩, by omega⟩
  · have hA1 := subperm_of_not_mem s _ ss hsu hA
    by_cases hbu : b ∈ ps.map Prod.snd
    · rw [List.mem_map] at hbu
      obtain ⟨q, hq, hq2⟩ := hbu
      obtain ⟨ps1, hperm⟩ : ∃ ps1, ps.Perm (q :: ps1) := ⟨_, List.perm_cons_erase hq⟩
      have hlen : ps.length = ps1.length + 1 := by
        simpa using hperm.length_eq
      have hB1 : (ps1.map Prod.snd).Subperm bs := by
        have := ((hperm.map Prod.snd).subperm_right).1 hB
        rw [List.map_cons, hq2] at this
        exact (List.subperm_cons b).1 this
      have hA2 : (ps1.map Prod.fst).Subperm ss := by
        have h1 : (ps1.map Prod.fst).Subperm (q.1 :: ps1.map Prod.fst) :=
          (List.sublist_cons_self _ _).subperm
        have h2 : (q.1 :: ps1.map Prod.fst).Subperm (ps.map Prod.fst) := by
          have := (hperm.map Prod.fst).symm.subperm
          rwa [List.map_cons] at this
        exact (h1.trans h2).trans hA1
      exact ⟨ps1, ⟨hA2, hB1, fun r hr => hC r (hperm.symm.subset (List.mem_cons_of_mem _ hr))⟩,
        by omega⟩
    · exact ⟨ps, ⟨hA1, subperm_of_not_mem b _ bs hbu hB, hC⟩, by omega⟩

/-- On sorted lists on which the `int64` difference is exact, no pairing has more pairs
than the sweep. -/
theorem sweep_max (fuel : Nat) (ss : List NormalizedRecord) (bs : List bankRec)
    (h : ss.length + bs.length ≤ fuel)
    (hss : ss.Pairwise (fun x y => x.Amount ≤ y.Amount))
    (hbs : bs.Pairwise (fun x y => x.Amount ≤ y.Amount))
    (hex : ∀ s ∈ ss, ∀ b ∈ bs, abs64 (wrap64 (s.Amount - b.Amount)) = |s.Amount - b.Amount|) :
    ∀ ps, isPairing ss bs ps → ps.length ≤ (sweep fuel ss bs).pairs.length := by
  have hnilS : ∀ (bl : List bankRec) (ps : List (NormalizedRecord × bankRec)),
      isPairing [] bl ps → ps.length = 0 := by
    intro bl ps hp
    have := hp.1.length_le
    simpa using this
  have hnilB : ∀ (sl : List NormalizedRecord) (ps : List (NormalizedRecord × bankRec)),
      isPairing sl [] ps → ps.length = 0 := by
    intro sl ps hp
    have := hp.2.1.length_le
    simpa using this
  induction fuel generalizing ss bs with
  | zero =>
    intro ps hp
    cases ss with
    | nil => rw [hnilS _ ps hp]; exact Nat.zero_le _
    | cons s ss =>
      cases bs with
      | nil => rw [hnilB _ ps hp]; exact Nat.zero_le _
      | cons b bs => simp at h
  | succ n ih =>
    intro ps hp
    cases ss with
    | nil => rw [hnilS _ ps hp]; exact Nat.zero_le _
    | cons s ss =>
      cases bs with
      | nil => rw [hnilB _ ps hp]; exact Nat.zero_le _
      | cons b bs =>
        simp only [List.length_cons] at h
        have hss' := (List.pairwise_cons.1 hss)
        have hbs' := (List.pairwise_cons.1 hbs)
        have hsb := hex s (List.mem_cons_self _ _) b (List.mem_cons_self _ _)
        simp only [sweep]
        split_ifs with h1 h2
        · obtain ⟨ps2, hp2, hlen⟩ := isPairing_peel s ss b bs ps hss'.1 hbs'.1 hp
          have := ih ss bs (by omega) hss'.2 hbs'.2
            (fun x hx y hy => hex x (List.mem_cons_of_mem _ hx) y (List.mem_cons_of_mem _ hy))
            ps2 hp2
          simp only [List.length_cons]
          omega
        · rw [hsb] at h1
          simp only [discrepancyTolerance, not_le, lt_abs] at h1
          have hfar : s.Amount + 5000 < b.Amount := by
            rcases h1 with h1 | h1 <;> omega
          exact ih ss (b :: bs) (by simp only [List.length_cons]; omega) hss'.2 hbs
            (fun x hx y hy => hex x (List.mem_cons_of_mem _ hx) y hy)
            ps (isPairing_skip_sys s ss b bs ps hbs'.1 hfar hp)
        · rw [hsb] at h1
          simp only [discrepancyTolerance, not_le, lt_abs] at h1
          have hfar : b.Amount + 5000 < s.Amount := by
            rcases h1 with h1 | h1 <;> omega
          exact ih (s :: ss) bs (by simp only [List.length_cons]; omega) hss hbs'.2
            (fun x hx y hy => hex x hx y (List.mem_cons_of_mem _ hy))
            ps (isPairing_skip_bank s ss b bs ps hss'.1 hfar hp)

/-- C19 (maximum number of matches).  For a system list and a bank list of `int64`
amounts of one sign partition, the pairs that `pairForDate` emits are as many as the
largest set of disjoint system/bank pairs in which every pair differs by at most 5000:
there is such a pairing with exactly that many pairs, and no pairing has more. -/
theorem C19_maximum_matches (S : SliceSort) (d : Time) (sList : List NormalizedRecord)
    (bList : List bankRec)
    (hs : ∀ s ∈ sList, isInt64 s.Amount) (hb : ∀ b ∈ bList, isInt64 b.Amount)
    (hsign : ((∀ s ∈ sList, 0 ≤ s.Amount) ∧ (∀ b ∈ bList, 0 ≤ b.Amount))
      ∨ ((∀ s ∈ sList, s.Amount < 0) ∧ (∀ b ∈ bList, b.Amount < 0))) :
    (∃ ps, isPairing sList bList ps ∧ ps.length = (pairForDate S d sList bList).matched.length)
    ∧ ∀ ps, isPairing sList bList ps → ps.length ≤ (pairForDate S d sList bList).matched.length := by
  have hex : ∀ s ∈ sList, ∀ b ∈ bList,
      abs64 (wrap64 (s.Amount - b.Amount)) = |s.Amount - b.Amount| := by
    intro s hsm b hbm
    apply abs64_sub_same_sign _ _ (hs s hsm) (hb b hbm)
    rcases hsign with h | h
    · exact Or.inl ⟨h.1 s hsm, h.2 b hbm⟩
    · exact Or.inr ⟨h.1 s hsm, h.2 b hbm⟩
  have hlen : (pairForDate S d sList bList).matched.length
      = (sweepDate S sList bList).pairs.length := by
    rw [pairForDate_eq]
    simp
  rw [hlen]
  constructor
  · refine ⟨(sweepDate S sList bList).pairs, ⟨?_, ?_, ?_⟩, rfl⟩
    · exact (List.sublist_append_left _ _).subperm.trans (sweepDate_perm_sys S sList bList).subperm
    · exact (List.sublist_append_left _ _).subperm.trans (sweepDate_perm_bank S sList bList).subperm
    · intro p hp
      have hm := mem_sweepDate_pairs S sList bList p hp
      have ht := sweep_pairs_tolerance _ _ _ p hp
      rw [hex p.1 hm.1 p.2 hm.2] at ht
      exact ht
  · intro ps hp
    unfold sweepDate
    apply sweep_max _ _ _ (le_refl _) (S.sorted _ sList) (S.sorted _ bList)
    · intro s hsm b hbm
      exact hex s ((S.perm _ sList).subset hsm) b ((S.perm _ bList).subset hbm)
    · exact ⟨((S.perm _ sList).symm.subperm_left).1 hp.1,
        ((S.perm _ bList).symm.subperm_left).1 hp.2.1, hp.2.2⟩

/-- Witness of C19: the system amounts 0 and 4000 and the bank amount 4000. -/
theorem C19_maximum_matches_witness :
    (∀ s ∈ greedySys, isInt64 s.Amount) ∧ (∀ b ∈ greedyBank, isInt64 b.Amount)
    ∧ (((∀ s ∈ greedySys, 0 ≤ s.Amount) ∧ (∀ b ∈ greedyBank, 0 ≤ b.Amount))
      ∨ ((∀ s ∈ greedySys, s.Amount < 0) ∧ (∀ b ∈ greedyBank, b.Amount < 0)))
    ∧ (∃ ps, isPairing greedySys greedyBank ps
        ∧ ps.length = (pairForDate insertionSlice (Time.ofDay 20240) greedySys
            greedyBank).matched.length)
    ∧ ∀ ps, isPairing greedySys greedyBank ps →
        ps.length ≤ (pairForDate insertionSlice (Time.ofDay 20240) greedySys
          greedyBank).matched.length :=
  ⟨by decide, by decide, Or.inl ⟨by decide, by decide⟩,
    C19_maximum_matches insertionSlice (Time.ofDay 20240) greedySys greedyBank (by decide)
      (by decide) (Or.inl ⟨by decide, by decide⟩)⟩

/-! ## Output order -/

theorem removeCommas_eq (s : String) : removeCommas s = s.data.filter (fun c => c ≠ ',') := by
  have key : ∀ (l acc : List Char),
      l.foldl (fun clean ch => if ch = ',' then clean else clean ++ [ch]) acc
        = acc ++ l.filter (fun c => c ≠ ',') := by
    intro l
    induction l with
    | nil => intro acc; simp
    | cons c rest ih =>
      intro acc
      simp only [List.foldl_cons]
      rw [ih]
      by_cases h : c = ','
      · simp [h]
      · simp [h, List.filter_cons]
  simpa [removeCommas] using key s.data []

theorem le_decimalFrom (ds : List Char) (n : Nat) : n ≤ decimalFrom n ds := by
  induction ds generalizing n with
  | nil => simp [decimalFrom]
  | cons c cs ih =>
    have := ih (10 * n + (c.toNat - 48))
    simp only [decimalFrom, List.foldl_cons] at this ⊢
    omega

theorem decimalFrom_cons (c : Char) (cs : List Char) (n : Nat) :
    decimalFrom n (c :: cs) = decimalFrom (10 * n + (c.toNat - 48)) cs := rfl

/-- A text of digits whose value is a `uint64` is read without error. -/
theorem parseUintLoop_ok (ds : List Char) (n : Nat) (hd : ∀ c ∈ ds, c.isDigit = true)
    (hv : decimalFrom n ds < 2 ^ 64) : parseUintLoop ds n = (decimalFrom n ds, none) := by
  induction ds generalizing n with
  | nil => simp [parseUintLoop, decimalFrom]
  | cons c cs ih =>
    have hc := hd c (List.mem_cons_self _ _)
    rw [decimalFrom_cons] at hv ⊢
    have hle := le_decimalFrom cs (10 * n + (c.toNat - 48))
    have h1 : ¬ n ≥ maxUint64 / 10 + 1 := by
      unfold maxUint64
      omega
    have h2 : (n * 10 + (c.toNat - 48)) % 2 ^ 64 = 10 * n + (c.toNat - 48) := by
      rw [Nat.mod_eq_of_lt (by omega)]
      omega
    have h3 : ¬ (10 * n + (c.toNat - 48) < n * 10 ∨ 10 * n + (c.toNat - 48) > maxUint64) := by
      unfold maxUint64
      omega
    simp only [parseUintLoop, hc, if_true, h1, if_false, h2, h3]
    exact ih _ (fun x hx => hd x (List.mem_cons_of_mem _ hx)) hv

/-- A text of digits whose value is not a `uint64` is a range error. -/
theorem parseUintLoop_range (ds : List Char) (n : Nat) (hd : ∀ c ∈ ds, c.isDigit = true)
    (hn : n < 2 ^ 64) (hv : 2 ^ 64 ≤ decimalFrom n ds) :
    parseUintLoop ds n = (maxUint64, some NumError.outOfRange) := by
  induction ds generalizing n with
  | nil =>
    simp only [decimalFrom, List.foldl_nil] at hv
    omega
  | cons c cs ih =>
    have hc := hd c (List.mem_cons_self _ _)
    have hc9 : c.toNat - 48 ≤ 9 := by
      simp only [Char.isDigit, Bool.and_eq_true, decide_eq_true_eq] at hc
      have h2 : c.val.toNat ≤ 57 := hc.2
      show c.val.toNat - 48 ≤ 9
      omega
    rw [decimalFrom_cons] at hv
    simp only [parseUintLoop, hc, if_true]
    split_ifs with h1 h3
    · rfl
    · rfl
    · have hlt : n * 10 + (c.toNat - 48) < 2 ^ 64 := by
        by_contra hge
        apply h3
        left
        unfold maxUint64 at h1
        omega
      have h2 : (n * 10 + (c.toNat - 48)) % 2 ^ 64 = 10 * n + (c.toNat - 48) := by
        rw [Nat.mod_eq_of_lt hlt]
        omega
      rw [h2]
      exact ih _ (fun x hx => hd x (List.mem_cons_of_mem _ hx)) (by omega) hv

/-- A text with a character that is not a digit is an error, and a range error comes with
the value `maxUint64`. -/
theorem parseUintLoop_shape (ds : List Char) (n : Nat) :
    ((∃ c ∈ ds, c.isDigit = false) → (parseUintLoop ds n).2 ≠ none)
      ∧ ((parseUintLoop ds n).2 = some NumError.outOfRange → (parseUintLoop ds n).1 = maxUint64) := by
  induction ds generalizing n with
  | nil => simp [parseUintLoop]
  | cons c cs ih =>
    by_cases hc : c.isDigit = true
    · simp only [parseUintLoop, hc, if_true]
      split_ifs with h1 h3
      · exact ⟨fun _ => by simp, fun _ => rfl⟩
      · exact ⟨fun _ => by simp, fun _ => rfl⟩
      · refine ⟨?_, (ih _).2⟩
        rintro ⟨x, hx, hxd⟩
        simp only [List.mem_cons] at hx
        rcases hx with rfl | hx
        · rw [hc] at hxd
          exact absurd hxd (by decide)
        · exact (ih _).1 ⟨x, hx, hxd⟩
    · simp [parseUintLoop, hc]

theorem ParseUint_ok (ds : List Char) (hne : ds ≠ []) (hd : ∀ c ∈ ds, c.isDigit = true)
    (hv : decimalFrom 0 ds < 2 ^ 64) : ParseUint ds = (decimalFrom 0 ds, none) := by
  simp only [ParseUint, hne, if_false]
  exact parseUintLoop_ok ds 0 hd hv

theorem ParseUint_none (ds : List Char) (h : (ParseUint ds).2 = none) :
    ds ≠ [] ∧ (∀ c ∈ ds, c.isDigit = true) ∧ decimalFrom 0 ds < 2 ^ 64
      ∧ (ParseUint ds).1 = decimalFrom 0 ds := by
  have hne : ds ≠ [] := by
    rintro rfl
    simp [ParseUint] at h
  simp only [ParseUint, hne, if_false] at h ⊢
  have hd : ∀ c ∈ ds, c.isDigit = true := by
    intro c hc
    by_contra hcd
    exact (parseUintLoop_shape ds 0).1 ⟨c, hc, by simpa using hcd⟩ h
  have hv : decimalFrom 0 ds < 2 ^ 64 := by
    by_contra hge
    rw [parseUintLoop_range ds 0 hd (by norm_num) (by omega)] at h
    simp at h
  refine ⟨hne, hd, hv, ?_⟩
  rw [parseUintLoop_ok ds 0 hd hv]

theorem ParseUint_range_value (ds : List Char)
    (h : (ParseUint ds).2 = some NumError.outOfRange) : (ParseUint ds).1 = maxUint64 := by
  by_cases hne : ds = []
  · subst hne
    simp [ParseUint] at h
  · simp only [ParseUint, hne, if_false] at h ⊢
    exact (parseUintLoop_shape ds 0).2 h

theorem not_sign_of_isDigit (c : Char) (h : c.isDigit = true) : c ≠ '+' ∧ c ≠ '-' := by
  constructor
  · rintro rfl
    exact absurd h (by decide)
  · rintro rfl
    exact absurd h (by decide)

theorem ParseInt_cons (c : Char) (cs : List Char) :
    ParseInt (c :: cs) =
      if (ParseUint (if c = '+' ∨ c = '-' then cs else c :: cs)).2 = some NumError.invalid then
        (0, (ParseUint (if c = '+' ∨ c = '-' then cs else c :: cs)).2)
      else if decide (c = '-') = false
          ∧ (ParseUint (if c = '+' ∨ c = '-' then cs else c :: cs)).1 ≥ 2 ^ 63 then
        (2 ^ 63 - 1, some NumError.outOfRange)
      else if decide (c = '-') = true
          ∧ (ParseUint (if c = '+' ∨ c = '-' then cs else c :: cs)).1 > 2 ^ 63 then
        (-(2 ^ 63), some NumError.outOfRange)
      else
        (if decide (c = '-') = true then
            wrap64 (-(wrap64 ((ParseUint (if c = '+' ∨ c = '-' then cs else c :: cs)).1 : Int)))
          else wrap64 ((ParseUint (if c = '+' ∨ c = '-' then cs else c :: cs)).1 : Int),
          none) := rfl

/-- The last steps of `strconv.ParseInt` on a text of digits that `ParseUint` has read as
`n`: the value with its sign when it is an `int64` value. -/
theorem ParseInt_of_ParseUint (c : Char) (cs : List Char) (n : Nat)
    (hr : ParseUint (if c = '+' ∨ c = '-' then cs else c :: cs) = (n, none))
    (hv : isInt64 (if c = '-' then -(n : Int) else (n : Int))) :
    ParseInt (c :: cs) = (if c = '-' then -(n : Int) else (n : Int), none) := by
  rw [ParseInt_cons, hr]
  unfold isInt64 at hv
  have e1 : ¬ ((none : Option NumError) = some NumError.invalid) := by simp
  rw [if_neg e1]
  by_cases hm : c = '-'
  · simp only [hm, if_true] at hv
    have e2 : ¬ (decide (c = '-') = false ∧ n ≥ 2 ^ 63) := by
      rintro ⟨h1, _⟩
      simp [hm] at h1
    have e3 : ¬ (decide (c = '-') = true ∧ n > 2 ^ 63) := by
      rintro ⟨_, h2⟩
      omega
    have e4 : decide (c = '-') = true := by simp [hm]
    have hw : wrap64 (-(wrap64 (n : Int))) = -(n : Int) := by
      unfold wrap64
      omega
    rw [if_neg e2, if_neg e3, if_pos e4, if_pos hm, hw]
  · simp only [hm, if_false] at hv
    have e2 : ¬ (decide (c = '-') = false ∧ n ≥ 2 ^ 63) := by
      rintro ⟨_, h2⟩
      omega
    have e3 : ¬ (decide (c = '-') = true ∧ n > 2 ^ 63) := by
      rintro ⟨h1, _⟩
      simp [hm] at h1
    have e4 : ¬ decide (c = '-') = true := by simp [hm]
    have hw : wrap64 (n : Int) = (n : Int) := by
      unfold wrap64
      omega
    rw [if_neg e2, if_neg e3, if_neg e4, if_neg hm, hw]

/-- What `strconv.ParseInt` accepts: a text that denotes an `int64` value is read as that
value, without error. -/
theorem ParseInt_ok (cs : List Char) (v : Int) (h : denotes cs v) : ParseInt cs = (v, none) := by
  obtain ⟨ds, hne, hd, hv, h⟩ := h
  have hlt : decimalFrom 0 ds < 2 ^ 64 := by
    unfold isInt64 at hv
    rcases h with ⟨_, rfl⟩ | ⟨_, rfl⟩ | ⟨_, rfl⟩ <;> omega
  have hu := ParseUint_ok ds hne hd hlt
  rcases h with ⟨rfl, rfl⟩ | ⟨rfl, rfl⟩ | ⟨rfl, rfl⟩
  · cases cs with
    | nil => exact absurd rfl hne
    | cons c cs =>
      obtain ⟨hp, hm⟩ := not_sign_of_isDigit c (hd c (List.mem_cons_self _ _))
      have hrest : (if c = '+' ∨ c = '-' then cs else c :: cs) = c :: cs := by simp [hp, hm]
      have := ParseInt_of_ParseUint c cs (decimalFrom 0 (c :: cs)) (by rw [hrest]; exact hu)
        (by simpa [hm] using hv)
      simpa [hm] using this
  · have hpm : ¬ ('+' = '-') := by decide
    have := ParseInt_of_ParseUint '+' ds (decimalFrom 0 ds) (by simpa using hu)
      (by simpa [hpm] using hv)
    simpa [hpm] using this
  · have := ParseInt_of_ParseUint '-' ds (decimalFrom 0 ds) (by simpa using hu)
      (by simpa using hv)
    simpa using this

/-- What `strconv.ParseInt` rejects: when it returns no error, the text denotes the
returned value. -/
theorem ParseInt_none (cs : List Char) (h : (ParseInt cs).2 = none) :
    denotes cs (ParseInt cs).1 := by
  cases cs with
  | nil => simp [ParseInt] at h
  | cons c cs =>
    rw [ParseInt_cons] at h ⊢
    by_cases e1 : (ParseUint (if c = '+' ∨ c = '-' then cs else c :: cs)).2
        = some NumError.invalid
    · rw [if_pos e1] at h
      rw [e1] at h
      simp at h
    · rw [if_neg e1] at h ⊢
      by_cases e2 : decide (c = '-') = false
          ∧ (ParseUint (if c = '+' ∨ c = '-' then cs else c :: cs)).1 ≥ 2 ^ 63
      · rw [if_pos e2] at h
        simp at h
      · rw [if_neg e2] at h ⊢
        by_cases e3 : decide (c = '-') = true
            ∧ (ParseUint (if c = '+' ∨ c = '-' then cs else c :: cs)).1 > 2 ^ 63
        · rw [if_pos e3] at h
          simp at h
        · rw [if_neg e3]
          have hnone : (ParseUint (if c = '+' ∨ c = '-' then cs else c :: cs)).2 = none := by
            cases hr : (ParseUint (if c = '+' ∨ c = '-' then cs else c :: cs)).2 with
            | none => rfl
            | some err =>
              cases err with
              | invalid => exact absurd hr e1
              | outOfRange =>
                have hmax := ParseUint_range_value _ hr
                unfold maxUint64 at hmax
                by_cases hneg : decide (c = '-') = true
                · exact absurd ⟨hneg, by omega⟩ e3
                · exact absurd ⟨by simpa using hneg, by omega⟩ e2
          obtain ⟨hne, hd, hv, hval⟩ := ParseUint_none _ hnone
          rw [hval] at e2 e3 ⊢
          by_cases hm : c = '-'
          · subst hm
            have hrest : (if '-' = '+' ∨ '-' = '-' then cs else '-' :: cs) = cs := by simp
            rw [hrest] at hne hd hv e2 e3 ⊢
            have hgt : ¬ decimalFrom 0 cs > 2 ^ 63 := fun hh => e3 ⟨by simp, hh⟩
            refine ⟨cs, hne, hd, ?_, Or.inr (Or.inr ⟨rfl, ?_⟩)⟩
            · simp only [decide_True, if_true]
              exact isInt64_wrap64 _
            · simp only [decide_True, if_true]
              unfold wrap64
              omega
          · have hd0 : decide (c = '-') = false := by simp [hm]
            have hlt : ¬ decimalFrom 0 (if c = '+' ∨ c = '-' then cs else c :: cs) ≥ 2 ^ 63 :=
              fun hh => e2 ⟨hd0, hh⟩
            have hw : wrap64 ((decimalFrom 0 (if c = '+' ∨ c = '-' then cs else c :: cs) : Nat) : Int)
                = ((decimalFrom 0 (if c = '+' ∨ c = '-' then cs else c :: cs) : Nat) : Int) := by
              apply wrap64_of_isInt64
              unfold isInt64
              omega
            simp only [hd0, Bool.false_eq_true, if_false, hw]
            by_cases hp : c = '+'
            · subst hp
              have hrest : (if '+' = '+' ∨ '+' = '-' then cs else '+' :: cs) = cs := by simp
              rw [hrest] at hne hd hlt ⊢
              refine ⟨cs, hne, hd, ?_, Or.inr (Or.inl ⟨rfl, rfl⟩)⟩
              unfold isInt64
              omega
            · have hrest : (if c = '+' ∨ c = '-' then cs else c :: cs) = c :: cs := by
                simp [hp, hm]
              rw [hrest] at hne hd hlt ⊢
              refine ⟨c :: cs, hne, hd, ?_, Or.inl ⟨rfl, rfl⟩⟩
              unfold isInt64
              omega

theorem parseAmount_ok (s : String) (v : Int)
    (h : denotes (s.data.filter (fun c => c ≠ ',')) v) : parseAmount s = (v, none) := by
  unfold parseAmount
  rw [removeCommas_eq, ParseInt_ok _ v h]
  simp

theorem parseAmount_none (s : String) (h : (parseAmount s).2 = none) :
    denotes (s.data.filter (fun c => c ≠ ',')) (parseAmount s).1 := by
  unfold parseAmount at h ⊢
  simp only [] at h ⊢
  by_cases e : (ParseInt (removeCommas s)).2 ≠ none
  · rw [if_pos e] at h
    exact absurd h e
  · rw [if_neg e]
    have := ParseInt_none _ (not_not.1 e)
    rw [removeCommas_eq] at this ⊢
    exact this

theorem parseAmount_error_value (s : String) (h : (parseAmount s).2 ≠ none) :
    (parseAmount s).1 = 0 := by
  unfold parseAmount at h ⊢
  by_cases e : (ParseInt (removeCommas s)).2 = none
  · simp [e] at h
  · simp [e]

theorem digitChar_digit (h : Nat) (hh : h < 10) :
    (Nat.digitChar h).isDigit = true ∧ (Nat.digitChar h).toNat - 48 = h := by
  interval_cases h <;> exact ⟨rfl, rfl⟩

theorem decimalFrom_append_singleton (ds : List Char) (c : Char) (n : Nat) :
    decimalFrom n (ds ++ [c]) = 10 * decimalFrom n ds + (c.toNat - 48) := by
  simp [decimalFrom, List.foldl_append]

theorem decimalFrom_digits (l : List Nat) (hl : ∀ d ∈ l, d < 10) :
    decimalFrom 0 (l.reverse.map Nat.digitChar) = Nat.ofDigits 10 l := by
  induction l with
  | nil => simp [decimalFrom]
  | cons h t ih =>
    rw [List.reverse_cons, List.map_append, List.map_singleton, decimalFrom_append_singleton,
      ih (fun d hd => hl d (List.mem_cons_of_mem _ hd)), Nat.ofDigits_cons,
      (digitChar_digit h (hl h (List.mem_cons_self _ _))).2]
    omega

/-- The decimal digits of a number are one or more digits with the number as value. -/
theorem decimalDigits_spec (m : Nat) :
    decimalDigits m ≠ [] ∧ (∀ c ∈ decimalDigits m, c.isDigit = true)
      ∧ decimalFrom 0 (decimalDigits m) = m := by
  unfold decimalDigits
  by_cases hm : m = 0
  · subst hm
    simp only [if_true]
    exact ⟨by simp, by decide, by decide⟩
  · simp only [hm, if_false]
    have hlt : ∀ d ∈ Nat.digits 10 m, d < 10 := fun d hd => Nat.digits_lt_base (by norm_num) hd
    refine ⟨?_, ?_, ?_⟩
    · simp only [ne_eq, List.map_eq_nil_iff, List.reverse_eq_nil_iff]
      exact Nat.digits_ne_nil_iff_ne_zero.2 hm
    · intro c hc
      rw [List.mem_map] at hc
      obtain ⟨d, hd, rfl⟩ := hc
      exact (digitChar_digit d (hlt d (List.mem_reverse.1 hd))).1
    · rw [decimalFrom_digits _ hlt, Nat.ofDigits_digits]

theorem denotes_decimalText (n : Int) (hn : isInt64 n) : denotes (decimalText n) n := by
  obtain ⟨h1, h2, h3⟩ := decimalDigits_spec n.natAbs
  refine ⟨decimalDigits n.natAbs, h1, h2, hn, ?_⟩
  unfold decimalText
  by_cases hneg : n < 0
  · right; right
    simp only [hneg, if_true, List.singleton_append, true_and]
    rw [h3]
    omega
  · left
    simp only [hneg, if_false, List.nil_append, true_and]
    rw [h3]
    omega

/-- C16 (`parseAmount` round trip).  For every `int64` value `n` and every text that,
with all its commas removed, is the decimal rendering of `n` (a leading `-` for a negative
number, then the digits), `parseAmount` returns `n` and no error: commas are ignored
wherever they occur. -/
theorem C16_parseAmount_round_trip (n : Int) (hn : isInt64 n) (t : String)
    (ht : t.data.filter (fun c => c ≠ ',') = decimalText n) : parseAmount t = (n, none) := by
  apply parseAmount_ok
  rw [ht]
  exact denotes_decimalText n hn

/-- C17 (`parseAmount` rejection).  `parseAmount` returns an error exactly when the input
with all commas removed is not an optional `+` or `-` followed by one or more decimal
digits that denote an `int64` value; with an error the value is 0, and without one the
value is the denoted one.  The texts `abc`, the empty text and a text of commas only are
rejected. -/
theorem C17_parseAmount_rejection (s : String) :
    ((parseAmount s).2 ≠ none ↔ ¬ ∃ v, denotes (s.data.filter (fun c => c ≠ ',')) v)
    ∧ ((parseAmount s).2 ≠ none → (parseAmount s).1 = 0)
    ∧ (∀ v, denotes (s.data.filter (fun c => c ≠ ',')) v → parseAmount s = (v, none))
    ∧ (parseAmount "abc").2 ≠ none ∧ (parseAmount "").2 ≠ none
    ∧ (parseAmount ",,,").2 ≠ none := by
  refine ⟨⟨?_, ?_⟩, parseAmount_error_value s, parseAmount_ok s, by decide, by decide, by decide⟩
  · rintro h ⟨v, hv⟩
    rw [parseAmount_ok s v hv] at h
    exact h rfl
  · intro h hnone
    exact h ⟨_, parseAmount_none s hnone⟩

/-- Witness of C16: the text `-250,000` of the loader's test. -/
theorem C16_parseAmount_round_trip_witness :
    isInt64 (-250000) ∧ "-250,000".data.filter (fun c => c ≠ ',') = decimalText (-250000)
    ∧ parseAmount "-250,000" = (-250000, none) :=
  ⟨by decide, by simp [decimalText, decimalDigits]; decide,
    C16_parseAmount_round_trip (-250000) (by decide) "-250,000"
      (by simp [decimalText, decimalDigits]; decide)⟩

set_option maxRecDepth 8000 in
/-- Witness of C12 on the data of `TestReconcileBasic`: the sum of the discrepancies is
5000, an `int64` value. -/
theorem C12_total_discrepancy_witness :
    isInt64 (((Reconcile insertionSlice testSys testBanks (Time.ofDay 20240)
        (Time.ofDay 20242)).1.Details.Matched.map (fun m => m.Discrepancy)).sum)
    ∧ (Reconcile insertionSlice testSys testBanks (Time.ofDay 20240)
        (Time.ofDay 20242)).1.Summary.TotalDiscrepancies
      = ((Reconcile insertionSlice testSys testBanks (Time.ofDay 20240)
          (Time.ofDay 20242)).1.Details.Matched.map (fun m => m.Discrepancy)).sum :=
  ⟨by decide,
    (C12_total_discrepancy insertionSlice testSys testBanks (Time.ofDay 20240)
      (Time.ofDay 20242)).2.1 (by decide)⟩

/-! ## Keys of the map of unmatched bank records -/

theorem GoMap.forall_mem_set {κ ν : Type} [DecidableEq κ] (P : κ × List ν → Prop)
    (m : GoMap κ (List ν)) (k : κ) (v : List ν) (hm : ∀ e ∈ m, P e) (hkv : P (k, v)) :
    ∀ e ∈ GoMap.set m k v, P e := by
  induction m with
  | nil =>
    intro e he
    simp only [GoMap.set, List.mem_singleton] at he
    rw [he]
    exact hkv
  | cons e0 rest ih =>
    obtain ⟨k0, v0⟩ := e0
    intro e he
    by_cases h : k0 = k
    · simp only [GoMap.set, h, if_true, List.mem_cons] at he
      rcases he with rfl | he
      · exact hkv
      · exact hm e (List.mem_cons_of_mem _ he)
    · simp only [GoMap.set, h, if_false, List.mem_cons] at he
      rcases he with rfl | he
      · exact hm _ (List.mem_cons_self _ _)
      · exact ih (fun x hx => hm x (List.mem_cons_of_mem _ hx)) e he

/-- Appending a non-empty slice keeps every slice of the map non-empty. -/
theorem GoMap.nonempty_appendAt {κ ν : Type} [DecidableEq κ] (m : GoMap κ (List ν)) (k : κ)
    (vs : List ν) (hm : ∀ e ∈ m, e.2 ≠ []) (hvs : vs ≠ []) :
    ∀ e ∈ GoMap.appendAt m k vs, e.2 ≠ [] := by
  apply GoMap.forall_mem_set (fun e => e.2 ≠ []) m k _ hm
  simp [hvs]

theorem GoMap.nonempty_mergeInto {κ ν : Type} [DecidableEq κ] (dst src : GoMap κ (List ν))
    (hd : ∀ e ∈ dst, e.2 ≠ []) (hs : ∀ e ∈ src, e.2 ≠ []) :
    ∀ e ∈ GoMap.mergeInto dst src, e.2 ≠ [] := by
  induction src generalizing dst with
  | nil => simpa [GoMap.mergeInto] using hd
  | cons e0 rest ih =>
    simp only [GoMap.mergeInto, List.foldl_cons]
    apply ih
    · exact GoMap.nonempty_appendAt dst e0.1 e0.2 hd (hs e0 (List.mem_cons_self _ _))
    · exact fun x hx => hs x (List.mem_cons_of_mem _ hx)

/-- In a map without empty slices the keys are the labels with a non-empty slice. -/
theorem GoMap.mem_keys_iff_get_ne_nil {κ ν : Type} [DecidableEq κ] (m : GoMap κ (List ν))
    (hm : ∀ e ∈ m, e.2 ≠ []) (k : κ) : k ∈ GoMap.keys m ↔ GoMap.get m k ≠ [] := by
  constructor
  · intro hk
    induction m with
    | nil => simp [GoMap.keys] at hk
    | cons e0 rest ih =>
      obtain ⟨k0, v0⟩ := e0
      by_cases h : k0 = k
      · simp only [GoMap.get, h, if_true]
        exact hm (k0, v0) (List.mem_cons_self _ _)
      · simp only [GoMap.get, h, if_false]
        apply ih (fun x hx => hm x (List.mem_cons_of_mem _ hx))
        simp only [GoMap.keys, List.map_cons, List.mem_cons] at hk
        rcases hk with hk | hk
        · exact absurd hk.symm h
        · exact hk
  · intro hg
    by_contra hk
    exact hg (GoMap.get_of_not_mem_keys m k hk)

theorem nonempty_addUnmatchedBank (m : GoMap String (List NormalizedRecord))
    (bs : List bankRec) (hm : ∀ e ∈ m, e.2 ≠ []) :
    ∀ e ∈ addUnmatchedBank m bs, e.2 ≠ [] := by
  induction bs generalizing m with
  | nil => simpa [addUnmatchedBank] using hm
  | cons b rest ih =>
    simp only [addUnmatchedBank, List.foldl_cons]
    exact ih _ (GoMap.nonempty_appendAt m _ _ hm (by simp))

theorem nonempty_foldl_mergeInto (g : Time → GoMap String (List NormalizedRecord))
    (hg : ∀ d, ∀ e ∈ g d, e.2 ≠ []) (ds : List Time)
    (m : GoMap String (List NormalizedRecord)) (hm : ∀ e ∈ m, e.2 ≠ []) :
    ∀ e ∈ ds.foldl (fun m d => GoMap.mergeInto m (g d)) m, e.2 ≠ [] := by
  induction ds generalizing m with
  | nil => simpa using hm
  | cons d ds ih =>
    simp only [List.foldl_cons]
    exact ih _ (GoMap.nonempty_mergeInto m (g d) hm (hg d))

theorem matchByDateAndAmount_nonempty (S : SliceSort) (sys : List NormalizedRecord)
    (bank : List bankRec) : ∀ e ∈ (matchByDateAndAmount S sys bank).unmatchedBank, e.2 ≠ [] := by
  rw [matchByDateAndAmount_eq]
  apply nonempty_foldl_mergeInto (fun d => addUnmatchedBank [] (sweepDate S
    (sys.filter (fun s => s.Date = d)) (bank.filter (fun b => b.Date = d))).unB)
  · intro d
    exact nonempty_addUnmatchedBank [] _ (by simp)
  · simp

/-- No bucket of the result of `Reconcile` is empty. -/
theorem Reconcile_nonempty_buckets (S : SliceSort) (sys : List SystemTransaction)
    (banks : GoMap String (List BankStatement)) (start end_ : Time) :
    ∀ e ∈ (Reconcile S sys banks start end_).1.Details.UnmatchedBankByGroup, e.2 ≠ [] := by
  simp only [Reconcile]
  apply GoMap.nonempty_mergeInto
  · apply GoMap.nonempty_mergeInto
    · simp
    · exact matchByDateAndAmount_nonempty S _ _
  · exact matchByDateAndAmount_nonempty S _ _

theorem bankInRange_filter_label_range (banks : GoMap String (List BankStatement))
    (hk : (GoMap.keys banks).Nodup) (start end_ : Time) (L : String) :
    (bankInRange banks start end_).filter (fun n => n.BankName = L)
      = ((GoMap.get banks L).filter (fun x => !outOfRange x.Date.dateOnly start end_)).map
          (normalizedBank L) := by
  unfold bankInRange
  rw [List.filter_filter]
  have : (banks.flatMap (fun e => e.2.map (normalizedBank e.1))).filter
        (fun n => decide (n.BankName = L) && !outOfRange n.Date start end_)
      = ((banks.flatMap (fun e => e.2.map (normalizedBank e.1))).filter
          (fun n => decide (n.BankName = L))).filter
            (fun n => !outOfRange n.Date start end_) := by
    rw [List.filter_filter]
    apply List.filter_congr
    intro x _
    exact Bool.and_comm _ _
  rw [this, flatMap_filter_label banks hk L, List.filter_map]
  rfl

theorem Reconcile_get_eq_nil_of_filter_nil (S : SliceSort) (sys : List SystemTransaction)
    (banks : GoMap String (List BankStatement)) (start end_ : Time) (L : String)
    (h : (sweepBoth S sys banks start end_).unB.filter (fun n => decide (n.BankName = L)) = []) :
    L ∉ GoMap.keys (Reconcile S sys banks start end_).1.Details.UnmatchedBankByGroup := by
  rw [GoMap.mem_keys_iff_get_ne_nil _ (Reconcile_nonempty_buckets S sys banks start end_),
    Reconcile_get_unmatchedBank, h]
  simp

/-- C21 (lazy bank buckets).  For a bank map with pairwise different keys: every entry of
`Details.UnmatchedBankByGroup` has a key of the input bank map and a non-empty slice; a
label is a key exactly when its slice is non-empty; a label whose in-range statement
lines are as many as the matched pairs with that `BankName` (all of them were matched),
and a label without in-range statement lines, is not a key. -/
theorem C21_lazy_bank_buckets (S : SliceSort) (sys : List SystemTransaction)
    (banks : GoMap String (List BankStatement)) (start end_ : Time)
    (hk : (GoMap.keys banks).Nodup) :
    (∀ e ∈ (Reconcile S sys banks start end_).1.Details.UnmatchedBankByGroup,
        e.1 ∈ GoMap.keys banks ∧ e.2 ≠ [])
    ∧ (∀ L : String,
        L ∈ GoMap.keys (Reconcile S sys banks start end_).1.Details.UnmatchedBankByGroup
          ↔ GoMap.get (Reconcile S sys banks start end_).1.Details.UnmatchedBankByGroup L ≠ [])
    ∧ (∀ L : String,
        ((Reconcile S sys banks start end_).1.Details.Matched.filter
            (fun m => decide (m.BankName = L))).length
          = ((GoMap.get banks L).filter
              (fun x => !outOfRange x.Date.dateOnly start end_)).length →
        L ∉ GoMap.keys (Reconcile S sys banks start end_).1.Details.UnmatchedBankByGroup)
    ∧ (∀ L : String,
        (GoMap.get banks L).filter (fun x => !outOfRange x.Date.dateOnly start end_) = [] →
        L ∉ GoMap.keys (Reconcile S sys banks start end_).1.Details.UnmatchedBankByGroup) := by
  have hne := Reconcile_nonempty_buckets S sys banks start end_
  have hiff := GoMap.mem_keys_iff_get_ne_nil _ hne
  have hlen : ∀ L : String,
      ((sweepBoth S sys banks start end_).pairs.filter
          (fun p => decide (p.2.BankName = L))).length
        + ((sweepBoth S sys banks start end_).unB.filter
            (fun n => decide (n.BankName = L))).length
        = ((GoMap.get banks L).filter
            (fun x => !outOfRange x.Date.dateOnly start end_)).length := by
    intro L
    have h := ((sweepBoth_perm_bank S sys banks start end_).filter
      (fun n => decide (n.BankName = L))).length_eq
    rw [bankInRange_filter_label_range banks hk start end_ L, List.filter_append,
      List.length_append, List.filter_map, List.length_map, List.length_map] at h
    exact h
  refine ⟨?_, hiff, ?_, ?_⟩
  · intro e he
    refine ⟨?_, hne e he⟩
    have hkey : e.1 ∈ GoMap.keys (Reconcile S sys banks start end_).1.Details.UnmatchedBankByGroup :=
      List.mem_map_of_mem _ he
    rw [hiff, Reconcile_get_unmatchedBank] at hkey
    obtain ⟨r, hr⟩ := List.exists_mem_of_ne_nil _ hkey
    rw [List.mem_map] at hr
    obtain ⟨x, hx, _⟩ := hr
    simp only [List.mem_filter, decide_eq_true_eq] at hx
    have hin := (sweepBoth_perm_bank S sys banks start end_).subset
      (List.mem_append_right _ hx.1)
    obtain ⟨e0, he0, y, _, hxy, _⟩ := mem_bankInRange banks start end_ x hin
    rw [← hx.2, hxy]
    exact List.mem_map_of_mem _ he0
  · intro L h
    apply Reconcile_get_eq_nil_of_filter_nil
    rw [Reconcile_matched, List.filter_map, List.length_map] at h
    have := hlen L
    apply List.eq_nil_of_length_eq_zero
    have e : ((sweepBoth S sys banks start end_).pairs.filter
        ((fun m => decide (m.BankName = L)) ∘ pairOf)).length
        = ((sweepBoth S sys banks start end_).pairs.filter
          (fun p => decide (p.2.BankName = L))).length := rfl
    omega
  · intro L h
    apply Reconcile_get_eq_nil_of_filter_nil
    have := hlen L
    rw [h] at this
    apply List.eq_nil_of_length_eq_zero
    simp only [List.length_nil] at this
    omega

/-- Witness of C21 on the data of `TestReconcileBasic`: all four lines of `bankA` are
matched, so `bankA` is not a key of the map of unmatched bank records. -/
theorem C21_lazy_bank_buckets_witness :
    (GoMap.keys testBanks).Nodup
    ∧ ((Reconcile insertionSlice testSys testBanks (Time.ofDay 20240)
          (Time.ofDay 20242)).1.Details.Matched.filter
          (fun m => decide (m.BankName = "bankA"))).length
        = ((GoMap.get testBanks "bankA").filter
            (fun x => !outOfRange x.Date.dateOnly (Time.ofDay 20240) (Time.ofDay 20242))).length
    ∧ "bankA" ∉ GoMap.keys (Reconcile insertionSlice testSys testBanks (Time.ofDay 20240)
          (Time.ofDay 20242)).1.Details.UnmatchedBankByGroup :=
  ⟨by decide, by decide,
    (C21_lazy_bank_buckets insertionSlice testSys testBanks (Time.ofDay 20240)
      (Time.ofDay 20242) (by decide)).2.2.1 "bankA" (by decide)⟩

/-! ## A debit with a negative raw amount -/

/-- C22 (negative raw amounts flip the debit sign).  The loader accepts the amount text
`-125000`; a `DEBIT` transaction with that raw amount is normalized to +125000 and placed
in the non-negative partition; with a bank line of +125000 on the same in-range date
`Reconcile`, with any sort, matches the two with discrepancy 0 and leaves nothing
unmatched, while with a bank line of -125000 on that date nothing is matched and both
records are unmatched.  In general the signed amount of a `DEBIT` with a negative raw
amount above the smallest `int64` is the positive number of the same size. -/
theorem C22_negative_debit_flips_sign (S : SliceSort) :
    parseAmount "-125000" = (-125000, none)
    ∧ normalizeSystem flippedTxs (Time.ofDay 20240) (Time.ofDay 20240)
        = ([{ ID := "TRX-2", Date := Time.ofDay 20240, Amount := 125000 }], [])
    ∧ (Reconcile S flippedTxs inflowBanks (Time.ofDay 20240) (Time.ofDay 20240)).1.Details
        = { Matched := [{ SystemID := "TRX-2", BankID := "BA-1", BankName := "bankA",
                          Date := "2025-06-01", SystemAmount := 125000, BankAmount := 125000,
                          Discrepancy := 0 }]
            UnmatchedSystem := []
            UnmatchedBankByGroup := [] }
    ∧ (Reconcile S flippedTxs outflowBanks (Time.ofDay 20240) (Time.ofDay 20240)).1.Details
        = { Matched := []
            UnmatchedSystem := [{ ID := "TRX-2", Date := Time.ofDay 20240, Amount := 125000 }]
            UnmatchedBankByGroup :=
              [("bankA", [{ ID := "BA-1", Date := Time.ofDay 20240, Amount := -125000 }])] }
    ∧ (∀ s : SystemTransaction, equalFoldDEBIT s.Type_ = true → s.Amount < 0 →
        -(2 ^ 63) < s.Amount → signedAmount s = -s.Amount ∧ 0 < signedAmount s) := by
  rw [Reconcile_sort_irrel S insertionSlice flippedTxs inflowBanks _ _ (by decide),
    Reconcile_sort_irrel S insertionSlice flippedTxs outflowBanks _ _ (by decide)]
  refine ⟨by decide, by decide, by decide, by decide, ?_⟩
  intro s hd hneg hmin
  have hw : wrap64 (-s.Amount) = -s.Amount := by
    unfold wrap64
    omega
  simp only [signedAmount, hd, if_true, hw]
  exact ⟨trivial, by omega⟩

/-! ## The calendar day of a date text -/

theorem civilFromDays_month_day (n : Int) :
    1 ≤ (civilFromDays n).2.1 ∧ (civilFromDays n).2.1 ≤ 12
      ∧ 1 ≤ (civilFromDays n).2.2 ∧ (civilFromDays n).2.2 ≤ 31 := by
  simp only [civilFromDays]
  split_ifs <;> omega

theorem doy_range (doe : Int) (h0 : 0 ≤ doe) (h1 : doe < 146097) :
    0 ≤ doe - (365 * ((doe - doe / 1460 + doe / 36524 - doe / 146096) / 365)
          + (doe - doe / 1460 + doe / 36524 - doe / 146096) / 365 / 4
          - (doe - doe / 1460 + doe / 36524 - doe / 146096) / 365 / 100)
    ∧ doe - (365 * ((doe - doe / 1460 + doe / 36524 - doe / 146096) / 365)
          + (doe - doe / 1460 + doe / 36524 - doe / 146096) / 365 / 4
          - (doe - doe / 1460 + doe / 36524 - doe / 146096) / 365 / 100) ≤ 365
    ∧ 0 ≤ (doe - doe / 1460 + doe / 36524 - doe / 146096) / 365
    ∧ (doe - doe / 1460 + doe / 36524 - doe / 146096) / 365 ≤ 399 := by
  by_cases hlast : doe = 146096
  · subst hlast
    norm_num
  have hC : doe / 146096 = 0 := by omega
  obtain ⟨c, hc, hc0, hc1⟩ : ∃ c : Int, doe / 36524 = c ∧ 0 ≤ c ∧ c ≤ 3 :=
    ⟨_, rfl, by omega, by omega⟩
  obtain ⟨q, hq, hq0, hq1⟩ : ∃ q : Int, (doe - 36524 * c) / 1461 = q ∧ 0 ≤ q ∧ q ≤ 24 :=
    ⟨_, rfl, by omega, by omega⟩
  obtain ⟨A, hA⟩ : ∃ A : Int, doe / 1460 = A := ⟨_, rfl⟩
  have hA2 : A = 25 * c + q ∨ A = 25 * c + q + 1 := by omega
  rw [hC, hc, hA]
  obtain ⟨Y, hY⟩ : ∃ Y : Int, (doe - A + c - 0) / 365 = Y := ⟨_, rfl⟩
  have hY2 : 100 * c + 4 * q ≤ Y ∧ Y ≤ 100 * c + 4 * q + 3 := by omega
  rw [hY]
  have h4 : Y / 4 = 25 * c + q := by omega
  have h100 : Y / 100 = c := by omega
  rw [h4, h100]
  omega

/-- The parts of the computation of `civilFromDays`. -/
theorem civilFromDays_parts (n : Int) :
    ∃ era yoe doy mp : Int,
      n + 719468 = 146097 * era + (365 * yoe + yoe / 4 - yoe / 100) + doy
      ∧ 0 ≤ yoe ∧ yoe ≤ 399 ∧ 0 ≤ mp ∧ mp ≤ 11
      ∧ civilFromDays n
          = (yoe + era * 400 + (if (if mp < 10 then mp + 3 else mp - 9) ≤ 2 then 1 else 0),
             (if mp < 10 then mp + 3 else mp - 9), doy - (153 * mp + 2) / 5 + 1) := by
  obtain ⟨h1, h2, h3, h4⟩ := doy_range ((n + 719468) % 146097) (by omega) (by omega)
  refine ⟨(n + 719468) / 146097,
    ((n + 719468) % 146097 - (n + 719468) % 146097 / 1460 + (n + 719468) % 146097 / 36524
      - (n + 719468) % 146097 / 146096) / 365, _, _, ?_, h3, h4, ?_, ?_, rfl⟩
  · omega
  · omega
  · omega

theorem civilFromDays_injective (m n : Int) (h : civilFromDays m = civilFromDays n) : m = n := by
  obtain ⟨e1, y1, d1, p1, hz1, hy1, hy1', hp1, hp1', hc1⟩ := civilFromDays_parts m
  obtain ⟨e2, y2, d2, p2, hz2, hy2, hy2', hp2, hp2', hc2⟩ := civilFromDays_parts n
  rw [hc1, hc2] at h
  simp only [Prod.mk.injEq] at h
  obtain ⟨h1, h2, h3⟩ := h
  have hp : p1 = p2 := by
    split_ifs at h2 <;> omega
  subst hp
  have hd : d1 = d2 := by omega
  subst hd
  have hye : y1 + e1 * 400 = y2 + e2 * 400 := by
    split_ifs at h1 <;> omega
  have he : e1 = e2 := by omega
  subst he
  have hy : y1 = y2 := by omega
  subst hy
  omega

/-! ## The text of a date determines the day -/

theorem digitChar_value (k : Nat) (h : k < 10) :
    (Nat.digitChar k).toNat - 48 = k ∧ Nat.digitChar k ≠ '-' := by
  interval_cases k <;> decide

theorem decimalFrom_toDigitsCore (fuel n : Nat) (ds : List Char) (h : n < fuel) :
    decimalFrom 0 (Nat.toDigitsCore 10 fuel n ds) = decimalFrom n ds := by
  induction fuel generalizing n ds with
  | zero => omega
  | succ f ih =>
    have hd := (digitChar_value (n % 10) (Nat.mod_lt _ (by decide))).1
    simp only [Nat.toDigitsCore]
    split_ifs with h0
    · simp only [decimalFrom, List.foldl_cons, hd]
      congr 1
      omega
    · rw [ih (n / 10) _ (by omega)]
      simp only [decimalFrom, List.foldl_cons, hd]
      congr 1
      omega

theorem toDigitsCore_no_minus (fuel n : Nat) (ds : List Char) :
    ∀ c ∈ Nat.toDigitsCore 10 fuel n ds, c ∈ ds ∨ c ≠ '-' := by
  induction fuel generalizing n ds with
  | zero => intro c hc; exact Or.inl hc
  | succ f ih =>
    have hd := (digitChar_value (n % 10) (Nat.mod_lt _ (by decide))).2
    intro c hc
    simp only [Nat.toDigitsCore] at hc
    split_ifs at hc with h0
    · rcases List.mem_cons.1 hc with h | h
      · exact Or.inr (h ▸ hd)
      · exact Or.inl h
    · rcases ih _ _ c hc with h | h
      · rcases List.mem_cons.1 h with h | h
        · exact Or.inr (h ▸ hd)
        · exact Or.inl h
      · exact Or.inr h

/-- The characters of `appendInt x width`. -/
theorem appendInt_data (x : Int) (width : Nat) :
    (appendInt x width).data
      = (if x < 0 then ['-'] else [])
          ++ (List.replicate (width - (toString x.natAbs).length) '0'
            ++ Nat.toDigits 10 x.natAbs) := by
  unfold appendInt
  split_ifs <;> simp [String.data_append] <;> rfl

theorem decimalFrom_zeros (k : Nat) (ds : List Char) :
    decimalFrom 0 (List.replicate k '0' ++ ds) = decimalFrom 0 ds := by
  induction k with
  | zero => rfl
  | succ k ih =>
    simp only [List.replicate_succ, List.cons_append, decimalFrom, List.foldl_cons] at ih ⊢
    exact ih

/-- The digits that `appendInt` writes after the sign, and their value. -/
theorem appendInt_digits (x : Int) (width : Nat) :
    ∃ ds : List Char, (appendInt x width).data = (if x < 0 then ['-'] else []) ++ ds
      ∧ decimalFrom 0 ds = x.natAbs ∧ ∀ c ∈ ds, c ≠ '-' := by
  refine ⟨_, appendInt_data x width, ?_, ?_⟩
  · rw [decimalFrom_zeros]
    unfold Nat.toDigits
    rw [decimalFrom_toDigitsCore _ _ _ (Nat.lt_succ_self _)]
    rfl
  · intro c hc
    rcases List.mem_append.1 hc with h | h
    · rw [List.eq_of_mem_replicate h]
      decide
    · unfold Nat.toDigits at h
      rcases toDigitsCore_no_minus _ _ _ c h with h | h
      · simp at h
      · exact h

theorem appendInt_injective (x y : Int) (width : Nat)
    (h : appendInt x width = appendInt y width) : x = y := by
  obtain ⟨dx, hx, vx, nx⟩ := appendInt_digits x width
  obtain ⟨dy, hy, vy, ny⟩ := appendInt_digits y width
  have hd : (appendInt x width).data = (appendInt y width).data := by rw [h]
  rw [hx, hy] at hd
  by_cases h1 : x < 0 <;> by_cases h2 : y < 0
  · simp only [h1, h2, if_true, List.cons_append, List.nil_append, List.cons.injEq,
      true_and] at hd
    rw [hd, vy] at vx
    omega
  · simp only [h1, h2, if_true, if_false, List.cons_append, List.nil_append] at hd
    exact absurd rfl (ny _ (hd ▸ List.mem_cons_self _ _))
  · simp only [h1, h2, if_true, if_false, List.cons_append, List.nil_append] at hd
    exact absurd rfl (nx _ (hd ▸ List.mem_cons_self _ _))
  · simp only [h1, h2, if_false, List.nil_append] at hd
    rw [hd, vy] at vx
    omega

theorem appendInt_two_length (x : Int) (h0 : 1 ≤ x) (h1 : x ≤ 31) :
    (appendInt x 2).data.length = 2 := by
  interval_cases x <;> rfl

/-- The text of a date determines the calendar day. -/
theorem formatDate_injective (t u : Time) (h : formatDate t = formatDate u) :
    t.civilDay = u.civilDay := by
  apply civilFromDays_injective
  obtain ⟨m1, m2, d1, d2⟩ := civilFromDays_month_day t.civilDay
  obtain ⟨m1', m2', d1', d2'⟩ := civilFromDays_month_day u.civilDay
  have hm := appendInt_two_length _ m1 (by omega)
  have hd := appendInt_two_length _ d1 d2
  have hm' := appendInt_two_length _ m1' (by omega)
  have hd' := appendInt_two_length _ d1' d2'
  have hdata : (formatDate t).data = (formatDate u).data := by rw [h]
  simp only [formatDate, String.data_append] at hdata
  have hlen := congrArg List.length hdata
  simp only [List.length_append, hm, hd, hm', hd'] at hlen
  have hlen' : (appendInt (civilFromDays t.civilDay).1 4).data.length
      = (appendInt (civilFromDays u.civilDay).1 4).data.length := by omega
  simp only [List.append_assoc] at hdata
  obtain ⟨e1, e2⟩ := List.append_inj hdata hlen'
  obtain ⟨_, e3⟩ := List.append_inj e2 rfl
  obtain ⟨e4, e5⟩ := List.append_inj e3 (by rw [hm, hm'])
  obtain ⟨_, e6⟩ := List.append_inj e5 rfl
  have a1 := appendInt_injective _ _ 4 (String.ext e1)
  have a2 := appendInt_injective _ _ 2 (String.ext e4)
  have a3 := appendInt_injective _ _ 2 (String.ext e6)
  exact Prod.ext a1 (Prod.ext a2 a3)

theorem civilDay_ofDay (n : Int) : (Time.ofDay n).civilDay = n := by
  simp only [Time.ofDay, Time.civilDay, nsPerDay]
  omega

/-- Different days have different texts. -/
theorem formatDate_ofDay_injective (m n : Int)
    (h : formatDate (Time.ofDay m) = formatDate (Time.ofDay n)) : m = n := by
  have := formatDate_injective _ _ h
  rwa [civilDay_ofDay, civilDay_ofDay] at this

/-! ## The sign rule -/

/-- C8 (sign rule of normalization).  With `start` and `end` the midnights of the days
`a` and `b` and raw system amounts that are `int64` values: every in-range transaction
with a raw amount `>= 0` is found, as often as it occurs, among the system sides of the
matched pairs and the unmatched system records with the amount negated when the type
equals `DEBIT` ignoring case and unchanged otherwise; the system records of the result
are exactly the in-range transactions, a raw amount of any sign negated for `DEBIT`
(the smallest `int64` is its own negation) and unchanged otherwise; the bank sides of
the matched pairs together with all unmatched bank records are exactly the in-range
statement lines with their amounts unchanged.  The tags `debit` and `Debit` count as
`DEBIT`; `CREDIT`, `DEBT` and the empty tag do not. -/
theorem C8_sign_rule (S : SliceSort) (sys : List SystemTransaction)
    (banks : GoMap String (List BankStatement)) (a b : Int)
    (hs : ∀ s ∈ sys, isInt64 s.Amount) :
    ((((sys.filter (fun s => decide (a ≤ sysDay s ∧ sysDay s ≤ b) && decide (0 ≤ s.Amount))).map
        (fun s => (s.TrxID, formatDate (Time.ofDay (sysDay s)),
          if equalFoldDEBIT s.Type_ = true then -s.Amount else s.Amount))
        : List (String × String × Int)) : Multiset (String × String × Int))
      ≤ (((Reconcile S sys banks (Time.ofDay a) (Time.ofDay b)).1.Details.Matched.map sysSide
            : List (String × String × Int)) : Multiset (String × String × Int))
        + (((Reconcile S sys banks (Time.ofDay a) (Time.ofDay b)).1.Details.UnmatchedSystem.map
            recTriple : List (String × String × Int)) : Multiset (String × String × Int)))
    ∧ ((((sys.filter (fun s => decide (a ≤ sysDay s ∧ sysDay s ≤ b))).map
        (fun s => (s.TrxID, formatDate (Time.ofDay (sysDay s)),
          if equalFoldDEBIT s.Type_ = true then
            (if s.Amount = -(2 ^ 63) then s.Amount else -s.Amount)
          else s.Amount))
        : List (String × String × Int)) : Multiset (String × String × Int))
      = (((Reconcile S sys banks (Time.ofDay a) (Time.ofDay b)).1.Details.Matched.map sysSide
            : List (String × String × Int)) : Multiset (String × String × Int))
        + (((Reconcile S sys banks (Time.ofDay a) (Time.ofDay b)).1.Details.UnmatchedSystem.map
            recTriple : List (String × String × Int)) : Multiset (String × String × Int)))
    ∧ ((((banks.flatMap (fun e =>
          e.2.filter (fun x => decide (a ≤ bankDay x ∧ bankDay x ≤ b)))).map
        (fun x => (x.UniqueIdentifier, formatDate (Time.ofDay (bankDay x)), x.Amount))
        : List (String × String × Int)) : Multiset (String × String × Int))
      = (((Reconcile S sys banks (Time.ofDay a) (Time.ofDay b)).1.Details.Matched.map bankSide
            : List (String × String × Int)) : Multiset (String × String × Int))
        + (((GoMap.values (Reconcile S sys banks (Time.ofDay a)
              (Time.ofDay b)).1.Details.UnmatchedBankByGroup).map recTriple
            : List (String × String × Int)) : Multiset (String × String × Int)))
    ∧ equalFoldDEBIT "DEBIT" = true ∧ equalFoldDEBIT "debit" = true
    ∧ equalFoldDEBIT "Debit" = true ∧ equalFoldDEBIT "CREDIT" = false
    ∧ equalFoldDEBIT "DEBT" = false ∧ equalFoldDEBIT "" = false := by
  have hall : ((sys.filter (fun s => decide (a ≤ sysDay s ∧ sysDay s ≤ b))).map
        (fun s => (s.TrxID, formatDate (Time.ofDay (sysDay s)),
          if equalFoldDEBIT s.Type_ = true then
            (if s.Amount = -(2 ^ 63) then s.Amount else -s.Amount)
          else s.Amount))).Perm
      ((Reconcile S sys banks (Time.ofDay a) (Time.ofDay b)).1.Details.Matched.map sysSide
        ++ (Reconcile S sys banks (Time.ofDay a) (Time.ofDay b)).1.Details.UnmatchedSystem.map
            recTriple) := by
    rw [Reconcile_matched, Reconcile_unmatchedSystem]
    have h := (sweepBoth_perm_sys S sys banks (Time.ofDay a) (Time.ofDay b)).map recTriple
    rw [sysInRange_ofDay] at h
    simp only [List.map_append, List.map_map] at h ⊢
    refine List.Perm.trans (List.Perm.of_eq ?_) h.symm
    apply List.map_congr_left
    intro s hsm
    have hs' := hs s (List.mem_of_mem_filter hsm)
    have hw : wrap64 (-s.Amount) = if s.Amount = -(2 ^ 63) then s.Amount else -s.Amount := by
      unfold isInt64 at hs'
      split_ifs with hmin
      · rw [hmin]
        unfold wrap64
        norm_num
      · apply wrap64_of_isInt64
        unfold isInt64
        constructor <;> omega
    simp only [Function.comp, recTriple, normalizedSys, signedAmount, Time.dateOnly, Time.ofDay,
      sysDay, hw]
  refine ⟨?_, ?_, ?_, by decide, by decide, by decide, by decide, by decide, by decide⟩
  · rw [Multiset.coe_add, Multiset.coe_le]
    refine List.Subperm.trans (List.Sublist.subperm ?_) hall.subperm
    have hsub : (sys.filter (fun s =>
          decide (a ≤ sysDay s ∧ sysDay s ≤ b) && decide (0 ≤ s.Amount))).Sublist
        (sys.filter (fun s => decide (a ≤ sysDay s ∧ sysDay s ≤ b))) := by
      apply List.monotone_filter_right
      intro s h
      simp only [Bool.and_eq_true] at h
      exact h.1
    have hmap : (sys.filter (fun s =>
          decide (a ≤ sysDay s ∧ sysDay s ≤ b) && decide (0 ≤ s.Amount))).map
        (fun s => (s.TrxID, formatDate (Time.ofDay (sysDay s)),
          if equalFoldDEBIT s.Type_ = true then -s.Amount else s.Amount))
        = (sys.filter (fun s =>
          decide (a ≤ sysDay s ∧ sysDay s ≤ b) && decide (0 ≤ s.Amount))).map
        (fun s => (s.TrxID, formatDate (Time.ofDay (sysDay s)),
          if equalFoldDEBIT s.Type_ = true then
            (if s.Amount = -(2 ^ 63) then s.Amount else -s.Amount)
          else s.Amount)) := by
      apply List.map_congr_left
      intro s hsm
      have h0 := (List.mem_filter.1 hsm).2
      simp only [Bool.and_eq_true, decide_eq_true_eq] at h0
      have hne : ¬ s.Amount = -(2 ^ 63) := by omega
      simp only [hne, if_false]
    rw [hmap]
    exact hsub.map _
  · rw [Multiset.coe_add, Multiset.coe_eq_coe]
    exact hall
  · rw [Reconcile_matched, Multiset.coe_add, Multiset.coe_eq_coe]
    have h := (sweepBoth_perm_bank S sys banks (Time.ofDay a) (Time.ofDay b)).map
      (fun n => recTriple n.toNormalizedRecord)
    rw [bankInRange_ofDay] at h
    have hv := (Reconcile_values_unmatchedBank S sys banks (Time.ofDay a) (Time.ofDay b)).map
      recTriple
    refine List.Perm.trans ?_ (List.Perm.append_left _ hv.symm)
    simp only [List.map_append, List.map_map, List.map_flatMap] at h ⊢
    refine List.Perm.trans (List.Perm.of_eq ?_) (h.symm.trans (List.Perm.of_eq ?_))
    · rfl
    · congr 1
      apply List.map_congr_left
      intro p hp
      have hp' := (mem_sweepBoth_pairs S sys banks _ _ p hp).2.2.1
      simp [recTriple, bankSide, pairOf, mkPair, hp']

/-- Witness of C8 on the rows of `TestLoadSystemCSV_OK`, one of them a `DEBIT` with a
negative raw amount, followed by the transactions of `TestReconcileBasic`, against the
bank data of `TestReconcileBasic`. -/
theorem C8_sign_rule_witness :
    (∀ s ∈ loaderTxs ++ testSys, isInt64 s.Amount)
    ∧ (([("TRX-1", "2025-06-01", 250000), ("TRX-3", "2025-06-02", 495000),
         ("TRX-1001", "2025-06-01", 250000), ("TRX-1002", "2025-06-01", -125000),
         ("TRX-1003", "2025-06-02", 500000), ("TRX-1004", "2025-06-02", 180000),
         ("TRX-1005", "2025-06-03", -75000), ("TRX-1006", "2025-06-03", 42000)]
          : List (String × String × Int)) : Multiset (String × String × Int))
      ≤ (((Reconcile insertionSlice (loaderTxs ++ testSys) testBanks (Time.ofDay 20240)
            (Time.ofDay 20242)).1.Details.Matched.map sysSide
            : List (String × String × Int)) : Multiset (String × String × Int))
        + (((Reconcile insertionSlice (loaderTxs ++ testSys) testBanks (Time.ofDay 20240)
            (Time.ofDay 20242)).1.Details.UnmatchedSystem.map
            recTriple : List (String × String × Int)) : Multiset (String × String × Int)) :=
  ⟨by decide,
    (C8_sign_rule insertionSlice (loaderTxs ++ testSys) testBanks 20240 20242 (by decide)).1⟩

/-! ## A date with bank records only: the statement -/

/-- The system transaction behind a pair of the sweeps: it is in range, and both records
of the pair have the midnight of its day as date. -/
theorem pair_has_transaction (S : SliceSort) (sys : List SystemTransaction)
    (banks : GoMap String (List BankStatement)) (a b : Int) (p : NormalizedRecord × bankRec)
    (hp : p ∈ (sweepBoth S sys banks (Time.ofDay a) (Time.ofDay b)).pairs) :
    ∃ s ∈ sys, (a ≤ sysDay s ∧ sysDay s ≤ b) ∧ p.1.Date = Time.ofDay (sysDay s)
      ∧ p.2.Date = Time.ofDay (sysDay s) := by
  obtain ⟨h1, _, h3, _, _⟩ := mem_sweepBoth_pairs S sys banks _ _ p hp
  rw [sysInRange_ofDay, List.mem_map] at h1
  obtain ⟨s, hs, hs1⟩ := h1
  simp only [List.mem_filter, decide_eq_true_eq] at hs
  have h4 : p.1.Date = Time.ofDay (sysDay s) := by
    rw [← hs1]
    rfl
  refine ⟨s, hs.1, hs.2, h4, ?_⟩
  rw [← h4]
  first
    | exact h3
    | exact h3.symm

/-- When no pair of the sweeps has a bank record of day `d` in a class of amounts, the
unmatched records of a label of day `d` in that class are the in-range statement lines of
the label of day `d` in that class. -/
theorem bucket_of_unpaired_day (S : SliceSort) (sys : List SystemTransaction)
    (banks : GoMap String (List BankStatement)) (a b : Int)
    (hk : (GoMap.keys banks).Nodup) (d : Int) (c : Int → Bool)
    (hno : ∀ p ∈ (sweepBoth S sys banks (Time.ofDay a) (Time.ofDay b)).pairs,
      ¬ (p.2.Date = Time.ofDay d ∧ c p.2.Amount = true)) (L : String) :
    (((GoMap.get banks L).filter (fun x =>
          decide (a ≤ bankDay x ∧ bankDay x ≤ b) && decide (bankDay x = d) && c x.Amount)).map
        (fun x => ({ ID := x.UniqueIdentifier, Date := Time.ofDay d, Amount := x.Amount }
          : NormalizedRecord))).Perm
      ((GoMap.get (Reconcile S sys banks (Time.ofDay a)
            (Time.ofDay b)).1.Details.UnmatchedBankByGroup L).filter
          (fun u => decide (u.Date = Time.ofDay d) && c u.Amount)) := by
  rw [Reconcile_get_unmatchedBank]
  have h1 := ((sweepBoth_perm_bank S sys banks (Time.ofDay a) (Time.ofDay b)).filter
    (fun n => decide (n.BankName = L))).filter
    (fun n => decide (n.Date = Time.ofDay d) && c n.Amount)
  rw [bankInRange_filter_label banks hk a b L, List.filter_append, List.filter_append] at h1
  have hnil : (((sweepBoth S sys banks (Time.ofDay a) (Time.ofDay b)).pairs.map Prod.snd).filter
      (fun n => decide (n.BankName = L))).filter
      (fun n => decide (n.Date = Time.ofDay d) && c n.Amount) = [] := by
    apply List.filter_eq_nil_iff.2
    intro x hx
    have hx' := List.mem_of_mem_filter hx
    rw [List.mem_map] at hx'
    obtain ⟨p, hp, rfl⟩ := hx'
    have := hno p hp
    simp only [Bool.and_eq_true, decide_eq_true_eq, not_and]
    intro h1 h2
    exact this ⟨h1, h2⟩
  rw [hnil, List.nil_append] at h1
  have h2 := h1.map (fun n : bankRec => n.toNormalizedRecord)
  rw [filter_day_class_map] at h2
  have e : (GoMap.get banks L).filter (fun x =>
        decide (a ≤ bankDay x ∧ bankDay x ≤ b) && decide (bankDay x = d) && c x.Amount)
      = ((GoMap.get banks L).filter (fun x => decide (a ≤ bankDay x ∧ bankDay x ≤ b))).filter
          (fun x => decide (bankDay x = d) && c x.Amount) := by
    rw [List.filter_filter]
    apply List.filter_congr
    intro x _
    cases decide (a ≤ bankDay x ∧ bankDay x ≤ b) <;> cases decide (bankDay x = d) <;>
      cases c x.Amount <;> rfl
  rw [List.filter_map, e]
  exact h2.symm

/-- C15 (single-sided date).  With `start` and `end` the midnights of the days `a` and
`b` and a bank map with pairwise different keys: when no in-range system transaction of
day `d` lies in a sign partition, no pair of `Details.Matched` with the date of day `d`
has a bank amount of that partition, and for every label `L` the records of
`Details.UnmatchedBankByGroup[L]` of day `d` in that partition are exactly the in-range
statement lines of `banks[L]` of day `d` in that partition.  In particular, when no
system transaction at all is of day `d`, no pair of `Details.Matched` has the date of day
`d`, and the records of `Details.UnmatchedBankByGroup[L]` of day `d` are exactly the
in-range statement lines of `banks[L]` of day `d`. -/
theorem C15_single_sided_date (S : SliceSort) (sys : List SystemTransaction)
    (banks : GoMap String (List BankStatement)) (a b : Int)
    (hk : (GoMap.keys banks).Nodup) (d : Int) (neg : Bool)
    (hnone : ∀ s ∈ sys, a ≤ sysDay s ∧ sysDay s ≤ b → sysDay s = d →
      inClass neg (signedAmount s) = false) :
    (∀ m ∈ (Reconcile S sys banks (Time.ofDay a) (Time.ofDay b)).1.Details.Matched,
        m.Date = formatDate (Time.ofDay d) → inClass neg m.BankAmount = false)
    ∧ (∀ L : String,
        ((((GoMap.get banks L).filter (fun x =>
              decide (a ≤ bankDay x ∧ bankDay x ≤ b) && decide (bankDay x = d)
                && inClass neg x.Amount)).map
            (fun x => ({ ID := x.UniqueIdentifier, Date := Time.ofDay d, Amount := x.Amount }
              : NormalizedRecord)) : List NormalizedRecord) : Multiset NormalizedRecord)
          = (((GoMap.get (Reconcile S sys banks (Time.ofDay a)
                (Time.ofDay b)).1.Details.UnmatchedBankByGroup L).filter
              (fun u => decide (u.Date = Time.ofDay d) && inClass neg u.Amount)
              : List NormalizedRecord) : Multiset NormalizedRecord))
    ∧ ((∀ s ∈ sys, sysDay s ≠ d) →
        (∀ m ∈ (Reconcile S sys banks (Time.ofDay a) (Time.ofDay b)).1.Details.Matched,
          m.Date ≠ formatDate (Time.ofDay d))
        ∧ ∀ L : String,
          ((((GoMap.get banks L).filter (fun x =>
                decide (a ≤ bankDay x ∧ bankDay x ≤ b) && decide (bankDay x = d))).map
              (fun x => ({ ID := x.UniqueIdentifier, Date := Time.ofDay d, Amount := x.Amount }
                : NormalizedRecord)) : List NormalizedRecord) : Multiset NormalizedRecord)
            = (((GoMap.get (Reconcile S sys banks (Time.ofDay a)
                  (Time.ofDay b)).1.Details.UnmatchedBankByGroup L).filter
                (fun u => decide (u.Date = Time.ofDay d))
                : List NormalizedRecord) : Multiset NormalizedRecord)) := by
  have hno := no_pair_on_single_sided_date S sys banks a b d neg hnone
  have hdate : ∀ p ∈ (sweepBoth S sys banks (Time.ofDay a) (Time.ofDay b)).pairs,
      (pairOf p).Date = formatDate (Time.ofDay d) →
        p.2.Date = Time.ofDay d ∧ ∃ s ∈ sys, sysDay s = d := by
    intro p hp hm
    obtain ⟨s, hs, _, h1, h2⟩ := pair_has_transaction S sys banks a b p hp
    have h3 : (pairOf p).Date = formatDate (Time.ofDay (sysDay s)) := by
      rw [← h1]
      rfl
    have h4 : sysDay s = d := formatDate_ofDay_injective _ _ (h3.symm.trans hm)
    exact ⟨by rw [h2, h4], s, hs, h4⟩
  refine ⟨?_, ?_, ?_⟩
  · intro m hm hd
    rw [Reconcile_matched, List.mem_map] at hm
    obtain ⟨p, hp, rfl⟩ := hm
    have h1 := (hdate p hp hd).1
    have h2 := hno p hp
    have h3 : (pairOf p).BankAmount = p.2.Amount := rfl
    rw [h3]
    cases hc : inClass neg p.2.Amount
    · rfl
    · exact absurd ⟨h1, hc⟩ h2
  · intro L
    rw [Multiset.coe_eq_coe]
    exact bucket_of_unpaired_day S sys banks a b hk d (inClass neg) hno L
  · intro hall
    constructor
    · intro m hm hd
      rw [Reconcile_matched, List.mem_map] at hm
      obtain ⟨p, hp, rfl⟩ := hm
      obtain ⟨_, s, hs, h4⟩ := hdate p hp hd
      exact hall s hs h4
    · intro L
      rw [Multiset.coe_eq_coe]
      have hno2 : ∀ p ∈ (sweepBoth S sys banks (Time.ofDay a) (Time.ofDay b)).pairs,
          ¬ (p.2.Date = Time.ofDay d ∧ (fun _ : Int => true) p.2.Amount = true) := by
        rintro p hp ⟨h1, _⟩
        obtain ⟨s, hs, _, _, h2⟩ := pair_has_transaction S sys banks a b p hp
        exact hall s hs (ofDay_injective _ _ (h2.symm.trans h1))
      have h := bucket_of_unpaired_day S sys banks a b hk d (fun _ => true) hno2 L
      simpa only [Bool.and_true] using h

/-- Witness of C15: the test transactions have no debit on 2025-06-02; `lonelyBanks` has a
line of -5000 on that day, which stays unmatched, and a line that is matched with
`TRX-1003` on that day. -/
theorem C15_single_sided_date_witness :
    (GoMap.keys lonelyBanks).Nodup
    ∧ (∀ s ∈ testSys, (20240 : Int) ≤ sysDay s ∧ sysDay s ≤ 20242 → sysDay s = 20241 →
        inClass true (signedAmount s) = false)
    ∧ (Reconcile insertionSlice testSys lonelyBanks (Time.ofDay 20240)
          (Time.ofDay 20242)).1.Details.Matched
        = [{ SystemID := "TRX-1003", BankID := "BC-2", BankName := "bankC", Date := "2025-06-02",
             SystemAmount := 500000, BankAmount := 495000, Discrepancy := 5000 }]
    ∧ (∀ m ∈ (Reconcile insertionSlice testSys lonelyBanks (Time.ofDay 20240)
          (Time.ofDay 20242)).1.Details.Matched,
        m.Date = formatDate (Time.ofDay 20241) → inClass true m.BankAmount = false)
    ∧ (((GoMap.get lonelyBanks "bankC").filter (fun x =>
              decide ((20240 : Int) ≤ bankDay x ∧ bankDay x ≤ 20242) && decide (bankDay x = 20241)
                && inClass true x.Amount)).map
            (fun x => ({ ID := x.UniqueIdentifier, Date := Time.ofDay 20241, Amount := x.Amount }
              : NormalizedRecord)) : Multiset NormalizedRecord)
          = (((GoMap.get (Reconcile insertionSlice testSys lonelyBanks (Time.ofDay 20240)
                (Time.ofDay 20242)).1.Details.UnmatchedBankByGroup "bankC").filter
              (fun u => decide (u.Date = Time.ofDay 20241) && inClass true u.Amount)
              : List NormalizedRecord) : Multiset NormalizedRecord) :=
  ⟨by decide, by decide, by decide,
    (C15_single_sided_date insertionSlice testSys lonelyBanks 20240 20242 (by decide) 20241 true
      (by decide)).1,
    (C15_single_sided_date insertionSlice testSys lonelyBanks 20240 20242 (by decide) 20241 true
      (by decide)).2.1 "bankC"⟩

/-! ## Output order: the statement -/

end Amartha
